import Mathlib

set_option linter.dupNamespace false

/-!
# decypharr: provider orchestration and torrent lifecycle

A shallow embedding of the Go sources

* `pkg/store/torrent.go` (`AddTorrent`, `processFiles`, `onSuccess`, `onFailed`,
  `partialTorrentUpdate`, `updateTorrent`),
* `pkg/debrid/debrid.go` (`Process`),
* `pkg/debrid/providers/torbox/links.go` (`GetDownloadLink`, `GetFileDownloadLinks`),
* `pkg/debrid/providers/torbox/torbox.go` (`getTorboxStatus`, `CheckStatus`,
  `GetAvailableSlots`),
* `pkg/debrid/providers/torbox/torrents.go` (`GetTorrent`, `UpdateTorrent`,
  `GetTorrentAvailable`),
* `pkg/debrid/providers/torbox/models/torrent.go` (`UnmarshalJSON`),

followed by the theorems that settle the specification's claims about them.

Conventions of the embedding:

* Go `int`, `int64` and `time.Duration` are `Int` values kept in the signed 64-bit range by
  `wrap64` wherever the source performs arithmetic on them.
* Go `float64` is the type `F64` below: NaN, the two infinities, and the finite values, each
  carried by its exact rational value; every arithmetic result is rounded to the nearest
  binary64 value, ties to even (`F64.round`).
* A Go pointer that may be nil is an `Option`; a Go `error` is an `Option Err`.
* Calls to collaborators outside the sources (vendor HTTP API, symlink creation, the record
  store, the arr client) are inputs of the embedded function; every externally visible call the
  code makes is appended to an event trace, in program order, goroutines included.
-/

namespace Decypharr

/-! ## Machine integers -/

/-- Two's-complement wrap of an integer into the signed 64-bit range. -/
def wrap64 (x : Int) : Int := (x + 2 ^ 63) % 2 ^ 64 - 2 ^ 63

/-- Go `/` on `int64`: truncating division; the single overflowing quotient wraps.
Division by zero panics in Go; every call site guards the divisor. -/
def div64 (a b : Int) : Int := wrap64 (Int.tdiv a b)

/-! ## float64 -/

/-- Go `float64`. Finite values carry their exact rational value; the sign of zero is not
tracked. -/
inductive F64 where
  | nan
  | inf (neg : Bool)
  | fin (q : ℚ)
  deriving DecidableEq

namespace F64

/-- Floor of the base-2 logarithm of a positive rational. -/
def ilog2 (x : ℚ) : ℤ :=
  if 1 ≤ x then (Nat.log2 ⌊x⌋₊ : ℤ)
  else -((if ⌈x⁻¹⌉₊ ≤ 1 then 0 else Nat.log2 (⌈x⁻¹⌉₊ - 1) + 1 : ℕ) : ℤ)

/-- Nearest natural number to a non-negative rational, ties to even. -/
def roundHalfEven (x : ℚ) : ℕ :=
  let f := ⌊x⌋₊
  let r := x - f
  if r < 1 / 2 then f
  else if 1 / 2 < r then f + 1
  else if f % 2 = 0 then f else f + 1

/-- Exponent of the unit in the last place of the binade of `x` (53-bit significand,
subnormals below `2 ^ (-1022)`). -/
def binExp (x : ℚ) : ℤ := max (ilog2 x - 52) (-1074)

/-- Nearest binary64 magnitude to a non-negative rational, before the overflow test. -/
def roundMag (x : ℚ) : ℚ := (roundHalfEven (x / 2 ^ binExp x) : ℚ) * 2 ^ binExp x

/-- Round a rational to binary64: round to nearest, ties to even, overflow to infinity. -/
def round (q : ℚ) : F64 :=
  let r := roundMag |q|
  if (2 : ℚ) ^ (1024 : ℕ) ≤ r then inf (decide (q < 0))
  else fin (if q < 0 then -r else r)

/-- Go `math.IsNaN`. -/
def isNaN : F64 → Bool
  | nan => true
  | _ => false

/-- Go `math.IsInf(f, 0)`: either infinity. -/
def isInf : F64 → Bool
  | inf _ => true
  | _ => false

/-- Go `x != 0` on float64 (NaN compares unequal to everything). -/
def neZero : F64 → Bool
  | fin q => decide (q ≠ 0)
  | _ => true

/-- Sign bit of a value, zero counted as positive. -/
def isNeg : F64 → Bool
  | nan => false
  | inf n => n
  | fin q => decide (q < 0)

/-- Go `x / y` on float64. -/
def div : F64 → F64 → F64
  | nan, _ => nan
  | _, nan => nan
  | inf _, inf _ => nan
  | inf n, fin q => inf (xor n (decide (q < 0)))
  | fin _, inf _ => fin 0
  | fin a, fin b =>
    if b = 0 then (if a = 0 then nan else inf (decide (a < 0)))
    else round (a / b)

/-- Go `x * y` on float64. -/
def mul : F64 → F64 → F64
  | nan, _ => nan
  | _, nan => nan
  | inf n, inf m => inf (xor n m)
  | inf n, fin q => if q = 0 then nan else inf (xor n (decide (q < 0)))
  | fin q, inf n => if q = 0 then nan else inf (xor n (decide (q < 0)))
  | fin a, fin b => round (a * b)

/-- Go `float64(n)` for an `int64` value. -/
def ofInt64 (n : Int) : F64 := round (n : ℚ)

/-- Rational truncated toward zero. -/
def trunc (q : ℚ) : Int := if 0 ≤ q then ⌊q⌋ else ⌈q⌉

/-- Go `int64(f)`. The language leaves the result for NaN and for values outside the int64
range to the implementation; the amd64 result (the most negative int64) is used. -/
def toInt64 : F64 → Int
  | fin q => if -(2 : Int) ^ 63 ≤ trunc q ∧ trunc q < 2 ^ 63 then trunc q else -(2 : Int) ^ 63
  | _ => -(2 : Int) ^ 63

/-- The value lies in the closed unit interval. -/
def inUnit : F64 → Prop
  | fin q => 0 ≤ q ∧ q ≤ 1
  | _ => False

end F64

/-- Go `cmp.Or(a, b)` at type float64: the first argument that is not equal to zero. -/
def cmpOr (a b : F64) : F64 := if a.neZero then a else if b.neZero then b else F64.fin 0

/-! ## Data model -/

/-- Resolved download link (`DownloadLink`). Times are Unix nanoseconds. -/
structure DownloadLink where
  Link : String
  DownloadLink : String
  Id : String
  Generated : Int
  ExpiresAt : Int
  deriving DecidableEq, Repr

/-- Remote file (`types.File`). -/
structure File where
  TorrentId : String
  Id : String
  Name : String
  Size : Int
  Path : String
  Link : String
  DownloadLink : Option DownloadLink
  deriving DecidableEq, Repr

/-- Magnet descriptor (`utils.Magnet`). -/
structure Magnet where
  InfoHash : String
  Name : String
  Size : Int
  Link : String
  deriving DecidableEq, Repr

/-- Arr context (`arr.Arr`): `DownloadUncached` is a pointer, nil meaning "use the provider
default". -/
structure Arr where
  Name : String
  DownloadUncached : Option Bool
  deriving DecidableEq, Repr

/-- Remote torrent (`types.Torrent`, also called `DebridTorrent`). The Go map `Files` is an
association list; the order of its entries stands for no order of the map. The last four fields start at their Go zero value. -/
structure DebridTorrent where
  Id : String
  InfoHash : String
  Name : String
  Size : Int
  Bytes : Int
  Progress : F64
  Status : String
  Speed : Int
  Seeders : Int
  Added : String
  Debrid : String
  MountPath : String
  DownloadUncached : Bool
  Magnet : Option Magnet
  Arr : Option Arr
  Files : List (String × File)
  IsActive : Option Bool := none
  Folder : String := ""
  Filename : String := ""
  OriginalFilename : String := ""
  deriving DecidableEq

/-- File entry of a record (`store.File`). -/
structure RecordFile where
  Index : Int
  Name : String
  Size : Int
  deriving DecidableEq, Repr

/-- Durable torrent record (`store.Torrent`). -/
structure Torrent where
  DebridID : String
  Name : String
  AddedOn : Int
  Files : List RecordFile
  Debrid : String
  Size : Int
  Completed : Int
  NumSeeds : Int
  Downloaded : Int
  DownloadedSession : Int
  Uploaded : Int
  UploadedSession : Int
  AmountLeft : Int
  Progress : F64
  Eta : Int
  Dlspeed : Int
  Upspeed : Int
  SavePath : String
  ContentPath : String
  TorrentPath : String
  State : String
  deriving DecidableEq

/-- Functions outside the sources that the projection calls: `time.Parse(time.RFC3339, s)`
followed by `Unix()` (`none` when parsing fails), `time.Now().Unix()`, `filepath.Join`, and
the method `GetFiles` of the remote torrent, which lists the files of the map `Files` in an
order that the sources do not fix. -/
structure Clock where
  parseRFC3339 : String → Option Int
  now : Int
  joinPath : String → String → String
  GetFiles : DebridTorrent → List File

/-- Go `os.PathSeparator` as a string. -/
def pathSeparator : String := "/"

/-- The values of the file map `Files`, each once: what a loop `range t.Files` visits, in an
order of its own. -/
def DebridTorrent.fileValues (d : DebridTorrent) : List File := d.Files.map Prod.snd

/-! ## `partialTorrentUpdate` (pkg/store/torrent.go) -/

/-- The local `progress` of `partialTorrentUpdate`. -/
def progressOf (p : F64) : F64 :=
  let progress := F64.div (cmpOr p (F64.fin 0)) (F64.fin 100)
  if progress.isNaN || progress.isInf then F64.fin 0 else progress

/-- The local `files` of `partialTorrentUpdate`. -/
def recordFiles (fs : List File) : List RecordFile :=
  fs.enum.map fun (i, f) => { Index := (i : Int), Name := f.Path, Size := f.Size }

/-- Method `partialTorrentUpdate`. -/
def partialTorrentUpdate (c : Clock) (t : Torrent) (debridTorrent : Option DebridTorrent) :
    Torrent :=
  match debridTorrent with
  | none => t
  | some d =>
    let addedOn := match c.parseRFC3339 d.Added with
      | some a => a
      | none => c.now
    let totalSize := d.Bytes
    let progress := progressOf d.Progress
    let sizeCompleted := F64.toInt64 (F64.mul (F64.ofInt64 totalSize) progress)
    let speed : Int := if d.Speed ≠ 0 then d.Speed else 0
    let eta : Int := if speed ≠ 0 then div64 (wrap64 (totalSize - sizeCompleted)) speed else 0
    { t with
      DebridID := d.Id
      Name := d.Name
      AddedOn := addedOn
      Files := recordFiles (c.GetFiles d)
      Debrid := d.Debrid
      Size := totalSize
      Completed := sizeCompleted
      NumSeeds := d.Seeders
      Downloaded := sizeCompleted
      DownloadedSession := sizeCompleted
      Uploaded := sizeCompleted
      UploadedSession := sizeCompleted
      AmountLeft := wrap64 (totalSize - sizeCompleted)
      Progress := progress
      Eta := eta
      Dlspeed := speed
      Upspeed := speed
      ContentPath := c.joinPath t.SavePath d.Name ++ pathSeparator }


/-! ## Errors -/

/-- Go `error` values that occur in the sources. -/
inductive Err where
  /-- An error without structure: `errors.New`, `fmt.Errorf` without a wrapping verb, or a
  collaborator error of no special type. -/
  | msg (s : String)
  /-- Value of type `*utils.HTTPError` with its `Code`. -/
  | http (code : String) (s : String)
  /-- Result of `fmt.Errorf(s + ": %w", e)` for a non-nil `e`. -/
  | wrap (s : String) (e : Err)
  /-- Result of `errors.Join`: the non-nil errors it was given. -/
  | join (es : List Err)

/-- Go `errors.Join(errs...)`: nil values are discarded; the result is nil when nothing is
left. -/
def errorsJoin (errs : List (Option Err)) : Option Err :=
  match errs.filterMap id with
  | [] => none
  | es => some (Err.join es)

/-- Go `fmt.Errorf(s + ": %w", e)`. With a nil operand the verb is formatted as a bad verb and
the result wraps nothing. -/
def fmtErrorfW (s : String) (e : Option Err) : Err :=
  match e with
  | some e => Err.wrap s e
  | none => Err.msg (s ++ ": %!w(<nil>)")

mutual
/-- Go `errors.As(err, &httpErr)` for `*utils.HTTPError`: the code of the first HTTP error in the
depth-first traversal of the error tree. -/
def Err.asHTTP : Err → Option String
  | .msg _ => none
  | .http code _ => some code
  | .wrap _ e => Err.asHTTP e
  | .join es => Err.asHTTPList es
/-- Traversal of the children of a joined error, in order. -/
def Err.asHTTPList : List Err → Option String
  | [] => none
  | e :: es =>
    match Err.asHTTP e with
    | some c => some c
    | none => Err.asHTTPList es
end

/-- The constituent causes of an aggregate error: the errors joined under the wrapping
message (what `Unwrap() []error` of the wrapped value yields), none when nothing is wrapped. -/
def Err.causes : Err → List Err
  | .wrap _ (.join es) => es
  | .join es => es
  | _ => []

/-! ## Provider clients and the registry (pkg/debrid/debrid.go) -/

/-- Provider client as seen by the orchestrator and the lifecycle engine. A vendor call is a
function of the request; `CheckStatus` and `UpdateTorrent` also take the number of earlier
calls of that method on this client, so that successive polls may answer differently.
`DeleteTorrent` has no field: its error is only logged, the call itself is an event. -/
structure Client where
  Name : String
  GetDownloadUncached : Bool
  GetDownloadingStatus : List String
  SubmitMagnet : DebridTorrent → Option DebridTorrent × Option Err
  CheckStatus : Nat → DebridTorrent → Option DebridTorrent × Option Err
  UpdateTorrent : Nat → DebridTorrent → DebridTorrent
  GetFileDownloadLinks : DebridTorrent → DebridTorrent × Option Err

/-- WebDAV cache of a provider (`debridStore.Cache`), by its consumption contract. -/
structure Cache where
  Add : DebridTorrent → Option Err
  GetTorrentFolder : DebridTorrent → String

/-- Registry entry (`Debrid`): a client and its optional cache. -/
structure Debrid where
  cache : Option Cache
  client : Client

/-- Registry (`Storage`): the map `debrids` in iteration order, and `lastUsed`. -/
structure Storage where
  debrids : List (String × Debrid)
  lastUsed : String

/-- Method `Storage.Debrid`. -/
def Storage.Debrid (d : Storage) (name : String) : Option Debrid :=
  (d.debrids.find? fun e => e.1 = name).map Prod.snd

/-- Method `Storage.FilterClients`. -/
def Storage.FilterClients (d : Storage) (filter : Client → Bool) : List (String × Client) :=
  (d.debrids.filter fun e => filter e.2.client).map fun e => (e.1, e.2.client)

/-- Calls `Process` makes on the candidates; `i` is the position of the candidate in the
candidate list. -/
inductive ProcEvent where
  | submit (i : Nat) (t : DebridTorrent)
  | checkStatus (i : Nat) (t : DebridTorrent)
  | deleteTorrent (i : Nat) (id : String)
  deriving DecidableEq

/-- Position of the candidate an event belongs to. -/
def ProcEvent.candidate : ProcEvent → Nat
  | .submit i _ => i
  | .checkStatus i _ => i
  | .deleteTorrent i _ => i

/-- What `Process` returns, with the calls it made, the local slice `errs` and the registry
field `lastUsed` at the moment of return. -/
structure ProcessResult where
  torrent : Option DebridTorrent
  err : Option Err
  trace : List ProcEvent
  errs : List (Option Err)
  lastUsed : String

/-- The policy step at the head of the candidate loop: when neither the override nor the
arr-level setting decides, the request torrent takes the default of the candidate. -/
def Process.requestFor (a : Arr) (overrideDownloadUncached : Bool) (debridTorrent : DebridTorrent)
    (db : Client) : DebridTorrent :=
  if !overrideDownloadUncached && a.DownloadUncached.isNone then
    { debridTorrent with DownloadUncached := db.GetDownloadUncached }
  else debridTorrent

/-- The candidate loop of `Process` and the code after it. `i` counts the candidates already
visited; `dt` is the request torrent, `errs`, `tr` and `lastUsed` the state so far. -/
def Process.loop (a : Arr) (overrideDownloadUncached : Bool) :
    Nat → List Client → DebridTorrent → List (Option Err) → List ProcEvent → String →
    ProcessResult
  | _, [], _, errs, tr, lastUsed =>
    if errs.length = 0 then
      { torrent := none, err := some (Err.msg "failed to process torrent: no clients available"),
        trace := tr, errs := errs, lastUsed := lastUsed }
    else
      { torrent := none, err := some (fmtErrorfW "failed to process torrent" (errorsJoin errs)),
        trace := tr, errs := errs, lastUsed := lastUsed }
  | i, db :: rest, dt, errs, tr, lastUsed =>
    let dt := Process.requestFor a overrideDownloadUncached dt db
    let tr := tr ++ [ProcEvent.submit i dt]
    match db.SubmitMagnet dt with
    | (some dbt, none) =>
      if dbt.Id = "" then
        Process.loop a overrideDownloadUncached (i + 1) rest dt (errs ++ [none]) tr lastUsed
      else
        let dbt := { dbt with Arr := some a }
        let lastUsed := db.Name
        let tr := tr ++ [ProcEvent.checkStatus i dbt]
        match db.CheckStatus 0 dbt with
        | (torrent, some err) =>
          let tr := match torrent with
            | some t => if t.Id ≠ "" then tr ++ [ProcEvent.deleteTorrent i t.Id] else tr
            | none => tr
          Process.loop a overrideDownloadUncached (i + 1) rest dt (errs ++ [some err]) tr lastUsed
        | (none, none) =>
          Process.loop a overrideDownloadUncached (i + 1) rest dt
            (errs ++ [some (Err.msg ("torrent " ++ dbt.Name ++
              " returned nil after checking status"))]) tr lastUsed
        | (some torrent, none) =>
          { torrent := some torrent, err := none, trace := tr, errs := errs,
            lastUsed := lastUsed }
    | (_, err) =>
      Process.loop a overrideDownloadUncached (i + 1) rest dt (errs ++ [err]) tr lastUsed

/-- The request torrent `Process` builds before the loop, policy flag included. -/
def Process.newTorrent (magnet : Magnet) (a : Arr) (overrideDownloadUncached : Bool) :
    DebridTorrent :=
  let debridTorrent : DebridTorrent :=
    { Id := "", InfoHash := magnet.InfoHash, Name := magnet.Name, Size := magnet.Size,
      Bytes := 0, Progress := F64.fin 0, Status := "", Speed := 0, Seeders := 0, Added := "",
      Debrid := "", MountPath := "", DownloadUncached := false, Magnet := some magnet,
      Arr := some a, Files := [] }
  if overrideDownloadUncached then { debridTorrent with DownloadUncached := true }
  else match a.DownloadUncached with
    | some b => { debridTorrent with DownloadUncached := b }
    | none => { debridTorrent with DownloadUncached := false }

/-- The candidate list of `Process`: the registry filtered by the pinned name, in registry
iteration order. -/
def Process.clients (store : Storage) (selectedDebrid : String) : List Client :=
  (store.FilterClients fun c =>
    if selectedDebrid ≠ "" && c.Name ≠ selectedDebrid then false else true).map Prod.snd

/-- Function `Process`. -/
def Process (store : Storage) (selectedDebrid : String) (magnet : Magnet) (a : Arr)
    (_action : String) (overrideDownloadUncached : Bool) : ProcessResult :=
  let clients := Process.clients store selectedDebrid
  if clients.length = 0 then
    { torrent := none, err := some (Err.msg "no debrid clients available"), trace := [],
      errs := [], lastUsed := store.lastUsed }
  else
    Process.loop a overrideDownloadUncached 0 clients
      (Process.newTorrent magnet a overrideDownloadUncached) [] [] store.lastUsed

/-- What trying one candidate yields when it succeeds: the torrent of a submission that
returned no error and a torrent with a non-empty id, followed by a status check that returned
no error and a torrent. -/
def Process.confirms (a : Arr) (req : DebridTorrent) (db : Client) : Option DebridTorrent :=
  match db.SubmitMagnet req with
  | (some dbt, none) =>
    if dbt.Id = "" then none
    else
      match db.CheckStatus 0 { dbt with Arr := some a } with
      | (some torrent, none) => some torrent
      | _ => none
  | _ => none

/-- The id of the doomed submission of one candidate: the submission returned no error and a
torrent with a non-empty id, and the status check returned an error together with a torrent
whose id is non-empty. -/
def Process.doomed (a : Arr) (req : DebridTorrent) (db : Client) : Option String :=
  match db.SubmitMagnet req with
  | (some dbt, none) =>
    if dbt.Id = "" then none
    else
      match db.CheckStatus 0 { dbt with Arr := some a } with
      | (some torrent, some _) => if torrent.Id ≠ "" then some torrent.Id else none
      | _ => none
  | _ => none

/-- The entry that a candidate which does not confirm a torrent appends to `errs`. -/
def Process.failure (a : Arr) (req : DebridTorrent) (db : Client) : Option Err :=
  match db.SubmitMagnet req with
  | (some dbt, none) =>
    if dbt.Id = "" then none
    else
      match db.CheckStatus 0 { dbt with Arr := some a } with
      | (_, some err) => some err
      | (_, none) =>
        some (Err.msg ("torrent " ++ dbt.Name ++ " returned nil after checking status"))
  | (_, err) => err

/-- The calls made on the candidate at position `i` that confirms a torrent. -/
def Process.confirmedCalls (a : Arr) (req : DebridTorrent) (db : Client) (i : Nat) :
    List ProcEvent :=
  match db.SubmitMagnet req with
  | (some dbt, _) => [ProcEvent.submit i req, ProcEvent.checkStatus i { dbt with Arr := some a }]
  | (none, _) => [ProcEvent.submit i req]

/-- The calls made on one candidate at position `i` that does not confirm a torrent. -/
def Process.failedCalls (a : Arr) (req : DebridTorrent) (db : Client) (i : Nat) :
    List ProcEvent :=
  match db.SubmitMagnet req with
  | (some dbt, none) =>
    if dbt.Id = "" then [ProcEvent.submit i req]
    else
      [ProcEvent.submit i req, ProcEvent.checkStatus i { dbt with Arr := some a }] ++
        match Process.doomed a req db with
        | some id => [ProcEvent.deleteTorrent i id]
        | none => []
  | _ => [ProcEvent.submit i req]

/-- The calls made on a run of candidates none of which confirms a torrent, the first one at
position `i`. -/
def Process.failedCallsFrom (a : Arr) (overrideDownloadUncached : Bool) (dt : DebridTorrent) :
    Nat → List Client → List ProcEvent
  | _, [] => []
  | i, db :: rest =>
    Process.failedCalls a (Process.requestFor a overrideDownloadUncached dt db) db i ++
      Process.failedCallsFrom a overrideDownloadUncached dt (i + 1) rest

/-! ## Lifecycle engine (pkg/store/torrent.go) -/

/-- Submission descriptor (`ImportRequest`). Its callbacks `markAsCompleted` and
`markAsFailed` are events. -/
structure ImportRequest where
  Magnet : Magnet
  Arr : Arr
  SelectedDebrid : String
  Action : String
  DownloadUncached : Bool

/-- Externally visible calls of the lifecycle engine, in program order. -/
inductive Event where
  /-- A call made by `Process` on a candidate. -/
  | process (e : ProcEvent)
  /-- The request was handed to the retry queue (`addToQueue`). -/
  | addToQueue
  /-- The `k`-th poll `client.CheckStatus(debridTorrent)` of the poll loop. -/
  | checkStatus (debrid : String) (k : Nat)
  /-- The wait `<-backoff.C` on a timer armed with duration `d` (nanoseconds). -/
  | wait (d : Int)
  /-- Refresh `debridClient.UpdateTorrent(debridTorrent)` made by `updateTorrent`. -/
  | refresh (debrid : String) (k : Nat)
  /-- Remote `DeleteTorrent(id)` on the named provider. -/
  | deleteTorrent (debrid : String) (id : String)
  /-- Arr library rescan `Refresh()`. -/
  | arrRefresh
  /-- Cache insertion `cache.Add(debridTorrent)`. -/
  | cacheAdd (debrid : String)
  /-- Bulk link resolution `client.GetFileDownloadLinks(debridTorrent)`. -/
  | getFileDownloadLinks (debrid : String)
  /-- Record store `AddOrUpdate(t)`. -/
  | storeAddOrUpdate (t : Torrent)
  /-- Record store `Update(t)`. -/
  | storeUpdate (t : Torrent)
  /-- Failure callback `importReq.markAsFailed(err, torrent, debridTorrent)`. -/
  | markAsFailed (err : Err) (t : Torrent)
  /-- Completion callback `importReq.markAsCompleted(torrent, debridTorrent)`. -/
  | markAsCompleted (t : Torrent)

/-- How a run of the engine ended: it returned, it dereferenced a nil pointer, or the
embedding ran out of fuel (the Go code is still looping). -/
inductive Exit where
  | returned
  | panicked
  | outOfFuel
  deriving DecidableEq, Repr

/-- End of a run: the record as left behind, the events so far, and how the run ended. -/
structure Run where
  torrent : Torrent
  trace : List Event
  exit : Exit

/-- The lifecycle engine (`Store`) with the collaborators that are outside the sources. -/
structure Store where
  debrid : Storage
  /-- Field `refreshInterval`, a `time.Duration` in nanoseconds. -/
  refreshInterval : Int
  clock : Clock
  createTorrentFromMagnet : ImportRequest → Torrent
  addToQueue : ImportRequest → Option Err
  processSymlink : Torrent → DebridTorrent → String × Option Err
  createSymlinksWebdav : Torrent → DebridTorrent → String → String → String × Option Err
  processDownload : Torrent → DebridTorrent → String × Option Err
  /-- Helper `utils.RemoveExtension`. -/
  removeExtension : String → String
  /-- Method `IsReady` of the record. -/
  IsReady : Torrent → Bool

/-- Go `time.Second` in nanoseconds. -/
def second : Int := 1000000000

/-- Method `markAsFailed` of the store: set the state and write the record. -/
def markAsFailed (t : Torrent) (tr : List Event) : Torrent × List Event :=
  let t := { t with State := "error" }
  (t, tr ++ [Event.storeAddOrUpdate t])

/-- The goroutine of `onSuccess` and `onFailed` that deletes the remote torrent: looks the
provider up by the name on the remote torrent and calls `DeleteTorrent`. -/
def deleteRemote (s : Store) (debridTorrent : DebridTorrent) (tr : List Event) :
    List Event × Exit :=
  match s.debrid.Debrid debridTorrent.Debrid with
  | none => (tr, Exit.panicked)
  | some _ => (tr ++ [Event.deleteTorrent debridTorrent.Debrid debridTorrent.Id], Exit.returned)

/-- Method `onFailed`. -/
def onFailed (s : Store) (err : Err) (torrent : Torrent) (debridTorrent : DebridTorrent)
    (tr : List Event) : Run :=
  let (torrent, tr) := markAsFailed torrent tr
  let (tr, exit) := deleteRemote s debridTorrent tr
  { torrent := torrent, trace := tr ++ [Event.markAsFailed err torrent], exit := exit }

mutual
/-- Method `updateTorrent`. `fuel` bounds the depth of its recursion, `k` counts the refresh
calls made so far. The `select` always takes the ticker case: the other case waits on a timer
created afresh, for 10 minutes, at every evaluation of the `select`, while the ticker fires
every 100 ms. -/
def updateTorrent (s : Store) :
    Nat → Nat → Torrent → Option DebridTorrent → List Event →
    Option (Torrent × Option DebridTorrent × Nat × List Event)
  | _, k, t, none, tr => some (t, none, k, tr)
  | 0, _, _, some _, _ => none
  | fuel + 1, k, t, some debridTorrent, tr =>
    let refreshed : DebridTorrent × Nat × List Event :=
      match s.debrid.Debrid debridTorrent.Debrid with
      | some deb =>
        if debridTorrent.Status ≠ "downloaded" then
          (deb.client.UpdateTorrent k debridTorrent, k + 1,
            tr ++ [Event.refresh debridTorrent.Debrid k])
        else (debridTorrent, k, tr)
      | none => (debridTorrent, k, tr)
    let debridTorrent := refreshed.1
    let t := partialTorrentUpdate s.clock t (some debridTorrent)
    let t := { t with ContentPath := t.TorrentPath ++ pathSeparator }
    if s.IsReady t then
      let t := { t with State := "pausedUP" }
      some (t, some debridTorrent, refreshed.2.1, refreshed.2.2 ++ [Event.storeUpdate t])
    else
      updateTorrentTicks s fuel refreshed.2.1 t debridTorrent refreshed.2.2
/-- The ticker loop at the end of `updateTorrent`. -/
def updateTorrentTicks (s : Store) :
    Nat → Nat → Torrent → DebridTorrent → List Event →
    Option (Torrent × Option DebridTorrent × Nat × List Event)
  | 0, _, _, _, _ => none
  | fuel + 1, k, t, debridTorrent, tr =>
    if s.IsReady t then
      let t := { t with State := "pausedUP" }
      some (t, some debridTorrent, k, tr ++ [Event.storeUpdate t])
    else
      match updateTorrent s fuel k t (some debridTorrent) tr with
      | none => none
      | some (t, some debridTorrent, k, tr) => updateTorrentTicks s fuel k t debridTorrent tr
      | some (t, none, k, tr) => some (t, none, k, tr)
end

/-- Method `onSuccess`. -/
def onSuccess (s : Store) (fuel : Nat) (torrent : Torrent) (debridTorrent : DebridTorrent)
    (tr : List Event) : Run :=
  match updateTorrent s fuel 0 torrent (some debridTorrent) tr with
  | none => { torrent := torrent, trace := tr, exit := Exit.outOfFuel }
  | some (torrent, dt, _, tr) =>
    let tr := tr ++ [Event.markAsCompleted torrent, Event.arrRefresh]
    let (tr, exit) := deleteRemote s (dt.getD debridTorrent) tr
    { torrent := torrent, trace := tr, exit := exit }

/-- Where the poll loop of `processFiles` leaves the run. -/
inductive Polled where
  /-- The function returned or stopped inside the loop. -/
  | ended (r : Run)
  /-- The loop was left; execution continues at the action switch. -/
  | left (torrent : Torrent) (debridTorrent : DebridTorrent) (tr : List Event)

/-- The poll loop of `processFiles`. `k` counts the polls made, `armed` is the duration the
timer `backoff` is currently armed with. -/
def pollLoop (s : Store) (client : Client) :
    Nat → Nat → Int → Torrent → DebridTorrent → List Event → Polled
  | fuel, k, armed, torrent, debridTorrent, tr =>
    if debridTorrent.Status = "downloaded" then Polled.left torrent debridTorrent tr
    else match fuel with
      | 0 => Polled.ended { torrent := torrent, trace := tr, exit := Exit.outOfFuel }
      | fuel + 1 =>
        let tr := tr ++ [Event.checkStatus debridTorrent.Debrid k]
        match client.CheckStatus k debridTorrent with
        | (dbT, some err) =>
          let tr := match dbT with
            | some d =>
              if d.Id ≠ "" then tr ++ [Event.deleteTorrent debridTorrent.Debrid d.Id] else tr
            | none => tr
          let (torrent, tr) := markAsFailed torrent tr
          let tr := tr ++ [Event.arrRefresh]
          Polled.ended
            { torrent := torrent, trace := tr ++ [Event.markAsFailed err torrent],
              exit := Exit.returned }
        | (none, none) =>
          Polled.ended { torrent := torrent, trace := tr, exit := Exit.panicked }
        | (some dbT, none) =>
          let debridTorrent := dbT
          let torrent := partialTorrentUpdate s.clock torrent (some debridTorrent)
          if debridTorrent.Status = "downloaded" ∨
              ¬ debridTorrent.Status ∈ client.GetDownloadingStatus then
            Polled.left torrent debridTorrent tr
          else
            let tr := tr ++ [Event.wait armed]
            let nextInterval := min (wrap64 (s.refreshInterval * 2)) (30 * second)
            pollLoop s client fuel (k + 1) nextInterval torrent debridTorrent tr

/-- The action switch of `processFiles`, after the poll loop. -/
def postDownload (s : Store) (deb : Debrid) (importReq : ImportRequest) (fuel : Nat)
    (torrent : Torrent) (debridTorrent : DebridTorrent) (tr : List Event) : Run :=
  let client := deb.client
  let debridTorrent := { debridTorrent with Arr := some importReq.Arr }
  if importReq.Action = "symlink" then
    let step : (String × List Event) ⊕ Run :=
      match deb.cache with
      | some cache =>
        let tr := tr ++ [Event.cacheAdd debridTorrent.Debrid]
        match cache.Add debridTorrent with
        | some err => Sum.inr (onFailed s err torrent debridTorrent tr)
        | none =>
          let rclonePath :=
            s.clock.joinPath debridTorrent.MountPath (cache.GetTorrentFolder debridTorrent)
          let torrentFolderNoExt := s.removeExtension debridTorrent.Name
          match s.createSymlinksWebdav torrent debridTorrent rclonePath torrentFolderNoExt with
          | (_, some err) => Sum.inr (onFailed s err torrent debridTorrent tr)
          | (torrentPath, none) => Sum.inl (torrentPath, tr)
      | none =>
        match s.processSymlink torrent debridTorrent with
        | (_, some err) => Sum.inr (onFailed s err torrent debridTorrent tr)
        | (torrentPath, none) => Sum.inl (torrentPath, tr)
    match step with
    | Sum.inr r => r
    | Sum.inl (torrentPath, tr) =>
      let failed : Run :=
        if torrentPath = "" then
          onFailed s (Err.msg ("symlink path is empty for " ++ debridTorrent.Name)) torrent
            debridTorrent tr
        else { torrent := torrent, trace := tr, exit := Exit.returned }
      match failed.exit with
      | Exit.returned =>
        let torrent := { failed.torrent with TorrentPath := torrentPath }
        onSuccess s fuel torrent debridTorrent failed.trace
      | _ => failed
  else if importReq.Action = "download" then
    let tr := tr ++ [Event.getFileDownloadLinks debridTorrent.Debrid]
    match client.GetFileDownloadLinks debridTorrent with
    | (debridTorrent, some err) => onFailed s err torrent debridTorrent tr
    | (debridTorrent, none) =>
      match s.processDownload torrent debridTorrent with
      | (_, some err) => onFailed s err torrent debridTorrent tr
      | (torrentPath, none) =>
        if torrentPath = "" then
          onFailed s (Err.msg ("download path is empty for " ++ debridTorrent.Name)) torrent
            debridTorrent tr
        else
          let torrent := { torrent with TorrentPath := torrentPath }
          onSuccess s fuel torrent debridTorrent tr
  else if importReq.Action = "none" then
    let torrent := { torrent with TorrentPath := "" }
    onSuccess s fuel torrent debridTorrent tr
  else
    { torrent := torrent, trace := tr, exit := Exit.returned }

/-- Method `processFiles`. `fuel` bounds the number of polls and the recursion depth of
`updateTorrent`; `k` is the number of status checks already made on the provider. -/
def processFiles (s : Store) (fuel : Nat) (k : Nat) (torrent : Torrent)
    (debridTorrent : Option DebridTorrent) (importReq : ImportRequest) : Run :=
  match debridTorrent with
  | none => { torrent := torrent, trace := [], exit := Exit.returned }
  | some debridTorrent =>
    match s.debrid.Debrid debridTorrent.Debrid with
    | none => { torrent := torrent, trace := [], exit := Exit.panicked }
    | some deb =>
      match pollLoop s deb.client fuel k s.refreshInterval torrent debridTorrent [] with
      | Polled.ended r => r
      | Polled.left torrent debridTorrent tr =>
        postDownload s deb importReq fuel torrent debridTorrent tr

/-- What `AddTorrent` returns and causes: the returned error, the events of the call itself,
and the run of the goroutine `processFiles` when one was started. -/
structure AddTorrentResult where
  err : Option Err
  trace : List Event
  files : Option Run

/-- Method `AddTorrent`. -/
def AddTorrent (s : Store) (fuel : Nat) (importReq : ImportRequest) : AddTorrentResult :=
  let torrent := s.createTorrentFromMagnet importReq
  let p := Process s.debrid importReq.SelectedDebrid importReq.Magnet importReq.Arr
    importReq.Action importReq.DownloadUncached
  let tr := p.trace.map Event.process
  let proceed (torrent : Torrent) (tr : List Event) : AddTorrentResult :=
    let torrent := partialTorrentUpdate s.clock torrent p.torrent
    let tr := tr ++ [Event.storeAddOrUpdate torrent]
    { err := none, trace := tr, files := some (processFiles s fuel 1 torrent p.torrent importReq) }
  match p.err with
  | some err =>
    match err.asHTTP with
    | some code =>
      if code = "too_many_active_downloads" then
        let tr := tr ++ [Event.addToQueue]
        match s.addToQueue importReq with
        | some err => { err := some err, trace := tr, files := none }
        | none => proceed { torrent with State := "queued" } tr
      else { err := some err, trace := tr, files := none }
    | none => { err := some err, trace := tr, files := none }
  | none => proceed torrent tr

/-! ## Torbox link resolution (pkg/debrid/providers/torbox/links.go) -/

/-- What `MakeRequest` and `json.Unmarshal` yield for one `requestdl` call: an error of the
transport or of the decoder, or the `data` member of the decoded envelope (nil when absent). -/
inductive LinkResponse where
  | failed (err : Err)
  | data (link : Option String)

/-- The Torbox client as far as link resolution reads it: the configured link lifetime, the
vendor answer to `requestdl` by torrent id and file id, and `time.Now()` in the task of a
file id. -/
structure Torbox where
  autoExpiresLinksAfter : Int
  requestdl : String → String → LinkResponse
  now : String → Int

/-- The account-level link cache (`Accounts`): links by key. -/
abbrev LinkCache := List (String × DownloadLink)

/-- Modelled from the spec: `Accounts.SetDownloadLink` is outside the sources. The account-level
link cache owns the download links, keyed by a stable link identity: storing a link under a key
replaces the entry stored under that key, if any, and leaves the other entries alone. -/
def SetDownloadLink (cache : LinkCache) (key : String) (link : DownloadLink) : LinkCache :=
  (key, link) :: cache.filter fun e => e.1 ≠ key

/-- Modelled from the spec: the entry of the link cache stored under a key, if any. -/
def LinkCache.get (cache : LinkCache) (key : String) : Option DownloadLink :=
  (cache.find? fun e => e.1 = key).map Prod.snd

/-- Method `GetDownloadLink`. -/
def GetDownloadLink (tb : Torbox) (t : DebridTorrent) (file : File) :
    Option DownloadLink × Option Err :=
  match tb.requestdl t.Id file.Id with
  | LinkResponse.failed err => (none, some err)
  | LinkResponse.data none => (none, some (Err.msg "error getting download links"))
  | LinkResponse.data (some link) =>
    if link = "" then (none, some (Err.msg "error getting download links"))
    else
      (some { Link := file.Link, DownloadLink := link, Id := file.Id,
              Generated := tb.now file.Id,
              ExpiresAt := tb.now file.Id + tb.autoExpiresLinksAfter }, none)

/-- What one resolution task of `GetFileDownloadLinks` sends on the link channel. -/
def sentLink (tb : Torbox) (t : DebridTorrent) (file : File) : Option DownloadLink :=
  match GetDownloadLink tb t file with
  | (_, some _) => none
  | (link, none) => link

/-- What one resolution task sends on the files channel: the file with its resolved link. -/
def sentFile (tb : Torbox) (t : DebridTorrent) (file : File) : Option File :=
  match GetDownloadLink tb t file with
  | (_, some _) => none
  | (some link, none) => some { file with DownloadLink := some link }
  | (none, none) => some file

/-- What one resolution task sends on the error channel. -/
def sentErr (tb : Torbox) (t : DebridTorrent) (file : File) : Option Err :=
  (GetDownloadLink tb t file).2

/-- Go map assignment `files[name] = file` on the association list. -/
def mapAssign (files : List (String × File)) (name : String) (file : File) :
    List (String × File) :=
  if files.any (fun e => e.1 = name) then
    files.map fun e => if e.1 = name then (name, file) else e
  else files ++ [(name, file)]

/-- The map `files` that `GetFileDownloadLinks` rebuilds from the files channel. -/
def rebuiltFiles (tb : Torbox) (t : DebridTorrent) (fileOrder : List File) :
    List (String × File) :=
  (fileOrder.filterMap (sentFile tb t)).foldl (fun m f => mapAssign m f.Name f) []

/-- Order in which the tasks of `GetFileDownloadLinks` get to send on each of the three
channels. The tasks run concurrently, one per file: every order is possible, so each list is
some permutation of the files of the torrent. -/
structure Schedule where
  linkOrder : List File
  fileOrder : List File
  errOrder : List File

/-- The schedule is one of the torrent: each order lists the files of the torrent once. -/
def Schedule.ofTorrent (sch : Schedule) (t : DebridTorrent) : Prop :=
  sch.linkOrder.Perm t.fileValues ∧ sch.fileOrder.Perm t.fileValues ∧
    sch.errOrder.Perm t.fileValues

/-- What `GetFileDownloadLinks` leaves behind: the torrent, the link cache, the links it
handed to `SetDownloadLink` (in call order), and the error. -/
structure LinksResult where
  torrent : DebridTorrent
  cache : LinkCache
  commits : List DownloadLink
  err : Option Err

/-- Method `GetFileDownloadLinks`, under a schedule of its tasks. -/
def GetFileDownloadLinks (tb : Torbox) (sch : Schedule) (cache : LinkCache)
    (t : DebridTorrent) : LinksResult :=
  let links := sch.linkOrder.filterMap (sentLink tb t)
  let cache := links.foldl (fun c link => SetDownloadLink c link.Link link) cache
  let files := rebuiltFiles tb t sch.fileOrder
  match sch.errOrder.filterMap (sentErr tb t) with
  | err :: _ => { torrent := t, cache := cache, commits := links, err := some err }
  | [] => { torrent := { t with Files := files }, cache := cache, commits := links, err := none }

/-! ## Observations on runs -/

/-- The events up to the point where the poll loop left the run. -/
def Polled.trace : Polled → List Event
  | Polled.ended r => r.trace
  | Polled.left _ _ tr => tr

/-- The duration of a backoff wait, for a wait event. -/
def Event.waited : Event → Option Int
  | Event.wait d => some d
  | _ => none

/-- The backoff waits of a trace, in order. -/
def waits (tr : List Event) : List Int := tr.filterMap Event.waited

/-- The failure callback fired. -/
def Event.isMarkAsFailed : Event → Bool
  | Event.markAsFailed _ _ => true
  | _ => false

/-- The completion callback fired. -/
def Event.isMarkAsCompleted : Event → Bool
  | Event.markAsCompleted _ => true
  | _ => false

/-- The states of the records written to the store, in order. -/
def storedStates (tr : List Event) : List String :=
  tr.filterMap fun e =>
    match e with
    | Event.storeAddOrUpdate t => some t.State
    | Event.storeUpdate t => some t.State
    | _ => none

/-! ## Sample inputs -/

/-- A clock on which no timestamp parses. -/
def sampleClock : Clock :=
  { parseRFC3339 := fun _ => none, now := 0, joinPath := fun a b => a ++ "/" ++ b,
    GetFiles := fun d => d.fileValues }

/-- A fresh record in state `downloading`. -/
def sampleRecord : Torrent :=
  { DebridID := "", Name := "sintel", AddedOn := 0, Files := [], Debrid := "", Size := 0,
    Completed := 0, NumSeeds := 0, Downloaded := 0, DownloadedSession := 0, Uploaded := 0,
    UploadedSession := 0, AmountLeft := 0, Progress := F64.fin 0, Eta := 0, Dlspeed := 0,
    Upspeed := 0, SavePath := "/downloads", ContentPath := "", TorrentPath := "",
    State := "downloading" }

/-- A remote torrent of provider `torbox` with id 42, still downloading. -/
def sampleRemote : DebridTorrent :=
  { Id := "42", InfoHash := "08ada5a7", Name := "sintel", Size := 1000, Bytes := 1000,
    Progress := F64.fin 0, Status := "downloading", Speed := 0, Seeders := 0, Added := "",
    Debrid := "torbox", MountPath := "/mnt", DownloadUncached := false, Magnet := none,
    Arr := none, Files := [] }

/-- A magnet. -/
def sampleMagnet : Magnet :=
  { InfoHash := "08ada5a7", Name := "sintel", Size := 1000, Link := "magnet:?xt=urn:btih:08ada5a7" }

/-- An arr context without a setting of its own. -/
def sampleArr : Arr := { Name := "radarr", DownloadUncached := none }

/-- A provider that accepts every magnet under id 42 and reports it as downloading for the
first three status checks and as downloaded from then on. -/
def sampleClient : Client :=
  { Name := "torbox", GetDownloadUncached := true, GetDownloadingStatus := ["downloading"],
    SubmitMagnet := fun t => (some { t with Id := "42", Debrid := "torbox" }, none),
    CheckStatus := fun k t =>
      (some { t with Status := if k < 3 then "downloading" else "downloaded" }, none),
    UpdateTorrent := fun _ t => t,
    GetFileDownloadLinks := fun t => (t, none) }

/-- A provider whose submission returns the given torrent and error and whose status check
fails with an error, handing the torrent back. -/
def failingClient (name : String) (dbt : Option DebridTorrent) (err : Option Err) : Client :=
  { Name := name, GetDownloadUncached := false, GetDownloadingStatus := ["downloading"],
    SubmitMagnet := fun _ => (dbt, err),
    CheckStatus := fun _ t => (some t, some (Err.msg "torrent: not cached")),
    UpdateTorrent := fun _ t => t,
    GetFileDownloadLinks := fun t => (t, none) }

/-- A registry of the given clients, none with a cache. -/
def storageOf (clients : List Client) : Storage :=
  { debrids := clients.map fun c => (c.Name, { cache := none, client := c }), lastUsed := "" }

/-- An engine over the given providers with a refresh interval of one second, on which symlink
creation yields the given path without error and the record is ready as `ready` says. -/
def storeOf (clients : List Client) (symlinkPath : String) (ready : Torrent → Bool) : Store :=
  { debrid := storageOf clients, refreshInterval := second, clock := sampleClock,
    createTorrentFromMagnet := fun _ => sampleRecord, addToQueue := fun _ => none,
    processSymlink := fun _ _ => (symlinkPath, none),
    createSymlinksWebdav := fun _ _ _ _ => (symlinkPath, none),
    processDownload := fun _ _ => ("/downloads/sintel", none),
    removeExtension := fun n => n, IsReady := ready }

/-- An import request for the sample magnet with the given action. -/
def requestOf (action : String) : ImportRequest :=
  { Magnet := sampleMagnet, Arr := sampleArr, SelectedDebrid := "", Action := action,
    DownloadUncached := false }

/-- A remote file of torrent 42 with the placeholder link of a finished download. -/
def sampleFile (id : String) (name : String) : File :=
  { TorrentId := "42", Id := id, Name := name, Size := 700, Path := name,
    Link := "torbox://42/" ++ id, DownloadLink := none }

/-- The remote torrent 42 with three files. -/
def threeFiles : DebridTorrent :=
  { sampleRemote with
    Status := "downloaded"
    Files := [("a.mkv", sampleFile "1" "a.mkv"), ("b.mkv", sampleFile "2" "b.mkv"),
              ("c.mkv", sampleFile "3" "c.mkv")] }

/-- A Torbox client for which the vendor resolves every file but the one with id 2. -/
def sampleTorbox : Torbox :=
  { autoExpiresLinksAfter := 172800 * second,
    requestdl := fun _ fileId =>
      if fileId = "2" then LinkResponse.failed (Err.msg "timeout")
      else LinkResponse.data (some ("https://cdn.torbox.app/" ++ fileId)),
    now := fun _ => 0 }

/-- The schedule on which the tasks of a torrent finish in the order of its file map. -/
def Schedule.inOrder (t : DebridTorrent) : Schedule :=
  { linkOrder := t.fileValues, fileOrder := t.fileValues, errOrder := t.fileValues }

/-- The link the sample vendor resolves for the sample file with the given id. -/
def sampleLink (id : String) : DownloadLink :=
  { Link := "torbox://42/" ++ id, DownloadLink := "https://cdn.torbox.app/" ++ id, Id := id,
    Generated := 0, ExpiresAt := 172800 * second }

/-! ## The steps of `updateTorrent`, named -/

/-- The refresh at the head of `updateTorrent`: the remote torrent, the count of refresh calls
and the events after it. -/
def updateTorrent.refreshed (s : Store) (k : Nat) (debridTorrent : DebridTorrent)
    (tr : List Event) : DebridTorrent × Nat × List Event :=
  match s.debrid.Debrid debridTorrent.Debrid with
  | some deb =>
    if debridTorrent.Status ≠ "downloaded" then
      (deb.client.UpdateTorrent k debridTorrent, k + 1,
        tr ++ [Event.refresh debridTorrent.Debrid k])
    else (debridTorrent, k, tr)
  | none => (debridTorrent, k, tr)

/-- The record `updateTorrent` tests for readiness: projected, with the content path set. -/
def updateTorrent.projected (s : Store) (t : Torrent) (debridTorrent : DebridTorrent) : Torrent :=
  { partialTorrentUpdate s.clock t (some debridTorrent) with
    ContentPath := (partialTorrentUpdate s.clock t (some debridTorrent)).TorrentPath ++
      pathSeparator }

/-! ## Torbox status normalisation (pkg/debrid/providers/torbox/torbox.go) -/

/-- The class `\s` of Go regular expressions: tab, line feed, form feed, carriage return and
space. -/
def isSpace (c : Char) : Bool :=
  c = Char.ofNat 9 || c = Char.ofNat 10 || c = Char.ofNat 12 || c = Char.ofNat 13 || c = ' '

/-- The class `.` of Go regular expressions without the flag `s`: every character but the
line feed. -/
def isDot (c : Char) : Bool := c ≠ Char.ofNat 10

/-- Greedy repetition `x*` of a character class followed by the rest `k` of the pattern: the
longest repetition is tried first. The result is the input left after the match. -/
def greedyStar (p : Char → Bool) (k : List Char → Option (List Char)) :
    List Char → Option (List Char)
  | [] => k []
  | c :: cs =>
    if p c then
      match greedyStar p k cs with
      | some rest => some rest
      | none => k (c :: cs)
    else k (c :: cs)

/-- Lazy repetition `x*?` of a character class followed by the rest `k` of the pattern: the
shortest repetition is tried first. -/
def lazyStar (p : Char → Bool) (k : List Char → Option (List Char)) :
    List Char → Option (List Char)
  | [] => k []
  | c :: cs =>
    match k (c :: cs) with
    | some rest => some rest
    | none => if p c then lazyStar p k cs else none

/-- A literal character followed by the rest `k` of the pattern. -/
def literal (ch : Char) (k : List Char → Option (List Char)) : List Char → Option (List Char)
  | [] => none
  | c :: cs => if c = ch then k cs else none

/-- The pattern `\s*\(.*?\)\s*` of `getTorboxStatus`, matched at the head of the input: the
input left after the preferred match, if there is a match. -/
def annotationAt : List Char → Option (List Char) :=
  greedyStar isSpace (literal '(' (lazyStar isDot (literal ')' (greedyStar isSpace some))))

/-- Go `ReplaceAllString(s, "")` for that pattern: the leftmost match is removed and the search
goes on behind it. `fuel` bounds the number of steps; the length of the input is enough. -/
def replaceAllAnnotations : Nat → List Char → List Char
  | 0, s => s
  | _ + 1, [] => []
  | fuel + 1, c :: cs =>
    match annotationAt (c :: cs) with
    | some rest => replaceAllAnnotations fuel rest
    | none => c :: replaceAllAnnotations fuel cs

/-- The local `downloadedStatuses` of `getTorboxStatus`. -/
def downloadedStatuses : List String := ["completed", "cached", "downloaded"]

/-- The local `downloadingStatuses` of `getTorboxStatus`. -/
def downloadingStatuses : List String :=
  ["paused", "downloading", "pausedDL", "pausedUP", "queuedUP", "forcedUP", "metaDL",
   "stopped seeding", "stalled", "queuedDL", "forcedDL", "moving", "allocating", "checkingUP",
   "checkingDL", "checkingResumeData"]

/-- The local `seedingStatuses` of `getTorboxStatus`. -/
def seedingStatuses : List String := ["seeding", "uploading"]

/-- Method `getTorboxStatus`. -/
def getTorboxStatus (status : String) (finished : Bool) : String :=
  if finished then "downloaded"
  else
    let cleanStatus := String.mk (replaceAllAnnotations status.length status.toList)
    if cleanStatus ∈ downloadedStatuses then "downloaded"
    else if cleanStatus ∈ downloadingStatuses then "downloading"
    else if cleanStatus ∈ seedingStatuses then "seeding"
    else "error"

/-! ### The reference normaliser of the specification -/

/-- Whitespace, for the reference: the blank, the tab, the line feed, the carriage return and
the form feed. -/
def isBlank (c : Char) : Bool :=
  c = ' ' || c = '\t' || c = '\n' || c = '\r' || c.toNat = 12

/-- The aliases of `downloaded`, as the specification lists them. -/
def downloadedAliases : List String := ["completed", "cached", "downloaded"]

/-- The aliases of `downloading`: the vendor's names for a transfer that is under way, held,
queued, stalled, being checked or being moved. -/
def downloadingAliases : List String :=
  ["allocating", "checkingDL", "checkingResumeData", "checkingUP", "downloading", "forcedDL",
   "forcedUP", "metaDL", "moving", "paused", "pausedDL", "pausedUP", "queuedDL", "queuedUP",
   "stalled", "stopped seeding"]

/-- The aliases of `seeding`, as the specification lists them. -/
def seedingAliases : List String := ["seeding", "uploading"]

/-- The input behind the closing parenthesis of a group: the first `)`, which has to come
before any line break. -/
def closingParen : List Char → Option (List Char)
  | [] => none
  | c :: cs => if c = ')' then some cs else if c = '\n' then none else closingParen cs

/-- A parenthetical annotation at the head of the input: whitespace, a `(`, text up to the next
`)` on the same line, whitespace. The result is the input behind the annotation. -/
def annotationGroup (s : List Char) : Option (List Char) :=
  match s.dropWhile isBlank with
  | [] => none
  | c :: inner =>
    if c = '(' then (closingParen inner).map fun rest => rest.dropWhile isBlank else none

/-- The input with every parenthetical annotation removed, from left to right. -/
def stripAnnotations : Nat → List Char → List Char
  | 0, s => s
  | _ + 1, [] => []
  | fuel + 1, c :: cs =>
    match annotationGroup (c :: cs) with
    | some rest => stripAnnotations fuel rest
    | none => c :: stripAnnotations fuel cs

/-- The reference normaliser of the specification: `downloaded` under the finished flag;
otherwise the raw status without its parenthetical annotations is classified by the alias set
it belongs to, and is `error` when it belongs to none. -/
def normalizeStatus (rawStatus : String) (finishedFlag : Bool) : String :=
  if finishedFlag then "downloaded"
  else
    let s := String.mk (stripAnnotations rawStatus.length rawStatus.toList)
    if s ∈ seedingAliases then "seeding"
    else if s ∈ downloadingAliases then "downloading"
    else if s ∈ downloadedAliases then "downloaded"
    else "error"

/-! ## Torbox slots (pkg/debrid/providers/torbox/torbox.go) -/

/-- Provider profile (`debridModels.Profile`), the fields the client sets. `Tier` is the Go
field `Type`, a reserved word here. -/
structure Profile where
  Name : String
  Id : Int
  Username : String
  Email : String
  Tier : String
  deriving DecidableEq, Repr

/-- The local map `planSlots` of `GetAvailableSlots`, as a lookup. -/
def planSlots (tier : String) : Option Int :=
  if tier = "essential" then some 3
  else if tier = "standard" then some 5
  else if tier = "pro" then some 10
  else none

/-- The counting loop of `GetAvailableSlots`. -/
def countActive : List DebridTorrent → Int → Int
  | [], activeCount => activeCount
  | t :: rest, activeCount =>
    match t.IsActive with
    | some false => countActive rest (activeCount + 1)
    | _ => countActive rest activeCount

/-- Method `GetAvailableSlots`, given what `GetProfile` and `GetTorrents` return (an error, or
a profile and a list of torrents). -/
def GetAvailableSlots (getProfile : Err ⊕ Profile) (getTorrents : Err ⊕ List DebridTorrent) :
    Option Int × Option Err :=
  let accountSlots : Int := 1
  match getProfile with
  | Sum.inl err => (none, some err)
  | Sum.inr profile =>
    let accountSlots :=
      match planSlots profile.Tier with
      | some slots => slots
      | none => accountSlots
    match getTorrents with
    | Sum.inl err => (none, some err)
    | Sum.inr activeTorrents =>
      let activeCount := countActive activeTorrents 0
      (some (max (accountSlots - activeCount) 0), none)

/-- The plan quota of the specification: 3 for `essential`, 5 for `standard`, 10 for `pro`,
1 for any other tier. -/
def planQuota (tier : String) : Int :=
  if tier = "pro" then 10 else if tier = "standard" then 5 else if tier = "essential" then 3
  else 1

/-! ## Vendor responses (pkg/debrid/providers/torbox/models) -/

/-- Response envelope (`BaseResponse`). -/
structure BaseResponse (T : Type) where
  Success : Bool
  Error : Option String
  Detail : String
  Data : Option T

/-- What `MakeRequest` followed by `json.Unmarshal` yields: an error of the request, an error
of the decoder, or the decoded envelope. -/
inductive Fetched (T : Type) where
  | requestFailed (err : Err)
  | decodeFailed (err : Err)
  | decoded (res : BaseResponse T)

/-- How a call ends: it panics (a nil pointer is dereferenced), or it returns. -/
inductive Call (α : Type) where
  | panic
  | ret (a : α)

/-- Vendor file (`TorboxFile`), the members the client reads. -/
structure TorboxFile where
  Id : Int
  Name : String
  Size : Int
  AbsolutePath : String
  deriving DecidableEq, Repr

/-- Vendor torrent (`models.Torrent`), the members the client reads. -/
structure TorboxTorrent where
  Id : Int
  Hash : String
  Name : String
  Size : Int
  Active : Bool
  CreatedAt : String
  DownloadState : String
  Seeds : Int
  Progress : F64
  DownloadSpeed : Int
  Files : List TorboxFile
  DownloadFinished : Bool
  deriving DecidableEq

/-- Entry of the availability response (`BasicTorrentResponse`), the member the client reads. -/
structure BasicTorrentResponse where
  Size : Option Int
  deriving DecidableEq, Repr

/-! ## Torbox availability probe (pkg/debrid/providers/torbox/torrents.go) -/

/-- Go `result[key] = true` on the association list. -/
def setTrue (result : List (String × Bool)) (key : String) : List (String × Bool) :=
  if result.any (fun e => e.1 = key) then
    result.map fun e => if e.1 = key then (key, true) else e
  else result ++ [(key, true)]

/-- What `GetTorrentAvailable` returns, with the hash groups of the requests it sent. -/
structure AvailabilityRun where
  result : List (String × Bool)
  requests : List (List String)

/-- The loop of `GetTorrentAvailable`. `checkcached n group` is what the `n`-th request, for
the hash group `group`, yields; `toUpper` is `strings.ToUpper`; `i` is the loop variable. -/
def GetTorrentAvailable.loop
    (checkcached : Nat → List String → Fetched (List (String × BasicTorrentResponse)))
    (toUpper : String → String) (hashes : List String) :
    Nat → Nat → List (String × Bool) → List (List String) → AvailabilityRun
  | 0, _, result, requests => { result := result, requests := requests }
  | fuel + 1, i, result, requests =>
    if i < hashes.length then
      let validHashes := ((hashes.drop i).take 100).filter fun hash => hash ≠ ""
      if validHashes.length = 0 then
        GetTorrentAvailable.loop checkcached toUpper hashes fuel (i + 100) result requests
      else
        let sent := requests ++ [validHashes]
        match checkcached requests.length validHashes with
        | Fetched.requestFailed _ => { result := result, requests := sent }
        | Fetched.decodeFailed _ => { result := result, requests := sent }
        | Fetched.decoded res =>
          match res.Data with
          | none => { result := result, requests := sent }
          | some data =>
            let result := data.foldl
              (fun r hc =>
                match hc.2.Size with
                | some size => if size > 0 then setTrue r (toUpper hc.1) else r
                | none => r) result
            GetTorrentAvailable.loop checkcached toUpper hashes fuel (i + 100) result sent
    else { result := result, requests := requests }

/-- Method `GetTorrentAvailable`. The loop variable grows by 100 per round, so as many rounds
as there are hashes are enough. -/
def GetTorrentAvailable
    (checkcached : Nat → List String → Fetched (List (String × BasicTorrentResponse)))
    (toUpper : String → String) (hashes : List String) : AvailabilityRun :=
  GetTorrentAvailable.loop checkcached toUpper hashes hashes.length 0 [] []

/-- Consecutive groups of `n` elements of a list, the last one possibly shorter. `fuel`
bounds the number of groups. -/
def chunks {α : Type} (n : Nat) : Nat → List α → List (List α)
  | 0, _ => []
  | fuel + 1, l => if l.length = 0 then [] else l.take n :: chunks n fuel (l.drop n)

/-- Consecutive groups of `n` elements of a list. -/
def chunksOf {α : Type} (n : Nat) (l : List α) : List (List α) := chunks n l.length l

/-- The hash groups of the input list that carry a hash: each group of 100 without its empty
strings, the groups left empty dropped. -/
def hashGroups (fuel : Nat) (hashes : List String) : List (List String) :=
  ((chunks 100 fuel hashes).map fun g => g.filter fun hash => hash ≠ "").filter
    fun g => g.length ≠ 0

/-- Whether a request of the probe finds data: it neither fails in the transport or in the
decoder, nor comes back without the `data` member. -/
def foundData (r : Fetched (List (String × BasicTorrentResponse))) : Bool :=
  match r with
  | Fetched.decoded res => res.Data.isSome
  | _ => false

/-- The groups of a list of hash groups that are sent, `n` requests having been sent before:
all groups in order, up to and including the first one whose request fails or finds no
data. -/
def sentGroups
    (checkcached : Nat → List String → Fetched (List (String × BasicTorrentResponse))) :
    Nat → List (List String) → List (List String)
  | _, [] => []
  | n, g :: gs =>
    if foundData (checkcached n g) then g :: sentGroups checkcached (n + 1) gs else [g]

/-- Every request of the probe finds data. -/
def alwaysCached : Nat → List String → Fetched (List (String × BasicTorrentResponse)) :=
  fun _ group =>
    Fetched.decoded
      { Success := true, Error := none, Detail := "",
        Data := some (group.map fun h => (h, { Size := some 700 })) }

/-- The first request of the probe finds data, every later one fails. -/
def cachedOnce : Nat → List String → Fetched (List (String × BasicTorrentResponse)) :=
  fun n group =>
    if n = 0 then alwaysCached n group else Fetched.requestFailed (Err.msg "timeout")

/-! ## Torbox refresh (pkg/debrid/providers/torbox/torrents.go) -/

/-- The Torbox client as far as the torrent calls read it, with the configuration filters and
the library helpers that are outside the sources (`utils.IsSampleFile`, `cfg.IsAllowedFile`,
`cfg.IsSizeAllowed`, `filepath.Base`, `path.Clean`). -/
structure TorboxClient where
  name : String
  MountPath : String
  addSamples : Bool
  DownloadingStatus : List String
  IsSampleFile : String → Bool
  IsAllowedFile : String → Bool
  IsSizeAllowed : Int → Bool
  filepathBase : String → String
  pathClean : String → String

/-- Go `strings.Split(s, "/")[0]`: the text before the first slash. -/
def firstSegment (s : String) : String := String.mk (s.toList.takeWhile fun c => c ≠ '/')

/-- The file loop of `UpdateTorrent`: the file map built from the vendor files that pass the
filters, for the torrent id `torrentId`. -/
def UpdateTorrent.files (tb : TorboxClient) (torrentId : String) (finished : Bool)
    (files : List TorboxFile) : List (String × File) :=
  files.foldl
    (fun m f =>
      let fileName := tb.filepathBase f.Name
      if !tb.addSamples && tb.IsSampleFile f.AbsolutePath then m
      else if !tb.IsAllowedFile fileName then m
      else if !tb.IsSizeAllowed f.Size then m
      else
        let file : File :=
          { TorrentId := torrentId, Id := toString f.Id, Name := fileName, Size := f.Size,
            Path := fileName, Link := "", DownloadLink := none }
        let file : File :=
          if finished then { file with Link := "torbox://" ++ torrentId ++ "/" ++ toString f.Id }
          else file
        mapAssign m fileName file)
    []

/-- Method `UpdateTorrent` of the Torbox client, given what the request and the decoder
yield. The torrent is refreshed in place; the result is the torrent after the call and the
returned error. -/
def Torbox.UpdateTorrent (tb : TorboxClient) (fetched : Fetched TorboxTorrent)
    (t : DebridTorrent) : Call (DebridTorrent × Option Err) :=
  match fetched with
  | Fetched.requestFailed err => Call.ret (t, some err)
  | Fetched.decodeFailed err => Call.ret (t, some err)
  | Fetched.decoded res =>
    match res.Data with
    | none => Call.panic
    | some data =>
      let name := data.Name
      let files := UpdateTorrent.files tb t.Id data.DownloadFinished data.Files
      let cleanPath :=
        if files.length > 0 then
          match data.Files with
          | f :: _ => tb.pathClean f.Name
          | [] => tb.pathClean data.Name
        else tb.pathClean data.Name
      Call.ret
        ({ t with
            Name := name
            Bytes := data.Size
            Folder := name
            Progress := F64.mul data.Progress (F64.fin 100)
            Status := getTorboxStatus data.DownloadState data.DownloadFinished
            Speed := data.DownloadSpeed
            Seeders := data.Seeds
            Filename := name
            OriginalFilename := firstSegment cleanPath
            MountPath := tb.MountPath
            Debrid := tb.name
            Files := files }, none)

/-- A Torbox client that keeps every file. -/
def sampleTorboxClient : TorboxClient :=
  { name := "torbox", MountPath := "/mnt", addSamples := false,
    DownloadingStatus := ["downloading"], IsSampleFile := fun _ => false,
    IsAllowedFile := fun _ => true, IsSizeAllowed := fun _ => true,
    filepathBase := fun p => p, pathClean := fun p => p }

/-- A vendor torrent that is still downloading. -/
def sampleVendorTorrent : TorboxTorrent :=
  { Id := 42, Hash := "08ada5a7", Name := "sintel", Size := 1000, Active := true,
    CreatedAt := "2024-01-01T00:00:00Z", DownloadState := "downloading", Seeds := 4,
    Progress := F64.fin 0, DownloadSpeed := 300,
    Files := [{ Id := 1, Name := "sintel.mkv", Size := 1000, AbsolutePath := "/sintel.mkv" }],
    DownloadFinished := false }

/-- A rejection of the vendor: `success` false, an error code, and the given data member. -/
def rejection (data : Option TorboxTorrent) : BaseResponse TorboxTorrent :=
  { Success := false, Error := some "DATABASE_ERROR", Detail := "torrent not found",
    Data := data }

/-! ## Torbox status check (pkg/debrid/providers/torbox/torbox.go) -/

/-- One pass through the body of a Go `for` loop: the loop goes round again with a new state,
or the function returns a result. -/
inductive Pass (σ ρ : Type) where
  | again (s : σ)
  | done (r : ρ)

/-- The body of the loop of `CheckStatus`, given what the request of this pass yields. The
torrent is a pointer, `none` being nil: `UpdateTorrent` reads `t.Id` before anything else, so
a nil torrent panics inside it and the test `torrent == nil` after it never holds. -/
def CheckStatus.pass (tb : TorboxClient) (fetched : Fetched TorboxTorrent)
    (torrent : Option DebridTorrent) :
    Call (Pass (Option DebridTorrent) (Option DebridTorrent × Option Err)) :=
  match torrent with
  | none => Call.panic
  | some t =>
    match Torbox.UpdateTorrent tb fetched t with
    | Call.panic => Call.panic
    | Call.ret (t, err) =>
      if err.isSome then Call.ret (Pass.done (some t, err))
      else
        let status := t.Status
        if status = "downloaded" then Call.ret (Pass.done (some t, none))
        else if status ∈ tb.DownloadingStatus then
          if !t.DownloadUncached then
            Call.ret (Pass.done (some t, some (Err.msg ("torrent: " ++ t.Name ++ " not cached"))))
          else Call.ret (Pass.done (some t, none))
        else
          Call.ret (Pass.done (some t, some (Err.msg ("torrent: " ++ t.Name ++ " has error"))))

/-- End of a call of `CheckStatus`: the returned torrent and error, how the call ended, and
how many times `UpdateTorrent` was called. -/
structure CheckRun where
  torrent : Option DebridTorrent
  err : Option Err
  exit : Exit
  refreshes : Nat

/-- The loop `for { ... }` of `CheckStatus` after `n` passes; `fetch i` is what the request of
pass `i` yields. -/
def CheckStatus.loop (tb : TorboxClient) (fetch : Nat → Fetched TorboxTorrent) :
    Nat → Nat → Option DebridTorrent → CheckRun
  | 0, n, torrent => { torrent := torrent, err := none, exit := Exit.outOfFuel, refreshes := n }
  | fuel + 1, n, torrent =>
    match CheckStatus.pass tb (fetch n) torrent with
    | Call.panic =>
      { torrent := torrent, err := none, exit := Exit.panicked, refreshes := n + 1 }
    | Call.ret (Pass.again s) => CheckStatus.loop tb fetch fuel (n + 1) s
    | Call.ret (Pass.done r) =>
      { torrent := r.1, err := r.2, exit := Exit.returned, refreshes := n + 1 }

/-- Method `CheckStatus` of the Torbox client. -/
def Torbox.CheckStatus (tb : TorboxClient) (fetch : Nat → Fetched TorboxTorrent) (fuel : Nat)
    (torrent : Option DebridTorrent) : CheckRun :=
  CheckStatus.loop tb fetch fuel 0 torrent

/-- A vendor answer that carries the sample torrent, at every request. -/
def sampleFetch : Nat → Fetched TorboxTorrent := fun _ =>
  Fetched.decoded
    { Success := true, Error := none, Detail := "", Data := some sampleVendorTorrent }

/-! ## Torbox info call (pkg/debrid/providers/torbox/torrents.go) -/

/-- The file loop of `GetTorrent`: the file map built from the vendor files that pass the
filters, for the torrent id `torrentId`. -/
def GetTorrent.files (tb : TorboxClient) (torrentId : String) (finished : Bool)
    (files : List TorboxFile) : List (String × File) :=
  files.foldl
    (fun m f =>
      let fileName := tb.filepathBase f.Name
      if !tb.addSamples && tb.IsSampleFile f.AbsolutePath then m
      else if !tb.IsAllowedFile fileName then m
      else if !tb.IsSizeAllowed f.Size then m
      else
        let file : File :=
          { TorrentId := torrentId, Id := toString f.Id, Name := fileName, Size := f.Size,
            Path := f.Name, Link := "", DownloadLink := none }
        let file : File :=
          if finished then { file with Link := "torbox://" ++ torrentId ++ "/" ++ toString f.Id }
          else file
        mapAssign m fileName file)
    []

/-- Method `GetTorrent` of the Torbox client; `fetch id` is what the request for the torrent
`id` and the decoder yield. `CreatedAt` holds the creation time in its RFC3339 text. -/
def Torbox.GetTorrent (tb : TorboxClient) (fetch : String → Fetched TorboxTorrent)
    (torrentId : String) : Option DebridTorrent × Option Err :=
  match fetch torrentId with
  | Fetched.requestFailed err => (none, some err)
  | Fetched.decodeFailed err => (none, some err)
  | Fetched.decoded res =>
    match res.Data with
    | none => (none, some (Err.msg "error getting torrent"))
    | some data =>
      let id := toString data.Id
      let files := GetTorrent.files tb id data.DownloadFinished data.Files
      let cleanPath :=
        if files.length > 0 then
          match data.Files with
          | f :: _ => tb.pathClean f.Name
          | [] => tb.pathClean data.Name
        else tb.pathClean data.Name
      (some
        { Id := id
          InfoHash := ""
          Name := data.Name
          Size := 0
          Bytes := data.Size
          Progress := F64.mul data.Progress (F64.fin 100)
          Status := getTorboxStatus data.DownloadState data.DownloadFinished
          Speed := data.DownloadSpeed
          Seeders := data.Seeds
          Added := data.CreatedAt
          Debrid := tb.name
          MountPath := tb.MountPath
          DownloadUncached := false
          Magnet := none
          Arr := none
          Files := files
          IsActive := none
          Folder := data.Name
          Filename := data.Name
          OriginalFilename := firstSegment cleanPath }, none)

/-- Go `filepath.Base` on a slash-separated path: the last element of the path, trailing
slashes removed; `.` for the empty path and `/` for a path of slashes only. -/
def filepathBase (path : String) : String :=
  if path = "" then "."
  else
    let stripped := path.toList.reverse.dropWhile fun c => c = '/'
    let last := stripped.takeWhile fun c => c ≠ '/'
    if last = [] then "/" else String.mk last.reverse

/-- A file entry without its `Path`. -/
def File.withoutPath (e : String × File) : String × File := (e.1, { e.2 with Path := "" })

/-- A Torbox client that keeps every file and takes base names as `filepath.Base` does. -/
def baseNameClient : TorboxClient := { sampleTorboxClient with filepathBase := filepathBase }

/-- A finished vendor torrent whose one file lies in a folder. -/
def nestedVendorTorrent : TorboxTorrent :=
  { sampleVendorTorrent with
    Files := [{ Id := 1, Name := "sintel/sintel.mkv", Size := 1000,
                AbsolutePath := "/sintel/sintel.mkv" }]
    DownloadFinished := true }

/-- The info response that carries `nestedVendorTorrent`. -/
def nestedResponse : Fetched TorboxTorrent :=
  Fetched.decoded
    { Success := true, Error := none, Detail := "", Data := some nestedVendorTorrent }

/-! ## Vendor torrent decoder (pkg/debrid/providers/torbox/models/torrent.go) -/

/-- A JSON value as the decoder of an integer field sees it: `null`, an integer literal, or
any other value, kept as its text. -/
inductive Json where
  | null
  | int (n : Int)
  | other (raw : String)
  deriving DecidableEq, Repr

/-- A JSON object: its members in document order. -/
abbrev JsonObject := List (String × Json)

/-- The error of `encoding/json` for a value that does not fit the field of its member
(`*json.UnmarshalTypeError`). -/
def typeError (key : String) : Err :=
  Err.msg ("json: cannot unmarshal value into Go struct field " ++ key)

/-- How `encoding/json` stores a value into a field of type `int`: `null` leaves the field
alone, an integer literal in the range of `int` is stored, any other value is a type error
and leaves the field alone. -/
def storeInt (key : String) (v : Json) (old : Int) : Int × Option Err :=
  match v with
  | Json.null => (old, none)
  | Json.int n =>
    if -(2 : Int) ^ 63 ≤ n ∧ n < (2 : Int) ^ 63 then (n, none) else (old, some (typeError key))
  | Json.other _ => (old, some (typeError key))

/-- How `encoding/json` stores a value into a field of type `*int`: `null` sets the pointer to
nil; for any other value a nil pointer is first made to point to a new zero, then the value
is stored as into an `int`. -/
def storeIntPtr (key : String) (v : Json) (old : Option Int) : Option Int × Option Err :=
  match v with
  | Json.null => (none, none)
  | v => let r := storeInt key v (old.getD 0); (some r.1, r.2)

/-- How `json.Unmarshal` fills a struct from the members of an object, `store` being the
decoder of one member: the members are stored one after the other; after an error the
decoding goes on, and the first error is the one reported. -/
def unmarshal.members {σ : Type} (store : σ → String → Json → σ × Option Err) :
    JsonObject → σ → Option Err → σ × Option Err
  | [], s, err => (s, err)
  | (key, v) :: rest, s, err =>
    let r := store s key v
    unmarshal.members store rest r.1 (match err with | some e => some e | none => r.2)

/-- Go `json.Unmarshal` of an object into a struct. -/
def unmarshal {σ : Type} (store : σ → String → Json → σ × Option Err) (d : JsonObject)
    (s : σ) : σ × Option Err :=
  unmarshal.members store d s none

/-- The JSON tags of the fields of `Torrent` other than `id`. -/
def TorboxTorrent.tags : List String :=
  ["auth_id", "server", "hash", "name", "magnet", "size", "active", "created_at", "updated_at",
   "download_state", "seeds", "peers", "ratio", "progress", "download_speed", "upload_speed",
   "eta", "torrent_file", "expires_at", "download_present", "files", "download_path",
   "inactive_check", "availability", "download_finished", "tracker", "total_uploaded",
   "total_downloaded", "cached", "owner", "seed_torrent", "allow_zipped", "long_term_seeding",
   "tracker_message"]

/-- The JSON tags of the fields of `Alias`, the type `Torrent` without its own decoder, in
the order of the fields. -/
def Alias.tags : List String := "id" :: TorboxTorrent.tags

/-- The local type `Aux` of `UnmarshalJSON`: the embedded pointer `*Alias`, which points to
the receiver and is kept here as the receiver's value, and the two optional identifiers. -/
structure Aux where
  Alias : TorboxTorrent
  TorrentID : Option Int
  QueuedID : Option Int

/-- The JSON tags of the fields of `Aux`, in the order of the fields: the promoted fields of
the embedded `Alias`, then `torrent_id` and `queued_id`. -/
def Aux.tags : List String := Alias.tags ++ ["torrent_id", "queued_id"]

/-- How `encoding/json` folds one character of a member name, as far as names of ASCII
letters are concerned: a capital ASCII letter goes to its small letter, the Kelvin sign to `k`
and the long s to `s`; every other character is left alone. -/
def foldRune (c : Char) : Char :=
  if 'A' ≤ c ∧ c ≤ 'Z' then Char.ofNat (c.toNat + 32)
  else if c.toNat = 8490 then 'k'
  else if c.toNat = 383 then 's'
  else c

/-- A member name with its case folded. Two names of which one is made of small ASCII letters,
digits and underscores, as every tag here is, are equal without regard to case exactly when
their folded names are equal. -/
def foldName (key : String) : String := String.mk (key.toList.map foldRune)

/-- How `encoding/json` finds the field of a member among the fields with the given tags: the
field whose tag is the name of the member; failing that, the first field whose tag is the name
without regard to case; failing that, none, and the member is skipped. -/
def fieldOf (tags : List String) (key : String) : Option String :=
  if key ∈ tags then some key else tags.find? fun tag => foldName tag = foldName key

/-- How the field of `Alias` with the given tag is stored: `id` is the field `Id`, an `int`;
the field of another tag is decoded by `field`, as `encoding/json` does, and is not `Id`. -/
def Alias.set (field : String → Json → TorboxTorrent → TorboxTorrent × Option Err)
    (t : TorboxTorrent) (tag : String) (v : Json) : TorboxTorrent × Option Err :=
  if tag = "id" then
    let r := storeInt tag v t.Id
    ({ t with Id := r.1 }, r.2)
  else
    let r := field tag v t
    ({ r.1 with Id := t.Id }, r.2)

/-- The decoder of one member into `Alias`. -/
def Alias.store (field : String → Json → TorboxTorrent → TorboxTorrent × Option Err)
    (t : TorboxTorrent) (key : String) (v : Json) : TorboxTorrent × Option Err :=
  match fieldOf Alias.tags key with
  | some tag => Alias.set field t tag v
  | none => (t, none)

/-- How the field of `Aux` with the given tag is stored: its own fields `torrent_id` and
`queued_id`, of type `*int`, and the promoted fields of the embedded `Alias`. -/
def Aux.set (field : String → Json → TorboxTorrent → TorboxTorrent × Option Err)
    (aux : Aux) (tag : String) (v : Json) : Aux × Option Err :=
  if tag = "torrent_id" then
    let r := storeIntPtr tag v aux.TorrentID
    ({ aux with TorrentID := r.1 }, r.2)
  else if tag = "queued_id" then
    let r := storeIntPtr tag v aux.QueuedID
    ({ aux with QueuedID := r.1 }, r.2)
  else
    let r := Alias.set field aux.Alias tag v
    ({ aux with Alias := r.1 }, r.2)

/-- The decoder of one member into `Aux`. -/
def Aux.store (field : String → Json → TorboxTorrent → TorboxTorrent × Option Err)
    (aux : Aux) (key : String) (v : Json) : Aux × Option Err :=
  match fieldOf Aux.tags key with
  | some tag => Aux.set field aux tag v
  | none => (aux, none)

/-- Method `UnmarshalJSON` of the vendor torrent, on the object `d` and the receiver `t`: the
receiver after the call and the returned error. -/
def TorboxTorrent.UnmarshalJSON
    (field : String → Json → TorboxTorrent → TorboxTorrent × Option Err) (d : JsonObject)
    (t : TorboxTorrent) : TorboxTorrent × Option Err :=
  let aux : Aux := { Alias := t, TorrentID := none, QueuedID := none }
  let r := unmarshal (Aux.store field) d aux
  let aux := r.1
  let t := aux.Alias
  match r.2 with
  | some err => (t, some err)
  | none =>
    if t.Id = 0 then
      let t := match aux.TorrentID with
        | some id => { t with Id := id }
        | none => t
      let t := match aux.QueuedID with
        | some id => { t with Id := id }
        | none => t
      (t, none)
    else (t, none)

/-! ### The decoder by folded member names -/

/-- An object with the names of its members folded. -/
def foldKeys (d : JsonObject) : JsonObject := d.map fun m => (foldName m.1, m.2)

/-- The decoder of one member into `Alias`, given the folded name of the member. -/
def Alias.storeFolded (field : String → Json → TorboxTorrent → TorboxTorrent × Option Err)
    (t : TorboxTorrent) (name : String) (v : Json) : TorboxTorrent × Option Err :=
  if name ∈ Alias.tags then Alias.set field t name v else (t, none)

/-- The decoder of one member into `Aux`, given the folded name of the member. -/
def Aux.storeFolded (field : String → Json → TorboxTorrent → TorboxTorrent × Option Err)
    (aux : Aux) (name : String) (v : Json) : Aux × Option Err :=
  if name ∈ Aux.tags then Aux.set field aux name v else (aux, none)

/-! ### The identifier as the specification words it -/

/-- The integer that a JSON value is, if it is one. -/
def Json.asInt : Json → Option Int
  | Json.int n => some n
  | _ => none

/-- The integer value of the member of an object that bears exactly the name `key`, if the
object has that member with an integer value. -/
def exactIntMember (d : JsonObject) (key : String) : Option Int :=
  match d.lookup key with
  | some v => v.asInt
  | none => none

/-- The decoded identifier in the words of the specification: the value of `id` when that is
not zero; otherwise the value of `queued_id` if present, otherwise the value of `torrent_id`
if present, otherwise 0. -/
def claimedId (d : JsonObject) : Int :=
  let fallback :=
    match exactIntMember d "queued_id" with
    | some q => q
    | none =>
      match exactIntMember d "torrent_id" with
      | some i => i
      | none => 0
  match exactIntMember d "id" with
  | some n => if n ≠ 0 then n else fallback
  | none => fallback

/-- The integer value of the member of an object that bears the name `key` without regard to
case, if the object has that member with an integer value. -/
def intMember (d : JsonObject) (key : String) : Option Int :=
  match (foldKeys d).lookup key with
  | some v => v.asInt
  | none => none

/-- The decoded identifier in the words of the specification, the names of the members read
without regard to case: the value of `id` when that is not zero; otherwise the value of
`queued_id` if present, otherwise the value of `torrent_id` if present, otherwise 0. -/
def decodedId (d : JsonObject) : Int :=
  let fallback :=
    match intMember d "queued_id" with
    | some q => q
    | none =>
      match intMember d "torrent_id" with
      | some i => i
      | none => 0
  match intMember d "id" with
  | some n => if n ≠ 0 then n else fallback
  | none => fallback

/-- The zero value of the vendor torrent. -/
def TorboxTorrent.zero : TorboxTorrent :=
  { Id := 0, Hash := "", Name := "", Size := 0, Active := false,
    CreatedAt := "0001-01-01T00:00:00Z",
    DownloadState := "", Seeds := 0, Progress := F64.fin 0, DownloadSpeed := 0, Files := [],
    DownloadFinished := false }

/-- A decoder of the fields `name` and `download_state`, which takes the text of a value as
the string; the other fields are left alone. -/
def sampleField (key : String) (v : Json) (t : TorboxTorrent) : TorboxTorrent × Option Err :=
  match v with
  | Json.other raw =>
    if key = "name" then ({ t with Name := raw }, none)
    else if key = "download_state" then ({ t with DownloadState := raw }, none)
    else (t, none)
  | _ => (t, none)

/-- A queued vendor torrent: no usable `id`, both optional identifiers. -/
def queuedObject : JsonObject :=
  [("id", Json.int 0), ("name", Json.other "sintel"), ("torrent_id", Json.int 7),
   ("queued_id", Json.int 9)]

/-- A queued vendor torrent whose member names are written with capitals. -/
def capitalObject : JsonObject := [("Id", Json.int 0), ("Queued_ID", Json.int 9)]

/-- A queued vendor torrent with both optional identifiers, some names written with
capitals. -/
def mixedObject : JsonObject :=
  [("ID", Json.int 0), ("name", Json.other "sintel"), ("torrent_id", Json.int 7),
   ("Queued_Id", Json.int 9)]

/-! ## Sample inputs of the provider client -/

/-- A clock at second `now` that parses the timestamp of the first of January 2024 and no
other; `GetFiles` lists the files in the order of the file map. -/
def parsingClock (now : Int) : Clock :=
  { parseRFC3339 := fun s => if s = "2024-01-01T00:00:00Z" then some 1704067200 else none,
    now := now, joinPath := fun a b => a ++ "/" ++ b, GetFiles := fun d => d.fileValues }

/-- The remote torrent 42 with three files, added on the first of January 2024. -/
def datedThreeFiles : DebridTorrent := { threeFiles with Added := "2024-01-01T00:00:00Z" }

/-- A vendor torrent that the vendor reports as cached and not as finished, with three
files. -/
def cachedVendorTorrent : TorboxTorrent :=
  { sampleVendorTorrent with
    DownloadState := "cached"
    Files := [{ Id := 1, Name := "a.mkv", Size := 700, AbsolutePath := "/a.mkv" },
              { Id := 2, Name := "b.mkv", Size := 700, AbsolutePath := "/b.mkv" },
              { Id := 3, Name := "c.mkv", Size := 700, AbsolutePath := "/c.mkv" }]
    DownloadFinished := false }

/-- The remote torrent 42 after `UpdateTorrent` has installed `cachedVendorTorrent`. -/
def cachedThreeFiles : DebridTorrent :=
  match Torbox.UpdateTorrent sampleTorboxClient
    (Fetched.decoded
      { Success := true, Error := none, Detail := "", Data := some cachedVendorTorrent })
    sampleRemote with
  | Call.ret r => r.1
  | Call.panic => sampleRemote

/-- The link the sample vendor resolves for a file without placeholder link. -/
def plainLink (id : String) : DownloadLink :=
  { Link := "", DownloadLink := "https://cdn.torbox.app/" ++ id, Id := id,
    Generated := 0, ExpiresAt := 172800 * second }

/-- A registry of three providers: the submission of the first returns neither a torrent nor
an error, the second confirms the torrent, the third rejects it. -/
def silentThenConfirming : Storage :=
  storageOf [failingClient "alldebrid" none none, sampleClient,
    failingClient "realdebrid" none (some (Err.msg "rejected"))]

/-- A remote file of torrent 42 without placeholder link. -/
def plainFile (id : String) (name : String) : File :=
  { TorrentId := "42", Id := id, Name := name, Size := 700, Path := name, Link := "",
    DownloadLink := none }

/-- The file of `nestedVendorTorrent` as a remote file with the given path. -/
def nestedFileAt (path : String) : File :=
  { TorrentId := "42", Id := "1", Name := "sintel.mkv", Size := 1000, Path := path,
    Link := "torbox://42/1", DownloadLink := none }

/-- The remote file that the file loops of the Torbox client make of a vendor file, but for
its `Path`: the base name as `Name`, and the placeholder link of a finished download. -/
def fileEntry (tb : TorboxClient) (torrentId : String) (finished : Bool) (f : TorboxFile)
    (path : String) : File :=
  { TorrentId := torrentId, Id := toString f.Id, Name := tb.filepathBase f.Name,
    Size := f.Size, Path := path,
    Link := if finished then "torbox://" ++ torrentId ++ "/" ++ toString f.Id else "",
    DownloadLink := none }

/-! # Theorems -/

/-! ## Rounding keeps the unit interval -/

namespace F64

theorem roundHalfEven_le_of_le {x : ℚ} {N : ℕ} (h0 : 0 ≤ x) (h : x ≤ N) :
    roundHalfEven x ≤ N := by
  have hf : ⌊x⌋₊ ≤ N := Nat.floor_le_of_le h
  have hfx : (⌊x⌋₊ : ℚ) ≤ x := Nat.floor_le h0
  have hlt : (1 : ℚ) / 2 ≤ x - ⌊x⌋₊ → ⌊x⌋₊ + 1 ≤ N := by
    intro hr
    have : (⌊x⌋₊ : ℚ) < N := by linarith
    exact_mod_cast this
  unfold roundHalfEven
  simp only []
  split_ifs with h1 h2 h3
  · exact hf
  · exact hlt (le_of_lt h2)
  · exact hf
  · exact hlt (not_lt.mp h1)

theorem ilog2_nonpos_of_le_one {x : ℚ} (h : x ≤ 1) : ilog2 x ≤ 0 := by
  unfold ilog2
  split_ifs with h1
  · have hx : x = 1 := le_antisymm h h1
    subst hx
    simp [Nat.log2]
  · simp
  · simp
    omega

theorem binExp_nonpos_of_le_one {x : ℚ} (h : x ≤ 1) : binExp x ≤ 0 := by
  have := ilog2_nonpos_of_le_one h
  unfold binExp
  omega

theorem roundMag_nonneg (x : ℚ) : 0 ≤ roundMag x := by
  unfold roundMag
  positivity

theorem roundMag_le_one {x : ℚ} (h0 : 0 ≤ x) (h : x ≤ 1) : roundMag x ≤ 1 := by
  have he := binExp_nonpos_of_le_one h
  obtain ⟨n, hn⟩ : ∃ n : ℕ, binExp x = -(n : ℤ) := ⟨(-binExp x).toNat, by omega⟩
  unfold roundMag
  rw [hn, zpow_neg, zpow_natCast]
  have hp : (0 : ℚ) < 2 ^ n := by positivity
  have hx : x / (2 ^ n)⁻¹ ≤ ((2 ^ n : ℕ) : ℚ) := by
    rw [div_inv_eq_mul]
    push_cast
    calc x * 2 ^ n ≤ 1 * 2 ^ n := by gcongr
      _ = 2 ^ n := one_mul _
  have hx0 : 0 ≤ x / ((2 : ℚ) ^ n)⁻¹ := by positivity
  have hm : ((roundHalfEven (x / (2 ^ n)⁻¹) : ℕ) : ℚ) ≤ 2 ^ n := by
    exact_mod_cast roundHalfEven_le_of_le hx0 hx
  calc (roundHalfEven (x / (2 ^ n)⁻¹) : ℚ) * (2 ^ n)⁻¹ ≤ 2 ^ n * (2 ^ n)⁻¹ := by gcongr
    _ = 1 := mul_inv_cancel₀ (ne_of_gt hp)

/-- Rounding keeps the closed unit interval: 0 and 1 are binary64 values. -/
theorem round_inUnit {q : ℚ} (h0 : 0 ≤ q) (h1 : q ≤ 1) : inUnit (round q) := by
  have ha : |q| = q := abs_of_nonneg h0
  have hle := roundMag_le_one h0 h1
  have hge := roundMag_nonneg q
  unfold round
  simp only [ha]
  have hnot : ¬ ((2 : ℚ) ^ (1024 : ℕ) ≤ roundMag q) := by
    intro hc
    have : (1 : ℚ) < 2 ^ (1024 : ℕ) := by norm_num
    linarith
  rw [if_neg hnot, if_neg (not_lt.mpr h0)]
  exact ⟨hge, hle⟩

theorem roundMag_one : roundMag 1 = 1 := by
  norm_num [roundMag, binExp, ilog2, roundHalfEven, Nat.log2]

theorem roundMag_two : roundMag 2 = 2 := by
  norm_num [roundMag, binExp, ilog2, roundHalfEven, Nat.log2]

theorem round_two : round 2 = fin 2 := by
  have h : ¬ ((2 : ℚ) ^ (1024 : ℕ) ≤ 2) := by norm_num
  simp [round, roundMag_two, h]

theorem round_neg_one : round (-1) = fin (-1) := by
  have h : ¬ ((2 : ℚ) ^ (1024 : ℕ) ≤ 1) := by norm_num
  simp [round, roundMag_one, h]

end F64

/-! ## Progress written by `partialTorrentUpdate` -/

theorem cmpOr_fin_zero (q : ℚ) : cmpOr (F64.fin q) (F64.fin 0) = F64.fin q := by
  by_cases hq : q = 0 <;> simp [cmpOr, F64.neZero, hq]

theorem div_fin_hundred (q : ℚ) : F64.div (F64.fin q) (F64.fin 100) = F64.round (q / 100) := by
  simp [F64.div]

theorem progressOf_inUnit {q : ℚ} (h0 : 0 ≤ q) (h1 : q ≤ 100) :
    F64.inUnit (progressOf (F64.fin q)) := by
  have hr : F64.inUnit (F64.round (q / 100)) :=
    F64.round_inUnit (by positivity) (by rw [div_le_one (by norm_num)]; exact h1)
  unfold progressOf
  simp only [cmpOr_fin_zero, div_fin_hundred]
  cases hv : F64.round (q / 100) with
  | nan => rw [hv] at hr; exact hr.elim
  | inf n => rw [hv] at hr; exact hr.elim
  | fin r => rw [hv] at hr; simpa [F64.isNaN, F64.isInf] using hr

theorem progressOf_200 : progressOf (F64.fin 200) = F64.fin 2 := by
  have : (200 : ℚ) / 100 = 2 := by norm_num
  simp [progressOf, cmpOr_fin_zero, div_fin_hundred, this, F64.round_two, F64.isNaN, F64.isInf]

theorem progressOf_neg_100 : progressOf (F64.fin (-100)) = F64.fin (-1) := by
  have : (-100 : ℚ) / 100 = -1 := by norm_num
  simp [progressOf, cmpOr_fin_zero, div_fin_hundred, this, F64.round_neg_one, F64.isNaN,
    F64.isInf]

theorem progressOf_nan : progressOf F64.nan = F64.fin 0 := by
  simp [progressOf, cmpOr, F64.neZero, F64.div, F64.isNaN]

theorem progressOf_inf (n : Bool) : progressOf (F64.inf n) = F64.fin 0 := by
  simp [progressOf, cmpOr, F64.neZero, F64.div, F64.isInf]

theorem partialTorrentUpdate_Progress (c : Clock) (t : Torrent) (d : DebridTorrent) :
    (partialTorrentUpdate c t (some d)).Progress = progressOf d.Progress := rfl

/-- C1, as the code has it: no clamping is applied. For a remote progress value that is NaN,
infinite, or finite between 0 and 100, the Progress field that `partialTorrentUpdate` writes
lies in the closed interval [0,1], and it is exactly 0 when the value is NaN or infinite. -/
theorem partialTorrentUpdate_progress_unit (c : Clock) (t : Torrent) (d : DebridTorrent)
    (h : d.Progress.isNaN = true ∨ d.Progress.isInf = true ∨
      ∃ q, d.Progress = F64.fin q ∧ 0 ≤ q ∧ q ≤ 100) :
    F64.inUnit (partialTorrentUpdate c t (some d)).Progress ∧
    (d.Progress.isNaN = true ∨ d.Progress.isInf = true →
      (partialTorrentUpdate c t (some d)).Progress = F64.fin 0) := by
  rw [partialTorrentUpdate_Progress]
  constructor
  · rcases h with h | h | ⟨q, hq, h0, h1⟩
    · cases hp : d.Progress <;> simp [hp, F64.isNaN] at h
      simp [progressOf_nan, F64.inUnit]
    · cases hp : d.Progress <;> simp [hp, F64.isInf] at h
      simp [progressOf_inf, F64.inUnit]
    · rw [hq]
      exact progressOf_inUnit h0 h1
  · intro hn
    cases hp : d.Progress with
    | nan => exact progressOf_nan
    | inf n => exact progressOf_inf n
    | fin q => simp [hp, F64.isNaN, F64.isInf] at hn

/-- Witness of `partialTorrentUpdate_progress_unit`: a remote progress of 50. -/
theorem partialTorrentUpdate_progress_unit_witness :
    (∃ q, ({ sampleRemote with Progress := F64.fin 50 } : DebridTorrent).Progress = F64.fin q ∧
      0 ≤ q ∧ q ≤ 100) ∧
    F64.inUnit (partialTorrentUpdate sampleClock sampleRecord
      (some { sampleRemote with Progress := F64.fin 50 })).Progress :=
  ⟨⟨50, rfl, by norm_num, by norm_num⟩,
   (partialTorrentUpdate_progress_unit sampleClock sampleRecord
      { sampleRemote with Progress := F64.fin 50 }
      (Or.inr (Or.inr ⟨50, rfl, by norm_num, by norm_num⟩))).1⟩

/-- C1 fails as stated: a remote progress of 200 is written as 2, and one of -100 as -1; neither
lies in [0,1]. -/
theorem partialTorrentUpdate_progress_not_clamped :
    (partialTorrentUpdate sampleClock sampleRecord
      (some { sampleRemote with Progress := F64.fin 200 })).Progress = F64.fin 2 ∧
    ¬ F64.inUnit (partialTorrentUpdate sampleClock sampleRecord
      (some { sampleRemote with Progress := F64.fin 200 })).Progress ∧
    (partialTorrentUpdate sampleClock sampleRecord
      (some { sampleRemote with Progress := F64.fin (-100) })).Progress = F64.fin (-1) ∧
    ¬ F64.inUnit (partialTorrentUpdate sampleClock sampleRecord
      (some { sampleRemote with Progress := F64.fin (-100) })).Progress := by
  simp only [partialTorrentUpdate_Progress, progressOf_200, progressOf_neg_100, F64.inUnit]
  norm_num

/-! ## The candidate loop of `Process` -/

theorem Process.requestFor_requestFor (a : Arr) (ov : Bool) (dt : DebridTorrent)
    (x db : Client) :
    Process.requestFor a ov (Process.requestFor a ov dt x) db = Process.requestFor a ov dt db := by
  unfold Process.requestFor
  split <;> rfl

/-- The loop reads the request torrent only through the policy step. -/
theorem Process.loop_requestFor (a : Arr) (ov : Bool) (i : Nat) (cs : List Client)
    (dt : DebridTorrent) (x : Client) (errs : List (Option Err)) (tr : List ProcEvent)
    (lu : String) :
    Process.loop a ov i cs (Process.requestFor a ov dt x) errs tr lu =
      Process.loop a ov i cs dt errs tr lu := by
  cases cs with
  | nil => simp [Process.loop]
  | cons db rest =>
    rw [Process.loop, Process.loop]
    simp only [Process.requestFor_requestFor]

/-- One step of the loop on a candidate that confirms a torrent. -/
theorem Process.loop_cons_confirms (a : Arr) (ov : Bool) (i : Nat) (db : Client)
    (rest : List Client) (dt : DebridTorrent) (errs : List (Option Err))
    (tr : List ProcEvent) (lu : String) (t : DebridTorrent)
    (h : Process.confirms a (Process.requestFor a ov dt db) db = some t) :
    Process.loop a ov i (db :: rest) dt errs tr lu =
      { torrent := some t, err := none,
        trace := tr ++ Process.confirmedCalls a (Process.requestFor a ov dt db) db i,
        errs := errs, lastUsed := db.Name } := by
  rw [Process.loop]
  unfold Process.confirms at h
  unfold Process.confirmedCalls
  rcases hs : db.SubmitMagnet (Process.requestFor a ov dt db) with ⟨_ | dbt, _ | e⟩ <;>
    simp only [hs] at h ⊢
  · cases h
  · cases h
  · by_cases hid : dbt.Id = ""
    · simp [hid] at h
    · simp only [hid, if_false] at h ⊢
      rcases hc : db.CheckStatus 0 { dbt with Arr := some a } with ⟨_ | t', _ | e'⟩ <;>
        simp only [hc] at h ⊢
      · cases h
      · cases h
      · simp only [Option.some.injEq] at h
        subst h
        simp
      · cases h
  · cases h

/-- One step of the loop on a candidate that does not confirm a torrent. -/
theorem Process.loop_cons_fails (a : Arr) (ov : Bool) (i : Nat) (db : Client)
    (rest : List Client) (dt : DebridTorrent) (errs : List (Option Err))
    (tr : List ProcEvent) (lu : String)
    (h : Process.confirms a (Process.requestFor a ov dt db) db = none) :
    ∃ lu', Process.loop a ov i (db :: rest) dt errs tr lu =
      Process.loop a ov (i + 1) rest dt
        (errs ++ [Process.failure a (Process.requestFor a ov dt db) db])
        (tr ++ Process.failedCalls a (Process.requestFor a ov dt db) db i) lu' := by
  rw [Process.loop]
  unfold Process.confirms at h
  unfold Process.failure Process.failedCalls Process.doomed
  rcases hs : db.SubmitMagnet (Process.requestFor a ov dt db) with ⟨_ | dbt, _ | e⟩ <;>
    simp only [hs] at h ⊢
  · exact ⟨lu, by rw [Process.loop_requestFor]⟩
  · exact ⟨lu, by rw [Process.loop_requestFor]⟩
  · by_cases hid : dbt.Id = ""
    · simp only [hid, if_true]
      exact ⟨lu, by rw [Process.loop_requestFor]⟩
    · simp only [hid, if_false] at h ⊢
      rcases hc : db.CheckStatus 0 { dbt with Arr := some a } with ⟨_ | t', _ | e'⟩ <;>
        simp only [hc] at h ⊢
      · exact ⟨db.Name, by rw [Process.loop_requestFor]; simp⟩
      · exact ⟨db.Name, by rw [Process.loop_requestFor]; simp⟩
      · exact absurd h (by simp)
      · by_cases ht : t'.Id = ""
        · exact ⟨db.Name, by rw [Process.loop_requestFor]; simp [ht]⟩
        · exact ⟨db.Name, by rw [Process.loop_requestFor]; simp [ht]⟩
  · exact ⟨lu, by rw [Process.loop_requestFor]⟩

/-- A run of candidates none of which confirms a torrent is walked through to its end. -/
theorem Process.loop_append_fails (a : Arr) (ov : Bool) (dt : DebridTorrent)
    (pre rest : List Client)
    (hpre : ∀ p ∈ pre, Process.confirms a (Process.requestFor a ov dt p) p = none) :
    ∀ (i : Nat) (errs : List (Option Err)) (tr : List ProcEvent) (lu : String),
    ∃ lu', Process.loop a ov i (pre ++ rest) dt errs tr lu =
      Process.loop a ov (i + pre.length) rest dt
        (errs ++ pre.map fun p => Process.failure a (Process.requestFor a ov dt p) p)
        (tr ++ Process.failedCallsFrom a ov dt i pre) lu' := by
  induction pre with
  | nil =>
    intro i errs tr lu
    exact ⟨lu, by simp [Process.failedCallsFrom]⟩
  | cons p pre ih =>
    intro i errs tr lu
    obtain ⟨lu1, h1⟩ := Process.loop_cons_fails a ov i p (pre ++ rest) dt errs tr lu
      (hpre p (List.mem_cons_self _ _))
    obtain ⟨lu2, h2⟩ := ih (fun q hq => hpre q (List.mem_cons_of_mem _ hq)) (i + 1)
      (errs ++ [Process.failure a (Process.requestFor a ov dt p) p])
      (tr ++ Process.failedCalls a (Process.requestFor a ov dt p) p i) lu1
    refine ⟨lu2, ?_⟩
    rw [List.cons_append, h1, h2]
    simp [Process.failedCallsFrom, Nat.add_assoc, Nat.add_comm 1]

/-- Either no candidate confirms a torrent, or there is a first one that does. -/
theorem Process.first_confirmed (a : Arr) (ov : Bool) (dt : DebridTorrent) (cs : List Client) :
    (∀ c ∈ cs, Process.confirms a (Process.requestFor a ov dt c) c = none) ∨
    ∃ pre c post t, cs = pre ++ c :: post ∧
      (∀ p ∈ pre, Process.confirms a (Process.requestFor a ov dt p) p = none) ∧
      Process.confirms a (Process.requestFor a ov dt c) c = some t := by
  induction cs with
  | nil => exact Or.inl (by simp)
  | cons c cs ih =>
    cases hc : Process.confirms a (Process.requestFor a ov dt c) c with
    | some t => exact Or.inr ⟨[], c, cs, t, rfl, by simp, hc⟩
    | none =>
      rcases ih with h | ⟨pre, c', post, t, hcs, hpre, hc'⟩
      · left
        intro x hx
        rcases List.mem_cons.mp hx with rfl | hx
        · exact hc
        · exact h x hx
      · right
        refine ⟨c :: pre, c', post, t, by simp [hcs], ?_, hc'⟩
        intro x hx
        rcases List.mem_cons.mp hx with rfl | hx
        · exact hc
        · exact hpre x hx

/-- A candidate that confirms a torrent has no doomed submission. -/
theorem Process.doomed_of_confirms (a : Arr) (req : DebridTorrent) (db : Client)
    (t : DebridTorrent) (h : Process.confirms a req db = some t) :
    Process.doomed a req db = none := by
  unfold Process.confirms at h
  unfold Process.doomed
  rcases hs : db.SubmitMagnet req with ⟨_ | dbt, _ | e⟩ <;> simp only [hs] at h ⊢
  by_cases hid : dbt.Id = ""
  · simp [hid]
  · simp only [hid, if_false] at h ⊢
    rcases hc : db.CheckStatus 0 { dbt with Arr := some a } with ⟨_ | t', _ | e'⟩ <;>
      simp only [hc] at h ⊢
    cases h

/-- The events of a failing candidate belong to its position. -/
theorem Process.candidate_of_mem_failedCalls (a : Arr) (req : DebridTorrent) (db : Client)
    (i : Nat) (e : ProcEvent) (h : e ∈ Process.failedCalls a req db i) : e.candidate = i := by
  unfold Process.failedCalls at h
  rcases hs : db.SubmitMagnet req with ⟨_ | dbt, _ | e'⟩ <;> simp only [hs] at h
  · simp at h; subst h; rfl
  · simp at h; subst h; rfl
  · by_cases hid : dbt.Id = ""
    · simp [hid] at h; subst h; rfl
    · simp only [hid, if_false] at h
      cases hd : Process.doomed a req db with
      | none =>
        simp [hd] at h
        rcases h with rfl | rfl <;> rfl
      | some id =>
        simp [hd] at h
        rcases h with rfl | rfl | rfl <;> rfl
  · simp at h; subst h; rfl

/-- The events of the confirming candidate belong to its position. -/
theorem Process.candidate_of_mem_confirmedCalls (a : Arr) (req : DebridTorrent) (db : Client)
    (i : Nat) (e : ProcEvent) (h : e ∈ Process.confirmedCalls a req db i) :
    e.candidate = i := by
  unfold Process.confirmedCalls at h
  rcases hs : db.SubmitMagnet req with ⟨_ | dbt, e'⟩ <;> simp only [hs] at h
  · simp at h; subst h; rfl
  · simp at h
    rcases h with rfl | rfl <;> rfl

/-- A failing candidate is submitted to, with the request of the policy step. -/
theorem Process.submit_mem_failedCalls (a : Arr) (req : DebridTorrent) (db : Client)
    (i j : Nat) (t : DebridTorrent) :
    ProcEvent.submit j t ∈ Process.failedCalls a req db i ↔ j = i ∧ t = req := by
  unfold Process.failedCalls
  rcases hs : db.SubmitMagnet req with ⟨_ | dbt, _ | e'⟩ <;> simp only [hs]
  · simp
  · simp
  · by_cases hid : dbt.Id = ""
    · simp [hid]
    · cases hd : Process.doomed a req db <;> simp [hid]
  · simp

/-- The confirming candidate is submitted to, with the request of the policy step. -/
theorem Process.submit_mem_confirmedCalls (a : Arr) (req : DebridTorrent) (db : Client)
    (i j : Nat) (t : DebridTorrent) :
    ProcEvent.submit j t ∈ Process.confirmedCalls a req db i ↔ j = i ∧ t = req := by
  unfold Process.confirmedCalls
  rcases hs : db.SubmitMagnet req with ⟨_ | dbt, e'⟩ <;> simp

/-- A failing candidate is deleted from exactly when its submission is doomed. -/
theorem Process.delete_mem_failedCalls (a : Arr) (req : DebridTorrent) (db : Client)
    (i j : Nat) (id : String) :
    ProcEvent.deleteTorrent j id ∈ Process.failedCalls a req db i ↔
      j = i ∧ Process.doomed a req db = some id := by
  unfold Process.failedCalls
  rcases hs : db.SubmitMagnet req with ⟨_ | dbt, _ | e'⟩ <;> simp only [hs]
  · simp [Process.doomed, hs]
  · simp [Process.doomed, hs]
  · by_cases hid : dbt.Id = ""
    · simp [hid, Process.doomed, hs]
    · cases hd : Process.doomed a req db <;> simp [hid, eq_comm]
  · simp [Process.doomed, hs]

/-- No delete is issued on the confirming candidate. -/
theorem Process.delete_not_mem_confirmedCalls (a : Arr) (req : DebridTorrent) (db : Client)
    (i j : Nat) (id : String) :
    ProcEvent.deleteTorrent j id ∉ Process.confirmedCalls a req db i := by
  unfold Process.confirmedCalls
  rcases hs : db.SubmitMagnet req with ⟨_ | dbt, e'⟩ <;> simp

theorem Process.candidate_of_mem_failedCallsFrom (a : Arr) (ov : Bool) (dt : DebridTorrent)
    (cs : List Client) :
    ∀ (i : Nat) (e : ProcEvent), e ∈ Process.failedCallsFrom a ov dt i cs →
      i ≤ e.candidate ∧ e.candidate < i + cs.length := by
  induction cs with
  | nil => intro i e h; simp [Process.failedCallsFrom] at h
  | cons c cs ih =>
    intro i e h
    simp only [Process.failedCallsFrom, List.mem_append] at h
    rcases h with h | h
    · have := Process.candidate_of_mem_failedCalls a _ c i e h
      simp only [List.length_cons]
      omega
    · have := ih (i + 1) e h
      simp only [List.length_cons]
      omega

theorem Process.submit_mem_failedCallsFrom (a : Arr) (ov : Bool) (dt : DebridTorrent)
    (cs : List Client) :
    ∀ (i j : Nat) (t : DebridTorrent),
      ProcEvent.submit j t ∈ Process.failedCallsFrom a ov dt i cs ↔
        ∃ c, i ≤ j ∧ cs[j - i]? = some c ∧ t = Process.requestFor a ov dt c := by
  induction cs with
  | nil => intro i j t; simp [Process.failedCallsFrom]
  | cons c cs ih =>
    intro i j t
    simp only [Process.failedCallsFrom, List.mem_append, Process.submit_mem_failedCalls, ih]
    constructor
    · rintro (⟨rfl, rfl⟩ | ⟨c', hle, hget, rfl⟩)
      · exact ⟨c, le_refl _, by simp, rfl⟩
      · refine ⟨c', by omega, ?_, rfl⟩
        have : j - i = (j - (i + 1)) + 1 := by omega
        rw [this, List.getElem?_cons_succ]
        exact hget
    · rintro ⟨c', hle, hget, rfl⟩
      by_cases hji : j = i
      · subst hji
        simp at hget
        subst hget
        exact Or.inl ⟨rfl, rfl⟩
      · right
        refine ⟨c', by omega, ?_, rfl⟩
        have : j - i = (j - (i + 1)) + 1 := by omega
        rw [this, List.getElem?_cons_succ] at hget
        exact hget

theorem Process.delete_mem_failedCallsFrom (a : Arr) (ov : Bool) (dt : DebridTorrent)
    (cs : List Client) :
    ∀ (i j : Nat) (id : String),
      ProcEvent.deleteTorrent j id ∈ Process.failedCallsFrom a ov dt i cs ↔
        ∃ c, i ≤ j ∧ cs[j - i]? = some c ∧
          Process.doomed a (Process.requestFor a ov dt c) c = some id := by
  induction cs with
  | nil => intro i j id; simp [Process.failedCallsFrom]
  | cons c cs ih =>
    intro i j id
    simp only [Process.failedCallsFrom, List.mem_append, Process.delete_mem_failedCalls, ih]
    constructor
    · rintro (⟨rfl, hd⟩ | ⟨c', hle, hget, hd⟩)
      · exact ⟨c, le_refl _, by simp, hd⟩
      · refine ⟨c', by omega, ?_, hd⟩
        have : j - i = (j - (i + 1)) + 1 := by omega
        rw [this, List.getElem?_cons_succ]
        exact hget
    · rintro ⟨c', hle, hget, hd⟩
      by_cases hji : j = i
      · subst hji
        simp at hget
        subst hget
        exact Or.inl ⟨rfl, hd⟩
      · right
        refine ⟨c', by omega, ?_, hd⟩
        have : j - i = (j - (i + 1)) + 1 := by omega
        rw [this, List.getElem?_cons_succ] at hget
        exact hget

/-! ## What `Process` returns -/

/-- `Process` without candidates. -/
theorem Process.eq_of_no_clients (store : Storage) (sel : String) (magnet : Magnet) (a : Arr)
    (action : String) (ov : Bool) (h : Process.clients store sel = []) :
    Process store sel magnet a action ov =
      { torrent := none, err := some (Err.msg "no debrid clients available"), trace := [],
        errs := [], lastUsed := store.lastUsed } := by
  simp [Process, h]

/-- `Process` when some candidate confirms a torrent, split at the first such candidate. -/
theorem Process.eq_of_first_confirmed (store : Storage) (sel : String) (magnet : Magnet)
    (a : Arr) (action : String) (ov : Bool) (pre post : List Client) (c : Client)
    (t : DebridTorrent)
    (hcs : Process.clients store sel = pre ++ c :: post)
    (hpre : ∀ p ∈ pre,
      Process.confirms a (Process.requestFor a ov (Process.newTorrent magnet a ov) p) p = none)
    (hc : Process.confirms a (Process.requestFor a ov (Process.newTorrent magnet a ov) c) c
      = some t) :
    Process store sel magnet a action ov =
      { torrent := some t, err := none,
        trace := Process.failedCallsFrom a ov (Process.newTorrent magnet a ov) 0 pre ++
          Process.confirmedCalls a
            (Process.requestFor a ov (Process.newTorrent magnet a ov) c) c pre.length,
        errs := pre.map fun p =>
          Process.failure a (Process.requestFor a ov (Process.newTorrent magnet a ov) p) p,
        lastUsed := c.Name } := by
  obtain ⟨lu, h1⟩ := Process.loop_append_fails a ov (Process.newTorrent magnet a ov) pre
    (c :: post) hpre 0 [] [] store.lastUsed
  have h2 := Process.loop_cons_confirms a ov (0 + pre.length) c post
    (Process.newTorrent magnet a ov)
    ([] ++ pre.map fun p =>
      Process.failure a (Process.requestFor a ov (Process.newTorrent magnet a ov) p) p)
    ([] ++ Process.failedCallsFrom a ov (Process.newTorrent magnet a ov) 0 pre) lu t hc
  unfold Process
  simp only [hcs]
  rw [if_neg (by simp), h1, h2]
  simp

/-- `Process` when there are candidates and none confirms a torrent. -/
theorem Process.eq_of_all_fail (store : Storage) (sel : String) (magnet : Magnet)
    (a : Arr) (action : String) (ov : Bool)
    (hne : Process.clients store sel ≠ [])
    (hall : ∀ p ∈ Process.clients store sel,
      Process.confirms a (Process.requestFor a ov (Process.newTorrent magnet a ov) p) p = none) :
    ∃ lu, Process store sel magnet a action ov =
      { torrent := none,
        err := some (fmtErrorfW "failed to process torrent"
          (errorsJoin ((Process.clients store sel).map fun p =>
            Process.failure a (Process.requestFor a ov (Process.newTorrent magnet a ov) p) p))),
        trace := Process.failedCallsFrom a ov (Process.newTorrent magnet a ov) 0
          (Process.clients store sel),
        errs := (Process.clients store sel).map fun p =>
          Process.failure a (Process.requestFor a ov (Process.newTorrent magnet a ov) p) p,
        lastUsed := lu } := by
  obtain ⟨lu, h1⟩ := Process.loop_append_fails a ov (Process.newTorrent magnet a ov)
    (Process.clients store sel) [] hall 0 [] [] store.lastUsed
  refine ⟨lu, ?_⟩
  have hlen : (Process.clients store sel).length ≠ 0 := by
    intro h0
    exact hne (List.length_eq_zero.mp h0)
  unfold Process
  simp only [List.append_nil] at h1
  rw [if_neg hlen, h1, Process.loop]
  simp [hlen]

/-- An error return of `Process` carries no torrent. -/
theorem Process.torrent_none_of_err (store : Storage) (sel : String) (magnet : Magnet)
    (a : Arr) (action : String) (ov : Bool) (e : Err)
    (h : (Process store sel magnet a action ov).err = some e) :
    (Process store sel magnet a action ov).torrent = none := by
  by_cases hcs : Process.clients store sel = []
  · rw [Process.eq_of_no_clients store sel magnet a action ov hcs]
  · rcases Process.first_confirmed a ov (Process.newTorrent magnet a ov)
      (Process.clients store sel) with hall | ⟨pre, c, post, t, hsplit, hpre, hc⟩
    · obtain ⟨lu, hp⟩ := Process.eq_of_all_fail store sel magnet a action ov hcs hall
      rw [hp]
    · rw [Process.eq_of_first_confirmed store sel magnet a action ov pre post c t hsplit hpre hc]
        at h
      cases h

/-! ## Claims about `Process` -/

theorem Process.downloadUncached_requestFor (magnet : Magnet) (a : Arr) (ov : Bool)
    (c : Client) :
    (Process.requestFor a ov (Process.newTorrent magnet a ov) c).DownloadUncached =
      if ov then true
      else match a.DownloadUncached with
        | some b => b
        | none => c.GetDownloadUncached := by
  unfold Process.requestFor Process.newTorrent
  cases ov <;> cases h : a.DownloadUncached <;> simp [h]

/-- The first confirming candidate: `Process` returns the torrent of the first candidate (in
the order of the candidate list) whose submission returns no error and a torrent with a
non-empty id and whose status check returns no error and a torrent. Every candidate before it
is submitted to and leaves one entry in `errs`, which is nil when the candidate returned no
error; the confirming candidate is submitted to; no call is made on a candidate after it. -/
theorem Process_returns_first_confirmed (store : Storage) (sel : String) (magnet : Magnet)
    (a : Arr) (action : String) (ov : Bool) (pre post : List Client) (c : Client)
    (t : DebridTorrent)
    (hcs : Process.clients store sel = pre ++ c :: post)
    (hpre : ∀ p ∈ pre,
      Process.confirms a (Process.requestFor a ov (Process.newTorrent magnet a ov) p) p = none)
    (hc : Process.confirms a (Process.requestFor a ov (Process.newTorrent magnet a ov) c) c
      = some t) :
    (Process store sel magnet a action ov).torrent = some t ∧
    (Process store sel magnet a action ov).err = none ∧
    (Process store sel magnet a action ov).errs.length = pre.length ∧
    (∀ j, j ≤ pre.length →
      ∃ req, ProcEvent.submit j req ∈ (Process store sel magnet a action ov).trace) ∧
    (∀ e ∈ (Process store sel magnet a action ov).trace, e.candidate ≤ pre.length) := by
  rw [Process.eq_of_first_confirmed store sel magnet a action ov pre post c t hcs hpre hc]
  refine ⟨rfl, rfl, by simp, ?_, ?_⟩
  · intro j hj
    rcases Nat.lt_or_eq_of_le hj with hlt | rfl
    · obtain ⟨p, hp⟩ : ∃ p, pre[j - 0]? = some p := ⟨pre[j], by simp [hlt]⟩
      refine ⟨Process.requestFor a ov (Process.newTorrent magnet a ov) p, ?_⟩
      simp only [List.mem_append]
      left
      exact (Process.submit_mem_failedCallsFrom a ov _ pre 0 j _).mpr
        ⟨p, Nat.zero_le _, hp, rfl⟩
    · refine ⟨Process.requestFor a ov (Process.newTorrent magnet a ov) c, ?_⟩
      simp only [List.mem_append]
      right
      exact (Process.submit_mem_confirmedCalls a _ c pre.length pre.length _).mpr ⟨rfl, rfl⟩
  · intro e he
    simp only [List.mem_append] at he
    rcases he with he | he
    · have := Process.candidate_of_mem_failedCallsFrom a ov _ pre 0 e he
      omega
    · exact le_of_eq (Process.candidate_of_mem_confirmedCalls a _ c pre.length e he)

/-- Witness of `Process_returns_first_confirmed`: a registry of a provider that rejects the
magnet followed by one that accepts it. -/
theorem Process_returns_first_confirmed_witness :
    (Process (storageOf [failingClient "realdebrid" none (some (Err.msg "rejected")),
        sampleClient]) "" sampleMagnet sampleArr "none" false).torrent =
      some { Process.newTorrent sampleMagnet sampleArr false with
        Id := "42", Debrid := "torbox", DownloadUncached := true, Arr := some sampleArr,
        Status := "downloading" } ∧
    (Process (storageOf [failingClient "realdebrid" none (some (Err.msg "rejected")),
        sampleClient]) "" sampleMagnet sampleArr "none" false).errs.length = 1 :=
  have h := Process_returns_first_confirmed
    (storageOf [failingClient "realdebrid" none (some (Err.msg "rejected")), sampleClient])
    "" sampleMagnet sampleArr "none" false
    [failingClient "realdebrid" none (some (Err.msg "rejected"))] [] sampleClient
    { Process.newTorrent sampleMagnet sampleArr false with
      Id := "42", Debrid := "torbox", DownloadUncached := true, Arr := some sampleArr,
      Status := "downloading" }
    rfl (by intro p hp; simp at hp; subst hp; rfl) rfl
  ⟨h.1, h.2.2.1⟩

theorem Process.mem_of_getElem? {cs : List Client} {i : Nat} {c : Client}
    (h : cs[i]? = some c) : c ∈ cs := by
  obtain ⟨hi, hc⟩ := List.getElem?_eq_some.mp h
  exact hc ▸ List.getElem_mem hi

/-- C7: `Process` issues `DeleteTorrent(id)` on the candidate at position `i` exactly when that
candidate is reached (no earlier candidate confirmed a torrent), its submission returned no
error and a torrent with a non-empty id, and its status check returned an error together with
a torrent of non-empty id `id`. When `Process` returns a torrent, it is the one of the first
confirming candidate, and no delete is issued on that candidate. -/
theorem Process_delete_iff_doomed (store : Storage) (sel : String) (magnet : Magnet)
    (a : Arr) (action : String) (ov : Bool) :
    (∀ i id, ProcEvent.deleteTorrent i id ∈ (Process store sel magnet a action ov).trace ↔
      ∃ c, (Process.clients store sel)[i]? = some c ∧
        (∀ j c', j < i → (Process.clients store sel)[j]? = some c' →
          Process.confirms a (Process.requestFor a ov (Process.newTorrent magnet a ov) c') c'
            = none) ∧
        Process.doomed a (Process.requestFor a ov (Process.newTorrent magnet a ov) c) c
          = some id) ∧
    (∀ t, (Process store sel magnet a action ov).torrent = some t →
      ∃ w c, (Process.clients store sel)[w]? = some c ∧
        Process.confirms a (Process.requestFor a ov (Process.newTorrent magnet a ov) c) c
          = some t ∧
        ∀ id, ProcEvent.deleteTorrent w id ∉ (Process store sel magnet a action ov).trace) := by
  by_cases hcs : Process.clients store sel = []
  · rw [Process.eq_of_no_clients store sel magnet a action ov hcs]
    simp [hcs]
  · rcases Process.first_confirmed a ov (Process.newTorrent magnet a ov)
      (Process.clients store sel) with hall | ⟨pre, c, post, t, hsplit, hpre, hc⟩
    · obtain ⟨lu, hp⟩ := Process.eq_of_all_fail store sel magnet a action ov hcs hall
      rw [hp]
      refine ⟨?_, by simp⟩
      intro i id
      simp only [Process.delete_mem_failedCallsFrom, Nat.sub_zero]
      constructor
      · rintro ⟨c, -, hget, hd⟩
        exact ⟨c, hget, fun j c' _ hj => hall c' (Process.mem_of_getElem? hj), hd⟩
      · rintro ⟨c, hget, -, hd⟩
        exact ⟨c, Nat.zero_le _, hget, hd⟩
    · rw [Process.eq_of_first_confirmed store sel magnet a action ov pre post c t hsplit hpre hc]
      have hn : (Process.clients store sel)[pre.length]? = some c := by
        rw [hsplit, List.getElem?_append_right (le_refl _)]
        simp
      have hlt : ∀ j, j < pre.length → (Process.clients store sel)[j]? = pre[j]? := by
        intro j hj
        rw [hsplit, List.getElem?_append_left hj]
      constructor
      · intro i id
        simp only [List.mem_append, Process.delete_mem_failedCallsFrom, Nat.sub_zero,
          Process.delete_not_mem_confirmedCalls, or_false]
        constructor
        · rintro ⟨c0, -, hget, hd⟩
          have hi : i < pre.length := (List.getElem?_eq_some.mp hget).1
          refine ⟨c0, by rw [hlt i hi]; exact hget, ?_, hd⟩
          intro j c' hj hj'
          rw [hlt j (by omega)] at hj'
          exact hpre c' (Process.mem_of_getElem? hj')
        · rintro ⟨c0, hget, hreach, hd⟩
          rcases Nat.lt_trichotomy i pre.length with hi | hi | hi
          · exact ⟨c0, Nat.zero_le _, by rw [← hlt i hi]; exact hget, hd⟩
          · subst hi
            rw [hn] at hget
            cases hget
            rw [Process.doomed_of_confirms a _ _ t hc] at hd
            cases hd
          · have := hreach pre.length c hi hn
            rw [hc] at this
            cases this
      · intro t' ht'
        simp only [Option.some.injEq] at ht'
        subst ht'
        refine ⟨pre.length, c, hn, hc, ?_⟩
        intro id hmem
        simp only [List.mem_append, Process.delete_mem_failedCallsFrom, Nat.sub_zero,
          Process.delete_not_mem_confirmedCalls, or_false] at hmem
        obtain ⟨c0, -, hget, -⟩ := hmem
        have := (List.getElem?_eq_some.mp hget).1
        omega

/-- Witness of `Process_delete_iff_doomed`: a provider whose submission is accepted under id 7
and whose status check then fails is deleted from, the next provider confirms and is not. -/
theorem Process_delete_iff_doomed_witness :
    ProcEvent.deleteTorrent 0 "7" ∈
      (Process (storageOf [failingClient "realdebrid" (some { sampleRemote with Id := "7" }) none,
        sampleClient]) "" sampleMagnet sampleArr "none" false).trace :=
  ((Process_delete_iff_doomed
    (storageOf [failingClient "realdebrid" (some { sampleRemote with Id := "7" }) none,
      sampleClient]) "" sampleMagnet sampleArr "none" false).1 0 "7").mpr
    ⟨failingClient "realdebrid" (some { sampleRemote with Id := "7" }) none, rfl,
      fun j _ hj _ => absurd hj (Nat.not_lt_zero j), rfl⟩

/-- C9: the torrent `Process` submits to a candidate has the flag `DownloadUncached` set by
the precedence chain: true under the override; otherwise the arr-level setting when the arr
has one; otherwise the default of that candidate. -/
theorem Process_submits_with_policy (store : Storage) (sel : String) (magnet : Magnet)
    (a : Arr) (action : String) (ov : Bool) (i : Nat) (req : DebridTorrent)
    (h : ProcEvent.submit i req ∈ (Process store sel magnet a action ov).trace) :
    ∃ c, (Process.clients store sel)[i]? = some c ∧
      req.DownloadUncached =
        if ov then true
        else match a.DownloadUncached with
          | some b => b
          | none => c.GetDownloadUncached := by
  by_cases hcs : Process.clients store sel = []
  · rw [Process.eq_of_no_clients store sel magnet a action ov hcs] at h
    simp at h
  · rcases Process.first_confirmed a ov (Process.newTorrent magnet a ov)
      (Process.clients store sel) with hall | ⟨pre, c, post, t, hsplit, hpre, hc⟩
    · obtain ⟨lu, hp⟩ := Process.eq_of_all_fail store sel magnet a action ov hcs hall
      rw [hp] at h
      simp only [Process.submit_mem_failedCallsFrom, Nat.sub_zero] at h
      obtain ⟨c, -, hget, rfl⟩ := h
      exact ⟨c, hget, Process.downloadUncached_requestFor magnet a ov c⟩
    · rw [Process.eq_of_first_confirmed store sel magnet a action ov pre post c t hsplit hpre hc]
        at h
      simp only [List.mem_append, Process.submit_mem_failedCallsFrom, Nat.sub_zero,
        Process.submit_mem_confirmedCalls] at h
      rcases h with ⟨c0, -, hget, rfl⟩ | ⟨rfl, rfl⟩
      · have hi : i < pre.length := (List.getElem?_eq_some.mp hget).1
        refine ⟨c0, ?_, Process.downloadUncached_requestFor magnet a ov c0⟩
        rw [hsplit, List.getElem?_append_left hi]
        exact hget
      · refine ⟨c, ?_, Process.downloadUncached_requestFor magnet a ov c⟩
        rw [hsplit, List.getElem?_append_right (le_refl _)]
        simp

/-- Witness of `Process_submits_with_policy`: without override and arr-level setting, the
second candidate is submitted to with its own default (true), not with the default of the
first (false). -/
theorem Process_submits_with_policy_witness :
    ProcEvent.submit 1
        { Process.newTorrent sampleMagnet sampleArr false with DownloadUncached := true } ∈
      (Process (storageOf [failingClient "realdebrid" none (some (Err.msg "rejected")),
        sampleClient]) "" sampleMagnet sampleArr "none" false).trace ∧
    ∃ c, (Process.clients (storageOf [failingClient "realdebrid" none
        (some (Err.msg "rejected")), sampleClient]) "")[1]? = some c ∧
      ({ Process.newTorrent sampleMagnet sampleArr false with
          DownloadUncached := true } : DebridTorrent).DownloadUncached =
        if false then true
        else match sampleArr.DownloadUncached with
          | some b => b
          | none => c.GetDownloadUncached :=
  ⟨by decide,
   Process_submits_with_policy
    (storageOf [failingClient "realdebrid" none (some (Err.msg "rejected")), sampleClient])
    "" sampleMagnet sampleArr "none" false 1
    { Process.newTorrent sampleMagnet sampleArr false with DownloadUncached := true }
    (by decide)⟩

/-- C8, evaluated on a registry of one provider whose submission returns neither a torrent nor
an error: `Process` appends a nil error for it, the join of `errs` is nil, and the returned
error wraps nothing. One candidate was tried, the aggregate has no constituent cause. -/
theorem Process_nil_submission_loses_cause :
    (Process (storageOf [failingClient "torbox" none none]) "" sampleMagnet sampleArr
      "none" false).torrent = none ∧
    (Process (storageOf [failingClient "torbox" none none]) "" sampleMagnet sampleArr
      "none" false).errs = [none] ∧
    (Process (storageOf [failingClient "torbox" none none]) "" sampleMagnet sampleArr
      "none" false).err = some (Err.msg "failed to process torrent: %!w(<nil>)") ∧
    ((Process (storageOf [failingClient "torbox" none none]) "" sampleMagnet sampleArr
      "none" false).err.map Err.causes) = some [] ∧
    ((Process (storageOf [failingClient "torbox" none none,
        failingClient "realdebrid" none (some (Err.msg "rejected"))]) "" sampleMagnet sampleArr
      "none" false).err.map fun e => e.causes.length) = some 1 :=
  ⟨rfl, rfl, rfl, rfl, rfl⟩

/-- C6, evaluated on a registry of three providers of which the first returns neither a
torrent nor an error on submission and the second confirms the torrent: `Process` returns the
torrent of the second without error, having called the first once and the third not at all;
the entry that the first candidate left in `errs` is nil, so no error is accumulated for
it. -/
theorem Process_silent_candidate_leaves_no_error :
    (Process.clients silentThenConfirming "").map (fun c => c.Name) =
      ["alldebrid", "torbox", "realdebrid"] ∧
    (failingClient "alldebrid" none none).SubmitMagnet
      (Process.newTorrent sampleMagnet sampleArr false) = (none, none) ∧
    ((Process silentThenConfirming "" sampleMagnet sampleArr "none" false).torrent.map
      fun t => t.Id) = some "42" ∧
    (Process silentThenConfirming "" sampleMagnet sampleArr "none" false).err = none ∧
    (Process silentThenConfirming "" sampleMagnet sampleArr "none" false).trace.map
      ProcEvent.candidate = [0, 1, 1] ∧
    (Process silentThenConfirming "" sampleMagnet sampleArr "none" false).errs = [none] ∧
    ((Process silentThenConfirming "" sampleMagnet sampleArr "none" false).errs.filterMap
      fun e => e).length = 0 :=
  ⟨by decide, rfl, by decide, rfl, by decide, rfl, rfl⟩

/-! ## Claims about the lifecycle engine -/

/-- In the symlink branch without a cache, an empty path reported without error runs the
failure handler and then, on the record the failure handler left, the success handler. -/
theorem postDownload_symlink_empty_path (s : Store) (deb : Debrid) (importReq : ImportRequest)
    (fuel : Nat) (torrent : Torrent) (debridTorrent : DebridTorrent) (tr : List Event)
    (hact : importReq.Action = "symlink") (hcache : deb.cache = none)
    (hpath : s.processSymlink torrent { debridTorrent with Arr := some importReq.Arr }
      = ("", none))
    (hdeb : (s.debrid.Debrid debridTorrent.Debrid).isSome = true) :
    postDownload s deb importReq fuel torrent debridTorrent tr =
      onSuccess s fuel
        { (onFailed s (Err.msg ("symlink path is empty for " ++ debridTorrent.Name)) torrent
            { debridTorrent with Arr := some importReq.Arr } tr).torrent with TorrentPath := "" }
        { debridTorrent with Arr := some importReq.Arr }
        (onFailed s (Err.msg ("symlink path is empty for " ++ debridTorrent.Name)) torrent
          { debridTorrent with Arr := some importReq.Arr } tr).trace := by
  have hexit : (onFailed s (Err.msg ("symlink path is empty for " ++ debridTorrent.Name)) torrent
      { debridTorrent with Arr := some importReq.Arr } tr).exit = Exit.returned := by
    cases hd : s.debrid.Debrid debridTorrent.Debrid with
    | none => simp [hd] at hdeb
    | some d => simp [onFailed, deleteRemote, markAsFailed, hd]
  unfold postDownload
  simp only [hact, hcache, hpath, if_true]
  rw [hexit]

/-- A record without a torrent path stays without one under the projection. -/
theorem partialTorrentUpdate_TorrentPath (c : Clock) (t : Torrent) (d : Option DebridTorrent) :
    (partialTorrentUpdate c t d).TorrentPath = t.TorrentPath := by
  cases d <;> rfl

/-- While the readiness predicate rejects every record without a torrent path, `updateTorrent`
never returns on such a record: whatever the fuel, the embedding runs out of it. -/
theorem updateTorrent_never_ready (s : Store)
    (hready : ∀ t : Torrent, t.TorrentPath = "" → s.IsReady t = false) :
    ∀ (fuel k : Nat) (t : Torrent) (debridTorrent : DebridTorrent) (tr : List Event),
      t.TorrentPath = "" →
      updateTorrent s fuel k t (some debridTorrent) tr = none ∧
      updateTorrentTicks s fuel k t debridTorrent tr = none := by
  intro fuel
  induction fuel with
  | zero =>
    intro k t debridTorrent tr _
    exact ⟨by simp [updateTorrent], by simp [updateTorrentTicks]⟩
  | succ fuel ih =>
    intro k t debridTorrent tr ht
    constructor
    · rw [updateTorrent]
      simp only []
      rw [if_neg]
      · exact (ih _ _ _ _ (by simp [partialTorrentUpdate_TorrentPath, ht])).2
      · rw [hready _ (by simp [partialTorrentUpdate_TorrentPath, ht])]
        simp
    · rw [updateTorrentTicks]
      rw [if_neg (by rw [hready t ht]; simp)]
      rw [(ih k t debridTorrent tr ht).1]

/-- C2, evaluated: action `symlink`, no cache, symlink creation reports the empty path without
error, the remote torrent is already downloaded. When the record counts as ready, the failure
callback fires on the record in state `error`; then the success handler runs: the record is
written in state `pausedUP`, the completion callback fires, and the record ends in state
`pausedUP`. When a record counts as ready only with a torrent path, the failure callback fires
and the success handler is entered all the same, never to return. -/
theorem processFiles_symlink_empty_path_runs_both :
    ((processFiles (storeOf [sampleClient] "" fun _ => true) 5 0 sampleRecord
      (some { sampleRemote with Status := "downloaded" }) (requestOf "symlink")).trace.map
        fun e => (e.isMarkAsFailed, e.isMarkAsCompleted)) =
      [(false, false), (false, false), (true, false), (false, false), (false, true),
       (false, false), (false, false)] ∧
    storedStates (processFiles (storeOf [sampleClient] "" fun _ => true) 5 0 sampleRecord
      (some { sampleRemote with Status := "downloaded" }) (requestOf "symlink")).trace =
      ["error", "pausedUP"] ∧
    (processFiles (storeOf [sampleClient] "" fun _ => true) 5 0 sampleRecord
      (some { sampleRemote with Status := "downloaded" }) (requestOf "symlink")).torrent.State
      = "pausedUP" ∧
    (processFiles (storeOf [sampleClient] "" fun _ => true) 5 0 sampleRecord
      (some { sampleRemote with Status := "downloaded" }) (requestOf "symlink")).exit
      = Exit.returned ∧
    ∀ fuel,
      (processFiles (storeOf [sampleClient] "" fun t => decide (t.TorrentPath ≠ "")) fuel 0
        sampleRecord (some { sampleRemote with Status := "downloaded" })
        (requestOf "symlink")).exit = Exit.outOfFuel ∧
      ((processFiles (storeOf [sampleClient] "" fun t => decide (t.TorrentPath ≠ "")) fuel 0
        sampleRecord (some { sampleRemote with Status := "downloaded" })
        (requestOf "symlink")).trace.map fun e => e.isMarkAsFailed) = [false, false, true] := by
  refine ⟨rfl, rfl, rfl, rfl, ?_⟩
  intro fuel
  have hnever := (updateTorrent_never_ready
    (storeOf [sampleClient] "" fun t => decide (t.TorrentPath ≠ ""))
    (by intro t ht; simp [storeOf, ht]) fuel 0
    { (onFailed (storeOf [sampleClient] "" fun t => decide (t.TorrentPath ≠ ""))
        (Err.msg ("symlink path is empty for " ++ sampleRemote.Name)) sampleRecord
        { sampleRemote with Status := "downloaded", Arr := some (requestOf "symlink").Arr }
        []).torrent with TorrentPath := "" }
    { sampleRemote with Status := "downloaded", Arr := some (requestOf "symlink").Arr }
    (onFailed (storeOf [sampleClient] "" fun t => decide (t.TorrentPath ≠ ""))
        (Err.msg ("symlink path is empty for " ++ sampleRemote.Name)) sampleRecord
        { sampleRemote with Status := "downloaded", Arr := some (requestOf "symlink").Arr }
        []).trace rfl).1
  have hrun : processFiles (storeOf [sampleClient] "" fun t => decide (t.TorrentPath ≠ "")) fuel 0
      sampleRecord (some { sampleRemote with Status := "downloaded" }) (requestOf "symlink") =
      postDownload (storeOf [sampleClient] "" fun t => decide (t.TorrentPath ≠ ""))
        { cache := none, client := sampleClient } (requestOf "symlink") fuel sampleRecord
        { sampleRemote with Status := "downloaded" } [] := by
    cases fuel <;> rfl
  rw [hrun, postDownload_symlink_empty_path
    (storeOf [sampleClient] "" fun t => decide (t.TorrentPath ≠ ""))
    { cache := none, client := sampleClient } (requestOf "symlink") fuel sampleRecord
    { sampleRemote with Status := "downloaded" } [] rfl rfl rfl rfl]
  unfold onSuccess
  rw [hnever]
  exact ⟨rfl, rfl⟩

/-- C3, evaluated: base interval one second, a provider that reports `downloading` on the
first three polls. The three backoff waits are 1 s, 2 s and 2 s: the timer is re-armed with
twice the configured interval, which is never updated. The formula of the claim gives 4 s for
the third wait. -/
theorem processFiles_backoff_does_not_double :
    waits (processFiles (storeOf [sampleClient] "/mnt/sintel" fun _ => true) 5 0 sampleRecord
      (some sampleRemote) (requestOf "none")).trace = [second, 2 * second, 2 * second] ∧
    (processFiles (storeOf [sampleClient] "/mnt/sintel" fun _ => true) 5 0 sampleRecord
      (some sampleRemote) (requestOf "none")).exit = Exit.returned ∧
    min (second * 2 ^ 2) (30 * second) = 4 * second ∧
    2 * second ≠ min (second * 2 ^ 2) (30 * second) := by
  refine ⟨?_, ?_, ?_, ?_⟩ <;> decide

/-- C10: when `Process` fails with an error in which `errors.As` finds an HTTP error of code
`too_many_active_downloads`, and the request is added to the retry queue without error, then
`AddTorrent` returns no error; the only record it hands to the store is the fresh record in
state `queued`; and the goroutine `processFiles` returns at once on the nil remote torrent,
with no event at all (no status poll, no failure callback) and the record still `queued`. -/
theorem AddTorrent_queued_on_capacity_error (s : Store) (fuel : Nat) (importReq : ImportRequest)
    (err : Err)
    (hp : (Process s.debrid importReq.SelectedDebrid importReq.Magnet importReq.Arr
      importReq.Action importReq.DownloadUncached).err = some err)
    (hhttp : err.asHTTP = some "too_many_active_downloads")
    (hq : s.addToQueue importReq = none) :
    (AddTorrent s fuel importReq).err = none ∧
    storedStates (AddTorrent s fuel importReq).trace = ["queued"] ∧
    (AddTorrent s fuel importReq).trace =
      (Process s.debrid importReq.SelectedDebrid importReq.Magnet importReq.Arr
        importReq.Action importReq.DownloadUncached).trace.map Event.process ++
      [Event.addToQueue,
       Event.storeAddOrUpdate { s.createTorrentFromMagnet importReq with State := "queued" }] ∧
    (AddTorrent s fuel importReq).files =
      some { torrent := { s.createTorrentFromMagnet importReq with State := "queued" },
             trace := [], exit := Exit.returned } := by
  have ht := Process.torrent_none_of_err s.debrid importReq.SelectedDebrid importReq.Magnet
    importReq.Arr importReq.Action importReq.DownloadUncached err hp
  have hst : ∀ l : List ProcEvent, storedStates (l.map Event.process) = [] := by
    intro l
    induction l with
    | nil => rfl
    | cons e l ih => simp [storedStates]
  have hst' : ∀ (l : List ProcEvent) (l' : List Event),
      storedStates (l.map Event.process ++ l') = storedStates l' := by
    intro l l'
    have := hst l
    simp only [storedStates, List.filterMap_append] at this ⊢
    rw [this, List.nil_append]
  unfold AddTorrent
  simp only [hp, hhttp, hq, ht, if_true, partialTorrentUpdate, processFiles]
  refine ⟨trivial, ?_, by simp, trivial⟩
  rw [List.append_assoc, hst']
  rfl

/-- Witness of `AddTorrent_queued_on_capacity_error`: the only provider rejects the magnet with
the capacity error. -/
theorem AddTorrent_queued_on_capacity_error_witness :
    (AddTorrent (storeOf [failingClient "torbox" none
        (some (Err.http "too_many_active_downloads" "active limit"))] "" fun _ => true) 5
      (requestOf "symlink")).err = none ∧
    storedStates (AddTorrent (storeOf [failingClient "torbox" none
        (some (Err.http "too_many_active_downloads" "active limit"))] "" fun _ => true) 5
      (requestOf "symlink")).trace = ["queued"] :=
  have h := AddTorrent_queued_on_capacity_error
    (storeOf [failingClient "torbox" none
      (some (Err.http "too_many_active_downloads" "active limit"))] "" fun _ => true) 5
    (requestOf "symlink")
    (Err.wrap "failed to process torrent"
      (Err.join [Err.http "too_many_active_downloads" "active limit"]))
    rfl rfl rfl
  ⟨h.1, h.2.1⟩

theorem waits_append (a b : List Event) : waits (a ++ b) = waits a ++ waits b := by
  simp [waits, List.filterMap_append]

/-- The backoff waits of the poll loop, for every provider and every number of polls: the
first wait is the duration the timer was created with, every later wait is twice the
configured interval, capped at 30 seconds. -/
theorem pollLoop_waits (s : Store) (client : Client) :
    ∀ (fuel k : Nat) (armed : Int) (torrent : Torrent) (debridTorrent : DebridTorrent)
      (tr : List Event),
    waits (pollLoop s client fuel k armed torrent debridTorrent tr).trace = waits tr ∨
    ∃ m, waits (pollLoop s client fuel k armed torrent debridTorrent tr).trace =
      waits tr ++ armed :: List.replicate m (min (wrap64 (s.refreshInterval * 2)) (30 * second))
    := by
  intro fuel
  induction fuel with
  | zero =>
    intro k armed torrent debridTorrent tr
    left
    unfold pollLoop
    split_ifs <;> rfl
  | succ fuel ih =>
    intro k armed torrent debridTorrent tr
    unfold pollLoop
    by_cases hd : debridTorrent.Status = "downloaded"
    · left
      simp [hd, Polled.trace]
    · simp only [hd, if_false]
      rcases hc : client.CheckStatus k debridTorrent with ⟨_ | dbT, _ | err⟩
      · left
        simp [Polled.trace, waits_append, waits, Event.waited]
      · left
        simp [Polled.trace, markAsFailed, waits_append, waits, Event.waited]
      · simp only []
        split_ifs with hbreak
        · left
          simp [Polled.trace, waits_append, waits, Event.waited]
        · right
          rcases ih (k + 1) (min (wrap64 (s.refreshInterval * 2)) (30 * second))
            (partialTorrentUpdate s.clock torrent (some dbT)) dbT
            (tr ++ [Event.checkStatus debridTorrent.Debrid k] ++ [Event.wait armed])
            with h | ⟨m, h⟩
          · refine ⟨0, ?_⟩
            rw [h]
            simp [waits_append, waits, Event.waited]
          · refine ⟨m + 1, ?_⟩
            rw [h]
            simp [waits_append, waits, Event.waited, List.replicate_succ]
      · left
        by_cases hid : dbT.Id = "" <;>
          simp [Polled.trace, markAsFailed, waits_append, waits, Event.waited, hid]

/-! ## Claims about `GetFileDownloadLinks` -/

theorem LinkCache.get_filter_ne (c : LinkCache) (k k' : String) (h : k' ≠ k) :
    LinkCache.get (c.filter fun e => e.1 ≠ k) k' = LinkCache.get c k' := by
  induction c with
  | nil => rfl
  | cons e c ih =>
    obtain ⟨a, b⟩ := e
    unfold LinkCache.get at ih ⊢
    by_cases hak : a = k
    · have hak' : ¬ a = k' := fun h' => h (h'.symm.trans hak)
      rw [List.filter_cons, if_neg (by simp [hak]), List.find?_cons_of_neg _ (by simp [hak'])]
      exact ih
    · rw [List.filter_cons, if_pos (by simp [hak])]
      by_cases hak' : a = k'
      · rw [List.find?_cons_of_pos _ (by simp [hak']), List.find?_cons_of_pos _ (by simp [hak'])]
      · rw [List.find?_cons_of_neg _ (by simp [hak']), List.find?_cons_of_neg _ (by simp [hak'])]
        exact ih

/-- Storing under a key replaces the entry of that key and no other. -/
theorem LinkCache.get_SetDownloadLink (c : LinkCache) (k k' : String) (l : DownloadLink) :
    LinkCache.get (SetDownloadLink c k l) k' = if k' = k then some l else LinkCache.get c k' := by
  by_cases h : k' = k
  · subst h
    simp [SetDownloadLink, LinkCache.get, List.find?_cons]
  · have h' : ¬ k = k' := fun e => h e.symm
    rw [if_neg h, ← LinkCache.get_filter_ne c k k' h]
    simp [SetDownloadLink, LinkCache.get, List.find?_cons, h']

/-- Draining links whose key differs from `k` leaves the entry of `k` alone. -/
theorem LinkCache.get_foldl_of_not_mem (links : List DownloadLink) (k : String)
    (h : ∀ l ∈ links, l.Link ≠ k) :
    ∀ c : LinkCache,
      LinkCache.get (links.foldl (fun c link => SetDownloadLink c link.Link link) c) k =
        LinkCache.get c k := by
  induction links with
  | nil => intro c; rfl
  | cons l links ih =>
    intro c
    have hl : ¬ k = l.Link := fun e => h l (List.mem_cons_self _ _) e.symm
    rw [List.foldl_cons, ih (fun x hx => h x (List.mem_cons_of_mem _ hx)),
      LinkCache.get_SetDownloadLink, if_neg hl]

/-- After the drain, a key that some drained link carries holds one of the drained links of
that key. -/
theorem LinkCache.get_foldl_of_mem (links : List DownloadLink) (k : String) :
    ∀ c : LinkCache, (∃ l ∈ links, l.Link = k) →
      ∃ l' ∈ links, l'.Link = k ∧
        LinkCache.get (links.foldl (fun c link => SetDownloadLink c link.Link link) c) k =
          some l' := by
  induction links with
  | nil => intro c h; simp at h
  | cons l links ih =>
    intro c h
    by_cases hrest : ∃ x ∈ links, x.Link = k
    · obtain ⟨l', hl', hk, hget⟩ := ih (SetDownloadLink c l.Link l) hrest
      exact ⟨l', List.mem_cons_of_mem _ hl', hk, by rw [List.foldl_cons]; exact hget⟩
    · have hnot : ∀ x ∈ links, x.Link ≠ k := fun x hx e => hrest ⟨x, hx, e⟩
      obtain ⟨x, hx, hxk⟩ := h
      have hlk : l.Link = k := by
        rcases List.mem_cons.mp hx with rfl | hx'
        · exact hxk
        · exact absurd hxk (hnot x hx')
      refine ⟨l, List.mem_cons_self _ _, hlk, ?_⟩
      rw [List.foldl_cons, LinkCache.get_foldl_of_not_mem links k hnot,
        LinkCache.get_SetDownloadLink, if_pos hlk.symm]

/-- A resolved link is keyed by the link of its file. -/
theorem sentLink_Link (tb : Torbox) (t : DebridTorrent) (f : File) (l : DownloadLink)
    (h : sentLink tb t f = some l) : l.Link = f.Link := by
  unfold sentLink GetDownloadLink at h
  cases hr : tb.requestdl t.Id f.Id with
  | failed e => simp [hr] at h
  | data d =>
    cases d with
    | none => simp [hr] at h
    | some link =>
      by_cases hl : link = ""
      · simp [hr, hl] at h
      · simp [hr, hl] at h
        rw [← h]

/-- The error `GetFileDownloadLinks` returns is the first one drained. -/
theorem GetFileDownloadLinks_err_isSome (tb : Torbox) (sch : Schedule)
    (t : DebridTorrent) (hs : sch.ofTorrent t)
    (hfail : ∃ f ∈ t.fileValues, (sentErr tb t f).isSome = true) :
    ∃ err rest, sch.errOrder.filterMap (sentErr tb t) = err :: rest := by
  obtain ⟨f, hf, hsome⟩ := hfail
  obtain ⟨e, he⟩ := Option.isSome_iff_exists.mp hsome
  have hmem : e ∈ sch.errOrder.filterMap (sentErr tb t) :=
    List.mem_filterMap.mpr ⟨f, (hs.2.2.mem_iff).mpr hf, he⟩
  cases hl : sch.errOrder.filterMap (sentErr tb t) with
  | nil => rw [hl] at hmem; simp at hmem
  | cons err rest => exact ⟨err, rest, rfl⟩

/-- C4, as the code has it: when the resolution of at least one file fails,
`GetFileDownloadLinks` returns a non-nil error and leaves the torrent, its file map included,
as it was; the map rebuilt from the resolved files replaces the file map only when every
resolution succeeds, and then no error is returned. -/
theorem GetFileDownloadLinks_replaces_files_only_on_success (tb : Torbox) (sch : Schedule)
    (cache : LinkCache) (t : DebridTorrent) (hs : sch.ofTorrent t) :
    ((∃ f ∈ t.fileValues, (sentErr tb t f).isSome = true) →
      (GetFileDownloadLinks tb sch cache t).err.isSome = true ∧
      (GetFileDownloadLinks tb sch cache t).torrent = t) ∧
    ((∀ f ∈ t.fileValues, sentErr tb t f = none) →
      (GetFileDownloadLinks tb sch cache t).err = none ∧
      (GetFileDownloadLinks tb sch cache t).torrent =
        { t with Files := rebuiltFiles tb t sch.fileOrder }) := by
  constructor
  · intro hfail
    obtain ⟨err, rest, he⟩ := GetFileDownloadLinks_err_isSome tb sch t hs hfail
    simp [GetFileDownloadLinks, he]
  · intro hall
    have he : sch.errOrder.filterMap (sentErr tb t) = [] := by
      rw [List.filterMap_eq_nil_iff]
      intro f hf
      exact hall f ((hs.2.2.mem_iff).mp hf)
    simp [GetFileDownloadLinks, he]

/-- Witness of `GetFileDownloadLinks_replaces_files_only_on_success`: three files, the second
of which fails to resolve. -/
theorem GetFileDownloadLinks_replaces_files_only_on_success_witness :
    (∃ f ∈ threeFiles.fileValues, (sentErr sampleTorbox threeFiles f).isSome = true) ∧
    (GetFileDownloadLinks sampleTorbox (Schedule.inOrder threeFiles) [] threeFiles).err.isSome
      = true ∧
    (GetFileDownloadLinks sampleTorbox (Schedule.inOrder threeFiles) [] threeFiles).torrent
      = threeFiles :=
  ⟨⟨sampleFile "2" "b.mkv", by decide, by decide⟩,
   (GetFileDownloadLinks_replaces_files_only_on_success sampleTorbox
      (Schedule.inOrder threeFiles) [] threeFiles
      ⟨List.Perm.refl _, List.Perm.refl _, List.Perm.refl _⟩).1
      ⟨sampleFile "2" "b.mkv", by decide, by decide⟩⟩

/-- C4 fails as stated: with three files of which the second fails to resolve, the error is
non-nil, the map of the resolved files holds the first and the third file with their links,
and the file map of the torrent is not replaced by it: it still holds all three files, without
links. -/
theorem GetFileDownloadLinks_error_discards_rebuilt_files :
    (∃ f ∈ threeFiles.fileValues, (sentErr sampleTorbox threeFiles f).isSome = true) ∧
    (GetFileDownloadLinks sampleTorbox (Schedule.inOrder threeFiles) [] threeFiles).err.isSome
      = true ∧
    rebuiltFiles sampleTorbox threeFiles (Schedule.inOrder threeFiles).fileOrder =
      [("a.mkv", { sampleFile "1" "a.mkv" with DownloadLink := some (sampleLink "1") }),
       ("c.mkv", { sampleFile "3" "c.mkv" with DownloadLink := some (sampleLink "3") })] ∧
    (GetFileDownloadLinks sampleTorbox (Schedule.inOrder threeFiles) [] threeFiles).torrent.Files
      ≠ rebuiltFiles sampleTorbox threeFiles (Schedule.inOrder threeFiles).fileOrder ∧
    (GetFileDownloadLinks sampleTorbox (Schedule.inOrder threeFiles) [] threeFiles).torrent.Files
      = threeFiles.Files := by
  refine ⟨⟨sampleFile "2" "b.mkv", by decide, by decide⟩, ?_, ?_, ?_, ?_⟩ <;> decide

/-- C5, as the code has it: when the resolution of some files fails, `GetFileDownloadLinks`
returns a non-nil error, and by then it has handed every resolved link, once, to
`SetDownloadLink`, under the key `link.Link`, the `Link` of its file. The link cache it leaves
behind has, for every file whose resolution succeeded, an entry under the link key of that
file: a link resolved in this call for a file of that key, and the link of the file itself
when the resolved files have distinct keys. -/
theorem GetFileDownloadLinks_error_after_cache_commit (tb : Torbox) (sch : Schedule)
    (cache : LinkCache) (t : DebridTorrent) (hs : sch.ofTorrent t)
    (hfail : ∃ f ∈ t.fileValues, (sentErr tb t f).isSome = true) :
    (GetFileDownloadLinks tb sch cache t).err.isSome = true ∧
    (GetFileDownloadLinks tb sch cache t).commits.Perm (t.fileValues.filterMap (sentLink tb t)) ∧
    (∀ f ∈ t.fileValues, ∀ l, sentLink tb t f = some l →
      ∃ l', (GetFileDownloadLinks tb sch cache t).cache.get f.Link = some l' ∧
        l'.Link = f.Link ∧ ∃ g ∈ t.fileValues, sentLink tb t g = some l') ∧
    (((t.fileValues.filterMap (sentLink tb t)).map fun l => l.Link).Nodup →
      ∀ f ∈ t.fileValues, ∀ l, sentLink tb t f = some l →
        (GetFileDownloadLinks tb sch cache t).cache.get f.Link = some l) := by
  obtain ⟨err, rest, he⟩ := GetFileDownloadLinks_err_isSome tb sch t hs hfail
  have hcache : (GetFileDownloadLinks tb sch cache t).cache =
      (sch.linkOrder.filterMap (sentLink tb t)).foldl
        (fun c link => SetDownloadLink c link.Link link) cache := by
    simp [GetFileDownloadLinks, he]
  have hentry : ∀ f ∈ t.fileValues, ∀ l, sentLink tb t f = some l →
      ∃ l' ∈ sch.linkOrder.filterMap (sentLink tb t), l'.Link = f.Link ∧
        (GetFileDownloadLinks tb sch cache t).cache.get f.Link = some l' := by
    intro f hf l hl
    rw [hcache]
    apply LinkCache.get_foldl_of_mem
    exact ⟨l, List.mem_filterMap.mpr ⟨f, (hs.1.mem_iff).mpr hf, hl⟩, sentLink_Link tb t f l hl⟩
  refine ⟨by simp [GetFileDownloadLinks, he], ?_, ?_, ?_⟩
  · have : (GetFileDownloadLinks tb sch cache t).commits =
        sch.linkOrder.filterMap (sentLink tb t) := by
      simp [GetFileDownloadLinks, he]
    rw [this]
    exact hs.1.filterMap (sentLink tb t)
  · intro f hf l hl
    obtain ⟨l', hl', hk, hget⟩ := hentry f hf l hl
    obtain ⟨g, hg, hgl⟩ := List.mem_filterMap.mp hl'
    exact ⟨l', hget, hk, g, (hs.1.mem_iff).mp hg, hgl⟩
  · intro hnd f hf l hl
    obtain ⟨l', hl', hk, hget⟩ := hentry f hf l hl
    have hnd' : ((sch.linkOrder.filterMap (sentLink tb t)).map fun l => l.Link).Nodup :=
      (((hs.1.filterMap (sentLink tb t)).map fun l => l.Link).nodup_iff).mpr hnd
    have hlmem : l ∈ sch.linkOrder.filterMap (sentLink tb t) :=
      List.mem_filterMap.mpr ⟨f, (hs.1.mem_iff).mpr hf, hl⟩
    have : l' = l :=
      List.inj_on_of_nodup_map hnd' hl' hlmem (hk.trans (sentLink_Link tb t f l hl).symm)
    rw [hget, this]

/-- Witness of `GetFileDownloadLinks_error_after_cache_commit`: three files, the second of which
fails to resolve; the cache holds the links of the first and of the third. -/
theorem GetFileDownloadLinks_error_after_cache_commit_witness :
    (∃ f ∈ threeFiles.fileValues, (sentErr sampleTorbox threeFiles f).isSome = true) ∧
    (GetFileDownloadLinks sampleTorbox (Schedule.inOrder threeFiles) [] threeFiles).err.isSome
      = true ∧
    (GetFileDownloadLinks sampleTorbox (Schedule.inOrder threeFiles) [] threeFiles).cache.get
      (sampleFile "1" "a.mkv").Link = some (sampleLink "1") ∧
    (GetFileDownloadLinks sampleTorbox (Schedule.inOrder threeFiles) [] threeFiles).cache.get
      (sampleFile "3" "c.mkv").Link = some (sampleLink "3") :=
  have h := GetFileDownloadLinks_error_after_cache_commit sampleTorbox
    (Schedule.inOrder threeFiles) [] threeFiles
    ⟨List.Perm.refl _, List.Perm.refl _, List.Perm.refl _⟩
    ⟨sampleFile "2" "b.mkv", by decide, by decide⟩
  ⟨⟨sampleFile "2" "b.mkv", by decide, by decide⟩, h.1,
   h.2.2.2 (by decide) (sampleFile "1" "a.mkv") (by decide) (sampleLink "1") (by decide),
   h.2.2.2 (by decide) (sampleFile "3" "c.mkv") (by decide) (sampleLink "3") (by decide)⟩

/-- C5 fails as stated: the vendor reports a torrent as cached and not as finished, so its
status is `downloaded` and its three files bear no placeholder link. The second file fails to
resolve; the links of the first and of the third are handed to the cache, both under the empty
key, and the cache is left with one entry, the link of the third file: the link of the first
file, whose resolution succeeded, is under no key. -/
theorem GetFileDownloadLinks_shared_key_loses_link :
    cachedThreeFiles.Status = "downloaded" ∧
    cachedThreeFiles.fileValues =
      [plainFile "1" "a.mkv", plainFile "2" "b.mkv", plainFile "3" "c.mkv"] ∧
    (GetFileDownloadLinks sampleTorbox (Schedule.inOrder cachedThreeFiles) []
      cachedThreeFiles).err.isSome = true ∧
    sentLink sampleTorbox cachedThreeFiles (plainFile "1" "a.mkv") = some (plainLink "1") ∧
    sentLink sampleTorbox cachedThreeFiles (plainFile "3" "c.mkv") = some (plainLink "3") ∧
    (GetFileDownloadLinks sampleTorbox (Schedule.inOrder cachedThreeFiles) []
      cachedThreeFiles).commits = [plainLink "1", plainLink "3"] ∧
    (GetFileDownloadLinks sampleTorbox (Schedule.inOrder cachedThreeFiles) []
      cachedThreeFiles).cache = [("", plainLink "3")] ∧
    ∀ key, (GetFileDownloadLinks sampleTorbox (Schedule.inOrder cachedThreeFiles) []
      cachedThreeFiles).cache.get key ≠ some (plainLink "1") := by
  have hc : (GetFileDownloadLinks sampleTorbox (Schedule.inOrder cachedThreeFiles) []
      cachedThreeFiles).cache = [("", plainLink "3")] := by decide
  refine ⟨by decide, by decide, by decide, by decide, by decide, by decide, hc, ?_⟩
  intro key
  rw [hc]
  by_cases hk : key = ""
  · subst hk
    decide
  · have hk2 : ¬ "" = key := fun h => hk h.symm
    simp [LinkCache.get, List.find?_cons, hk2]

/-! ## Claims about the projection `partialTorrentUpdate` -/

theorem wrap64_of_range {x : Int} (h1 : -(2 : Int) ^ 63 ≤ x) (h2 : x < 2 ^ 63) : wrap64 x = x := by
  unfold wrap64
  norm_num at h1 h2 ⊢
  omega

theorem wrap64_range (x : Int) : -(2 : Int) ^ 63 ≤ wrap64 x ∧ wrap64 x < 2 ^ 63 := by
  unfold wrap64
  norm_num
  omega

theorem wrap64_add_wrap64_sub (s c : Int) : wrap64 (c + wrap64 (s - c)) = wrap64 s := by
  unfold wrap64
  norm_num
  omega

/-- Go `/` on two int64 values is the truncated quotient, except for the one quotient that
does not fit. -/
theorem div64_eq_tdiv {a b : Int} (ha1 : -(2 : Int) ^ 63 ≤ a) (ha2 : a < 2 ^ 63)
    (h : ¬ (a = -(2 : Int) ^ 63 ∧ b = -1)) : div64 a b = Int.tdiv a b := by
  unfold div64
  apply wrap64_of_range
  · have hq := Int.natAbs_tdiv a b
    have hle : a.natAbs / b.natAbs ≤ a.natAbs := Nat.div_le_self _ _
    norm_num at ha1 ha2 h ⊢
    rcases Nat.lt_or_ge b.natAbs 2 with hb | hb
    · rcases Int.natAbs_eq b with hb' | hb'
      · have : b = 0 ∨ b = 1 := by omega
        rcases this with rfl | rfl
        · simp
        · simp; omega
      · have : b = 0 ∨ b = -1 := by omega
        rcases this with rfl | rfl
        · simp
        · have hneg : Int.tdiv a (-1) = -a := by
            rw [Int.tdiv_neg, Int.tdiv_one]
          rw [hneg]
          omega
    · have h2 : a.natAbs / b.natAbs ≤ a.natAbs / 2 := Nat.div_le_div_left hb (by norm_num)
      have hq' : (Int.tdiv a b).natAbs ≤ a.natAbs / 2 := by
        rw [hq]; exact h2
      omega
  · have hq := Int.natAbs_tdiv a b
    norm_num at ha1 ha2 h ⊢
    rcases Nat.lt_or_ge b.natAbs 2 with hb | hb
    · rcases Int.natAbs_eq b with hb' | hb'
      · have : b = 0 ∨ b = 1 := by omega
        rcases this with rfl | rfl
        · simp
        · simp; omega
      · have : b = 0 ∨ b = -1 := by omega
        rcases this with rfl | rfl
        · simp
        · have hneg : Int.tdiv a (-1) = -a := by
            rw [Int.tdiv_neg, Int.tdiv_one]
          rw [hneg]
          omega
    · have h2 : a.natAbs / b.natAbs ≤ a.natAbs / 2 := Nat.div_le_div_left hb (by norm_num)
      have hq' : (Int.tdiv a b).natAbs ≤ a.natAbs / 2 := by
        rw [hq]; exact h2
      omega

/-- C18, as the code has it: a second projection of the same snapshot onto the projected
record changes nothing when the `Added` timestamp of the snapshot parses, or when both
projections read the same clock second, `GetFiles` listing the files of the snapshot in the
same order both times. (With a timestamp that does not parse, `AddedOn` is the time of the
call.) The snapshot is a value the projection only reads. -/
theorem partialTorrentUpdate_idempotent (c1 c2 : Clock) (r : Torrent) (d : DebridTorrent)
    (hparse : c2.parseRFC3339 = c1.parseRFC3339) (hjoin : c2.joinPath = c1.joinPath)
    (hfiles : c2.GetFiles d = c1.GetFiles d)
    (h : (c1.parseRFC3339 d.Added).isSome = true ∨ c2.now = c1.now) :
    partialTorrentUpdate c2 (partialTorrentUpdate c1 r (some d)) (some d) =
      partialTorrentUpdate c1 r (some d) := by
  unfold partialTorrentUpdate
  simp only [hparse, hjoin, hfiles]
  rcases h with h | h
  · obtain ⟨a, ha⟩ := Option.isSome_iff_exists.mp h
    simp only [ha]
  · cases hp : c1.parseRFC3339 d.Added <;> simp only [h]

/-- Witness of `partialTorrentUpdate_idempotent`: a snapshot with three files whose timestamp
parses, projected at second 0 and again at second 5; the record keeps the parsed time and its
three files. -/
theorem partialTorrentUpdate_idempotent_witness :
    ((parsingClock 0).parseRFC3339 datedThreeFiles.Added).isSome = true ∧
    (parsingClock 5).now ≠ (parsingClock 0).now ∧
    partialTorrentUpdate (parsingClock 5)
        (partialTorrentUpdate (parsingClock 0) sampleRecord (some datedThreeFiles))
        (some datedThreeFiles) =
      partialTorrentUpdate (parsingClock 0) sampleRecord (some datedThreeFiles) ∧
    (partialTorrentUpdate (parsingClock 0) sampleRecord (some datedThreeFiles)).AddedOn =
      1704067200 ∧
    (partialTorrentUpdate (parsingClock 0) sampleRecord (some datedThreeFiles)).Files =
      [{ Index := 0, Name := "a.mkv", Size := 700 }, { Index := 1, Name := "b.mkv", Size := 700 },
       { Index := 2, Name := "c.mkv", Size := 700 }] :=
  ⟨by decide, by decide,
    partialTorrentUpdate_idempotent (parsingClock 0) (parsingClock 5) sampleRecord
      datedThreeFiles rfl rfl rfl (Or.inl (by decide)),
    by decide, by decide⟩

/-- C18 fails as stated: the `Added` timestamp of the snapshot is empty and does not parse; the
first projection is made at second 0, the second at second 1. The record after the second
projection differs from the record after the first, in `AddedOn`. -/
theorem partialTorrentUpdate_not_idempotent_unparseable :
    sampleRemote.Added = "" ∧
    (partialTorrentUpdate sampleClock sampleRecord (some sampleRemote)).AddedOn = 0 ∧
    (partialTorrentUpdate { sampleClock with now := 1 }
      (partialTorrentUpdate sampleClock sampleRecord (some sampleRemote))
      (some sampleRemote)).AddedOn = 1 ∧
    partialTorrentUpdate { sampleClock with now := 1 }
        (partialTorrentUpdate sampleClock sampleRecord (some sampleRemote)) (some sampleRemote) ≠
      partialTorrentUpdate sampleClock sampleRecord (some sampleRemote) := by
  refine ⟨rfl, rfl, rfl, ?_⟩
  intro h
  have h' := congrArg Torrent.AddedOn h
  have h0 : (partialTorrentUpdate sampleClock sampleRecord (some sampleRemote)).AddedOn = 0 := rfl
  have h1 : (partialTorrentUpdate { sampleClock with now := 1 }
      (partialTorrentUpdate sampleClock sampleRecord (some sampleRemote))
      (some sampleRemote)).AddedOn = 1 := rfl
  rw [h0, h1] at h'
  exact absurd h' (by decide)

theorem partialTorrentUpdate_AmountLeft (c : Clock) (t : Torrent) (d : DebridTorrent) :
    (partialTorrentUpdate c t (some d)).AmountLeft =
      wrap64 (d.Bytes - (partialTorrentUpdate c t (some d)).Completed) := rfl

theorem partialTorrentUpdate_Size (c : Clock) (t : Torrent) (d : DebridTorrent) :
    (partialTorrentUpdate c t (some d)).Size = d.Bytes := rfl

/-- C19: in the record projected from a snapshot, `Eta` is 0 when the speed of the snapshot is
0; otherwise it is `AmountLeft / speed` in Go int64 division, which is the quotient truncated
toward zero (the one quotient that does not fit int64, of the least int64 by -1, apart). -/
theorem partialTorrentUpdate_eta (c : Clock) (t : Torrent) (d : DebridTorrent) :
    (d.Speed = 0 → (partialTorrentUpdate c t (some d)).Eta = 0) ∧
    (d.Speed ≠ 0 →
      (partialTorrentUpdate c t (some d)).Eta =
        div64 (partialTorrentUpdate c t (some d)).AmountLeft d.Speed) ∧
    (d.Speed ≠ 0 →
      ¬ ((partialTorrentUpdate c t (some d)).AmountLeft = -(2 : Int) ^ 63 ∧ d.Speed = -1) →
      (partialTorrentUpdate c t (some d)).Eta =
        Int.tdiv (partialTorrentUpdate c t (some d)).AmountLeft d.Speed) := by
  have heta : d.Speed ≠ 0 → (partialTorrentUpdate c t (some d)).Eta =
      div64 (partialTorrentUpdate c t (some d)).AmountLeft d.Speed := by
    intro hs
    simp [partialTorrentUpdate, hs]
  refine ⟨?_, heta, ?_⟩
  · intro hs
    simp [partialTorrentUpdate, hs]
  · intro hs hno
    rw [heta hs]
    have hr := wrap64_range (d.Bytes - (partialTorrentUpdate c t (some d)).Completed)
    rw [← partialTorrentUpdate_AmountLeft] at hr
    exact div64_eq_tdiv hr.1 hr.2 hno

/-- Witness of `partialTorrentUpdate_eta`: a snapshot of 1000 bytes, nothing completed, at
speed 300, gives an eta of 3; at speed 0 the eta is 0. -/
theorem partialTorrentUpdate_eta_witness :
    ({ sampleRemote with Speed := 300 } : DebridTorrent).Speed ≠ 0 ∧
    (partialTorrentUpdate sampleClock sampleRecord (some { sampleRemote with Speed := 300 })).Eta =
      div64 (partialTorrentUpdate sampleClock sampleRecord
        (some { sampleRemote with Speed := 300 })).AmountLeft 300 ∧
    (partialTorrentUpdate sampleClock sampleRecord (some sampleRemote)).Eta = 0 :=
  ⟨by decide,
   (partialTorrentUpdate_eta sampleClock sampleRecord { sampleRemote with Speed := 300 }).2.1
     (by decide),
   (partialTorrentUpdate_eta sampleClock sampleRecord sampleRemote).1 rfl⟩

/-- C20: in the record projected from a snapshot, `Completed + AmountLeft` equals `Size` in
int64 arithmetic, whatever the size and the progress; the sum is also the plain integer sum
whenever the subtraction `Size - Completed` does not wrap. -/
theorem partialTorrentUpdate_completed_add_left (c : Clock) (t : Torrent) (d : DebridTorrent)
    (hsize : -(2 : Int) ^ 63 ≤ d.Bytes ∧ d.Bytes < 2 ^ 63) :
    wrap64 ((partialTorrentUpdate c t (some d)).Completed +
      (partialTorrentUpdate c t (some d)).AmountLeft) = (partialTorrentUpdate c t (some d)).Size ∧
    (-(2 : Int) ^ 63 ≤ d.Bytes - (partialTorrentUpdate c t (some d)).Completed ∧
      d.Bytes - (partialTorrentUpdate c t (some d)).Completed < 2 ^ 63 →
      (partialTorrentUpdate c t (some d)).Completed +
        (partialTorrentUpdate c t (some d)).AmountLeft =
          (partialTorrentUpdate c t (some d)).Size) := by
  rw [partialTorrentUpdate_AmountLeft, partialTorrentUpdate_Size]
  constructor
  · rw [wrap64_add_wrap64_sub]
    exact wrap64_of_range hsize.1 hsize.2
  · intro h
    rw [wrap64_of_range h.1 h.2]
    ring

/-- Witness of `partialTorrentUpdate_completed_add_left`: a snapshot of 1000 bytes. -/
theorem partialTorrentUpdate_completed_add_left_witness :
    (-(2 : Int) ^ 63 ≤ sampleRemote.Bytes ∧ sampleRemote.Bytes < 2 ^ 63) ∧
    wrap64 ((partialTorrentUpdate sampleClock sampleRecord (some sampleRemote)).Completed +
      (partialTorrentUpdate sampleClock sampleRecord (some sampleRemote)).AmountLeft) =
      (partialTorrentUpdate sampleClock sampleRecord (some sampleRemote)).Size :=
  ⟨by decide,
   (partialTorrentUpdate_completed_add_left sampleClock sampleRecord sampleRemote
     (by decide)).1⟩

/-! ## Terminal states of `processFiles`, and `updateTorrent` on a record that is not ready -/

theorem onFailed_State (s : Store) (err : Err) (torrent : Torrent)
    (debridTorrent : DebridTorrent) (tr : List Event) :
    (onFailed s err torrent debridTorrent tr).torrent.State = "error" := by
  simp [onFailed, markAsFailed]

/-- One call of `updateTorrent` on a non-nil remote torrent, by its steps. -/
theorem updateTorrent_succ (s : Store) (fuel k : Nat) (t : Torrent)
    (debridTorrent : DebridTorrent) (tr : List Event) :
    updateTorrent s (fuel + 1) k t (some debridTorrent) tr =
      if s.IsReady (updateTorrent.projected s t (updateTorrent.refreshed s k debridTorrent tr).1)
      then
        some ({ updateTorrent.projected s t (updateTorrent.refreshed s k debridTorrent tr).1 with
                State := "pausedUP" },
          some (updateTorrent.refreshed s k debridTorrent tr).1,
          (updateTorrent.refreshed s k debridTorrent tr).2.1,
          (updateTorrent.refreshed s k debridTorrent tr).2.2 ++
            [Event.storeUpdate
              { updateTorrent.projected s t (updateTorrent.refreshed s k debridTorrent tr).1 with
                State := "pausedUP" }])
      else
        updateTorrentTicks s fuel (updateTorrent.refreshed s k debridTorrent tr).2.1
          (updateTorrent.projected s t (updateTorrent.refreshed s k debridTorrent tr).1)
          (updateTorrent.refreshed s k debridTorrent tr).1
          (updateTorrent.refreshed s k debridTorrent tr).2.2 := by
  rw [updateTorrent]
  rfl

/-- One round of the ticker loop of `updateTorrent`: a record that is not ready re-enters
`updateTorrent`. -/
theorem updateTorrentTicks_succ (s : Store) (fuel k : Nat) (t : Torrent)
    (debridTorrent : DebridTorrent) (tr : List Event) :
    updateTorrentTicks s (fuel + 1) k t debridTorrent tr =
      if s.IsReady t then
        some ({ t with State := "pausedUP" }, some debridTorrent, k,
          tr ++ [Event.storeUpdate { t with State := "pausedUP" }])
      else
        match updateTorrent s fuel k t (some debridTorrent) tr with
        | none => none
        | some (t, some debridTorrent, k, tr) => updateTorrentTicks s fuel k t debridTorrent tr
        | some (t, none, k, tr) => some (t, none, k, tr) := by
  rw [updateTorrentTicks]

/-- Whenever `updateTorrent` returns for a non-nil remote torrent, the record is `pausedUP`. -/
theorem updateTorrent_State (s : Store) :
    ∀ (fuel k : Nat) (t : Torrent) (debridTorrent : DebridTorrent) (tr : List Event)
      (res : Torrent × Option DebridTorrent × Nat × List Event),
      (updateTorrent s fuel k t (some debridTorrent) tr = some res → res.1.State = "pausedUP") ∧
      (updateTorrentTicks s fuel k t debridTorrent tr = some res → res.1.State = "pausedUP") := by
  intro fuel
  induction fuel with
  | zero =>
    intro k t debridTorrent tr res
    exact ⟨by simp [updateTorrent], by simp [updateTorrentTicks]⟩
  | succ fuel ih =>
    intro k t debridTorrent tr res
    constructor
    · rw [updateTorrent_succ]
      by_cases hready : s.IsReady
          (updateTorrent.projected s t (updateTorrent.refreshed s k debridTorrent tr).1) = true
      · rw [if_pos hready]
        intro h
        simp only [Option.some.injEq] at h
        rw [← h]
      · rw [if_neg hready]
        exact (ih _ _ _ _ res).2
    · rw [updateTorrentTicks_succ]
      by_cases hready : s.IsReady t = true
      · rw [if_pos hready]
        intro h
        simp only [Option.some.injEq] at h
        rw [← h]
      · rw [if_neg hready]
        cases hu : updateTorrent s fuel k t (some debridTorrent) tr with
        | none => simp
        | some r =>
          obtain ⟨t', dt', k', tr'⟩ := r
          cases dt' with
          | none =>
            intro h
            simp only [Option.some.injEq] at h
            rw [← h]
            exact (ih k t debridTorrent tr _).1 hu
          | some d' => exact (ih _ _ _ _ res).2

/-- When `onSuccess` comes to its end, the record is `pausedUP`. -/
theorem onSuccess_State (s : Store) (fuel : Nat) (torrent : Torrent)
    (debridTorrent : DebridTorrent) (tr : List Event)
    (h : (onSuccess s fuel torrent debridTorrent tr).exit = Exit.returned) :
    (onSuccess s fuel torrent debridTorrent tr).torrent.State = "pausedUP" := by
  unfold onSuccess at h ⊢
  cases hu : updateTorrent s fuel 0 torrent (some debridTorrent) tr with
  | none => simp [hu] at h
  | some r =>
    obtain ⟨t', dt', k', tr'⟩ := r
    simp only []
    exact (updateTorrent_State s fuel 0 torrent debridTorrent tr _).1 hu

theorem partialTorrentUpdate_State (c : Clock) (t : Torrent) (d : Option DebridTorrent) :
    (partialTorrentUpdate c t d).State = t.State := by
  cases d <;> rfl

/-- The poll loop ends the run by returning only on the failure path, with the record in
state `error`; when it is left, the state of the record is the one it was entered with. -/
theorem pollLoop_State (s : Store) (client : Client) :
    ∀ (fuel k : Nat) (armed : Int) (torrent : Torrent) (debridTorrent : DebridTorrent)
      (tr : List Event),
      (∀ r, pollLoop s client fuel k armed torrent debridTorrent tr = Polled.ended r →
        r.exit = Exit.returned → r.torrent.State = "error") ∧
      (∀ t' d' tr', pollLoop s client fuel k armed torrent debridTorrent tr = Polled.left t' d' tr' →
        t'.State = torrent.State) := by
  intro fuel
  induction fuel with
  | zero =>
    intro k armed torrent debridTorrent tr
    unfold pollLoop
    by_cases hd : debridTorrent.Status = "downloaded"
    · simp only [hd, if_true]
      constructor
      · intro r h; cases h
      · intro t' d' tr' h
        cases h
        rfl
    · simp only [hd, if_false]
      constructor
      · intro r h hret
        cases h
        cases hret
      · intro t' d' tr' h; cases h
  | succ fuel ih =>
    intro k armed torrent debridTorrent tr
    unfold pollLoop
    by_cases hd : debridTorrent.Status = "downloaded"
    · simp only [hd, if_true]
      constructor
      · intro r h; cases h
      · intro t' d' tr' h
        cases h
        rfl
    · simp only [hd, if_false]
      rcases hc : client.CheckStatus k debridTorrent with ⟨_ | dbT, _ | err⟩
      · constructor
        · intro r h hret
          cases h
          cases hret
        · intro t' d' tr' h; cases h
      · constructor
        · intro r h _
          cases h
          simp [markAsFailed]
        · intro t' d' tr' h; cases h
      · simp only []
        split_ifs with hbreak
        · constructor
          · intro r h; cases h
          · intro t' d' tr' h
            cases h
            exact partialTorrentUpdate_State _ _ _
        · have := ih (k + 1) (min (wrap64 (s.refreshInterval * 2)) (30 * second))
            (partialTorrentUpdate s.clock torrent (some dbT)) dbT
            (tr ++ [Event.checkStatus debridTorrent.Debrid k] ++ [Event.wait armed])
          constructor
          · exact this.1
          · intro t' d' tr' h
            rw [this.2 t' d' tr' h]
            exact partialTorrentUpdate_State _ _ _
      · constructor
        · intro r h _
          cases h
          simp [markAsFailed]
        · intro t' d' tr' h; cases h

/-- After the poll loop, the three known action tags end in a terminal state whenever the
switch comes to its end. -/
theorem postDownload_State (s : Store) (deb : Debrid) (importReq : ImportRequest) (fuel : Nat)
    (torrent : Torrent) (debridTorrent : DebridTorrent) (tr : List Event)
    (hact : importReq.Action = "symlink" ∨ importReq.Action = "download" ∨
      importReq.Action = "none")
    (hret : (postDownload s deb importReq fuel torrent debridTorrent tr).exit = Exit.returned) :
    (postDownload s deb importReq fuel torrent debridTorrent tr).torrent.State = "error" ∨
    (postDownload s deb importReq fuel torrent debridTorrent tr).torrent.State = "pausedUP" := by
  have hsym : ∀ (p : String) (tr' : List Event) (r : Run),
      r = (match (if p = "" then
            onFailed s (Err.msg ("symlink path is empty for " ++ debridTorrent.Name)) torrent
              { debridTorrent with Arr := some importReq.Arr } tr'
          else { torrent := torrent, trace := tr', exit := Exit.returned } : Run).exit with
        | Exit.returned =>
          onSuccess s fuel
            { (if p = "" then
                onFailed s (Err.msg ("symlink path is empty for " ++ debridTorrent.Name)) torrent
                  { debridTorrent with Arr := some importReq.Arr } tr'
              else { torrent := torrent, trace := tr', exit := Exit.returned } : Run).torrent
              with TorrentPath := p }
            { debridTorrent with Arr := some importReq.Arr }
            (if p = "" then
                onFailed s (Err.msg ("symlink path is empty for " ++ debridTorrent.Name)) torrent
                  { debridTorrent with Arr := some importReq.Arr } tr'
              else { torrent := torrent, trace := tr', exit := Exit.returned } : Run).trace
        | _ =>
          (if p = "" then
            onFailed s (Err.msg ("symlink path is empty for " ++ debridTorrent.Name)) torrent
              { debridTorrent with Arr := some importReq.Arr } tr'
          else { torrent := torrent, trace := tr', exit := Exit.returned } : Run)) →
      r.exit = Exit.returned → r.torrent.State = "error" ∨ r.torrent.State = "pausedUP" := by
    intro p tr' r hr hexit
    by_cases hp : p = ""
    · simp only [hp, if_true] at hr
      cases he : (onFailed s (Err.msg ("symlink path is empty for " ++ debridTorrent.Name)) torrent
          { debridTorrent with Arr := some importReq.Arr } tr').exit with
      | returned =>
        simp only [he] at hr
        subst hr
        exact Or.inr (onSuccess_State _ _ _ _ _ hexit)
      | panicked =>
        simp only [he] at hr
        subst hr
        exact Or.inl (onFailed_State _ _ _ _ _)
      | outOfFuel =>
        simp only [he] at hr
        subst hr
        exact Or.inl (onFailed_State _ _ _ _ _)
    · simp only [hp, if_false] at hr
      subst hr
      exact Or.inr (onSuccess_State _ _ _ _ _ hexit)
  unfold postDownload at hret ⊢
  rcases hact with hact | hact | hact
  · simp only [hact, if_true] at hret ⊢
    cases hcache : deb.cache with
    | none =>
      simp only [hcache] at hret ⊢
      rcases hps : s.processSymlink torrent { debridTorrent with Arr := some importReq.Arr }
        with ⟨p, _ | e⟩
      · simp only [hps] at hret ⊢
        exact hsym p tr _ rfl hret
      · simp only [hps] at hret ⊢
        exact Or.inl (onFailed_State _ _ _ _ _)
    | some cache =>
      simp only [hcache] at hret ⊢
      cases hadd : cache.Add { debridTorrent with Arr := some importReq.Arr } with
      | some e =>
        simp only [hadd] at hret ⊢
        exact Or.inl (onFailed_State _ _ _ _ _)
      | none =>
        simp only [hadd] at hret ⊢
        rcases hcs : s.createSymlinksWebdav torrent
          { debridTorrent with Arr := some importReq.Arr }
          (s.clock.joinPath debridTorrent.MountPath
            (cache.GetTorrentFolder { debridTorrent with Arr := some importReq.Arr }))
          (s.removeExtension debridTorrent.Name) with ⟨p, _ | e⟩
        · simp only [hcs] at hret ⊢
          exact hsym p _ _ rfl hret
        · simp only [hcs] at hret ⊢
          exact Or.inl (onFailed_State _ _ _ _ _)
  · have hns : ¬ importReq.Action = "symlink" := by rw [hact]; decide
    simp only [hns, hact, if_true, if_false] at hret ⊢
    rcases hl : deb.client.GetFileDownloadLinks { debridTorrent with Arr := some importReq.Arr }
      with ⟨d', _ | e⟩
    · simp only [hl] at hret ⊢
      rcases hpd : s.processDownload torrent d' with ⟨p, _ | e⟩
      · simp only [hpd] at hret ⊢
        by_cases hp : p = ""
        · simp only [hp, if_true] at hret ⊢
          exact Or.inl (onFailed_State _ _ _ _ _)
        · simp only [hp, if_false] at hret ⊢
          exact Or.inr (onSuccess_State _ _ _ _ _ hret)
      · simp only [hpd] at hret ⊢
        exact Or.inl (onFailed_State _ _ _ _ _)
    · simp only [hl] at hret ⊢
      exact Or.inl (onFailed_State _ _ _ _ _)
  · have hns : ¬ importReq.Action = "symlink" := by rw [hact]; decide
    have hnd : ¬ importReq.Action = "download" := by rw [hact]; decide
    simp only [hns, hnd, hact, if_true, if_false] at hret ⊢
    exact Or.inr (onSuccess_State _ _ _ _ _ hret)

/-- After the poll loop, any other action tag runs no handler: the record and the events stay
as they were. -/
theorem postDownload_other_action (s : Store) (deb : Debrid) (importReq : ImportRequest)
    (fuel : Nat) (torrent : Torrent) (debridTorrent : DebridTorrent) (tr : List Event)
    (h1 : importReq.Action ≠ "symlink") (h2 : importReq.Action ≠ "download")
    (h3 : importReq.Action ≠ "none") :
    postDownload s deb importReq fuel torrent debridTorrent tr =
      { torrent := torrent, trace := tr, exit := Exit.returned } := by
  unfold postDownload
  simp only [h1, h2, h3, if_false]

/-- C11, as the code has it: for the action tags `symlink`, `download` and `none` and every
behaviour of the provider and the collaborators, when `processFiles` returns for a non-nil
remote torrent the record is in state `error` or `pausedUP`. For every other action tag no
handler runs after the poll loop: when `processFiles` returns, the record is in state `error`
(the poll failed) or in the state it had when `processFiles` was called. -/
theorem processFiles_terminal_state (s : Store) (fuel k : Nat) (torrent : Torrent)
    (debridTorrent : DebridTorrent) (importReq : ImportRequest)
    (hret : (processFiles s fuel k torrent (some debridTorrent) importReq).exit
      = Exit.returned) :
    (importReq.Action = "symlink" ∨ importReq.Action = "download" ∨ importReq.Action = "none" →
      (processFiles s fuel k torrent (some debridTorrent) importReq).torrent.State = "error" ∨
      (processFiles s fuel k torrent (some debridTorrent) importReq).torrent.State
        = "pausedUP") ∧
    (importReq.Action ≠ "symlink" → importReq.Action ≠ "download" →
      importReq.Action ≠ "none" →
      (processFiles s fuel k torrent (some debridTorrent) importReq).torrent.State = "error" ∨
      (processFiles s fuel k torrent (some debridTorrent) importReq).torrent.State
        = torrent.State) := by
  unfold processFiles at hret ⊢
  cases hdeb : s.debrid.Debrid debridTorrent.Debrid with
  | none => simp [hdeb] at hret
  | some deb =>
    simp only [hdeb] at hret ⊢
    have hpoll := pollLoop_State s deb.client fuel k s.refreshInterval torrent debridTorrent []
    cases hp : pollLoop s deb.client fuel k s.refreshInterval torrent debridTorrent [] with
    | ended r =>
      simp only [hp] at hret ⊢
      exact ⟨fun _ => Or.inl (hpoll.1 r hp hret), fun _ _ _ => Or.inl (hpoll.1 r hp hret)⟩
    | left t' d' tr' =>
      simp only [hp] at hret ⊢
      constructor
      · intro hact
        exact postDownload_State s deb importReq fuel t' d' tr' hact hret
      · intro h1 h2 h3
        rw [postDownload_other_action s deb importReq fuel t' d' tr' h1 h2 h3]
        exact Or.inr (hpoll.2 t' d' tr' hp)

/-- Witness of `processFiles_terminal_state`: action `none` on a provider that reports the
torrent as downloaded at the fourth poll; the run returns with the record `pausedUP`. -/
theorem processFiles_terminal_state_witness :
    (processFiles (storeOf [sampleClient] "/mnt/sintel" fun _ => true) 5 0 sampleRecord
      (some sampleRemote) (requestOf "none")).exit = Exit.returned ∧
    ((processFiles (storeOf [sampleClient] "/mnt/sintel" fun _ => true) 5 0 sampleRecord
        (some sampleRemote) (requestOf "none")).torrent.State = "error" ∨
      (processFiles (storeOf [sampleClient] "/mnt/sintel" fun _ => true) 5 0 sampleRecord
        (some sampleRemote) (requestOf "none")).torrent.State = "pausedUP") :=
  ⟨by decide,
   (processFiles_terminal_state (storeOf [sampleClient] "/mnt/sintel" fun _ => true) 5 0
      sampleRecord sampleRemote (requestOf "none") (by decide)).1 (Or.inr (Or.inr rfl))⟩

/-- C11 fails as stated: with the action tag `move` and a remote torrent that is already
downloaded, `processFiles` returns without any event (no handler has run, nothing is written
to the store) and the record is still in state `downloading`. -/
theorem processFiles_unknown_action_not_terminal :
    (processFiles (storeOf [sampleClient] "/mnt/sintel" fun _ => true) 5 0 sampleRecord
      (some { sampleRemote with Status := "downloaded" }) (requestOf "move")).exit
      = Exit.returned ∧
    (processFiles (storeOf [sampleClient] "/mnt/sintel" fun _ => true) 5 0 sampleRecord
      (some { sampleRemote with Status := "downloaded" }) (requestOf "move")).torrent.State
      = "downloading" ∧
    (processFiles (storeOf [sampleClient] "/mnt/sintel" fun _ => true) 5 0 sampleRecord
      (some { sampleRemote with Status := "downloaded" }) (requestOf "move")).trace.length = 0 ∧
    ¬ ((processFiles (storeOf [sampleClient] "/mnt/sintel" fun _ => true) 5 0 sampleRecord
        (some { sampleRemote with Status := "downloaded" }) (requestOf "move")).torrent.State
        = "error" ∨
      (processFiles (storeOf [sampleClient] "/mnt/sintel" fun _ => true) 5 0 sampleRecord
        (some { sampleRemote with Status := "downloaded" }) (requestOf "move")).torrent.State
        = "pausedUP") := by
  refine ⟨?_, ?_, ?_, ?_⟩ <;> decide

/-- C12, evaluated: a record without torrent path, under a readiness predicate that requires
one, so that readiness stays false. Whatever the bound on the recursion depth, and so however
many 100 ms ticks have passed, `updateTorrent` has not returned: every tick on the record
re-enters `updateTorrent`, and the 10-minute case of the `select` is never taken. -/
theorem updateTorrent_never_returns_while_unready :
    ∀ fuel k : Nat,
      updateTorrent (storeOf [sampleClient] "" fun t => decide (t.TorrentPath ≠ "")) fuel k
        sampleRecord (some sampleRemote) [] = none ∧
      updateTorrentTicks (storeOf [sampleClient] "" fun t => decide (t.TorrentPath ≠ ""))
        (fuel + 1) k sampleRecord sampleRemote [] =
        match updateTorrent (storeOf [sampleClient] "" fun t => decide (t.TorrentPath ≠ ""))
          fuel k sampleRecord (some sampleRemote) [] with
        | none => none
        | some (t, some debridTorrent, k, tr) =>
          updateTorrentTicks (storeOf [sampleClient] "" fun t => decide (t.TorrentPath ≠ ""))
            fuel k t debridTorrent tr
        | some (t, none, k, tr) => some (t, none, k, tr) := by
  intro fuel k
  constructor
  · exact (updateTorrent_never_ready
      (storeOf [sampleClient] "" fun t => decide (t.TorrentPath ≠ ""))
      (by intro t ht; simp [storeOf, ht]) fuel k sampleRecord sampleRemote [] rfl).1
  · rw [updateTorrentTicks_succ]
    rfl

/-! ## Claims about the Torbox client -/

/-- Trailing whitespace `\s*` at the end of the pattern takes all the whitespace there is. -/
theorem greedyStar_some (p : Char → Bool) (s : List Char) :
    greedyStar p some s = some (s.dropWhile p) := by
  induction s with
  | nil => rfl
  | cons c cs ih =>
    by_cases hp : p c = true
    · simp [greedyStar, hp, ih, List.dropWhile_cons]
    · simp [greedyStar, hp, List.dropWhile_cons]

/-- Leading whitespace `\s*` in front of a part of the pattern that cannot start with
whitespace takes all the whitespace there is. -/
theorem greedyStar_of_fails (p : Char → Bool) (k : List Char → Option (List Char))
    (hk : ∀ c cs, p c = true → k (c :: cs) = none) (s : List Char) :
    greedyStar p k s = k (s.dropWhile p) := by
  induction s with
  | nil => rfl
  | cons c cs ih =>
    by_cases hp : p c = true
    · rw [greedyStar, if_pos hp, ih, hk c cs hp, List.dropWhile_cons_of_pos hp]
      cases k (List.dropWhile p cs) <;> rfl
    · rw [greedyStar, if_neg hp, List.dropWhile_cons_of_neg hp]

/-- The class `\s` of the pattern holds the characters the reference calls whitespace. -/
theorem isSpace_eq_isBlank : isSpace = isBlank := by
  funext c
  have h9 : (c = Char.ofNat 9) = (c = '\t') := rfl
  have h10 : (c = Char.ofNat 10) = (c = '\n') := rfl
  have h13 : (c = Char.ofNat 13) = (c = '\r') := rfl
  have h12 : c = Char.ofNat 12 ↔ c.toNat = 12 := by
    constructor
    · intro h; subst h; rfl
    · intro h
      apply Char.ext
      apply UInt32.ext
      exact h
  unfold isSpace isBlank
  by_cases a : c = ' ' <;> by_cases b : c = '\t' <;> by_cases e : c = '\n' <;>
    by_cases f : c = '\r' <;> by_cases g : c.toNat = 12 <;>
    simp [a, b, e, f, g, h12]

/-- The lazy `.*?` in front of `\)\s*` stops at the first closing parenthesis of the line. -/
theorem lazyStar_closing (s : List Char) :
    lazyStar isDot (literal ')' (greedyStar isSpace some)) s =
      (closingParen s).map fun rest => rest.dropWhile isSpace := by
  induction s with
  | nil => rfl
  | cons c cs ih =>
    by_cases hc : c = ')'
    · subst hc
      simp [lazyStar, literal, closingParen, greedyStar_some]
    · by_cases hn : c = '\n'
      · subst hn
        simp [lazyStar, literal, closingParen, isDot, hc]
      · have hn' : ¬ c = Char.ofNat 10 := hn
        simp [lazyStar, literal, closingParen, isDot, hc, hn, hn', ih]

/-- The pattern of `getTorboxStatus` matches at the head of the input exactly when the input
starts with a parenthetical annotation, and leaves the same rest. -/
theorem annotationAt_eq_annotationGroup (s : List Char) : annotationAt s = annotationGroup s := by
  unfold annotationAt annotationGroup
  rw [← isSpace_eq_isBlank, greedyStar_of_fails]
  · cases h : s.dropWhile isSpace with
    | nil => rfl
    | cons c inner =>
      by_cases hc : c = '('
      · simp [literal, hc, lazyStar_closing]
      · simp [literal, hc]
  · intro c cs hp
    have : c ≠ '(' := by
      intro h
      subst h
      revert hp
      decide
    simp [literal, this]

theorem replaceAllAnnotations_eq_stripAnnotations :
    ∀ (fuel : Nat) (s : List Char), replaceAllAnnotations fuel s = stripAnnotations fuel s := by
  intro fuel
  induction fuel with
  | zero => intro s; rfl
  | succ fuel ih =>
    intro s
    cases s with
    | nil => rfl
    | cons c cs =>
      rw [replaceAllAnnotations, stripAnnotations, annotationAt_eq_annotationGroup]
      cases annotationGroup (c :: cs) with
      | none => simp only [ih]
      | some rest => simp only [ih]

theorem dropWhile_length_le (p : Char → Bool) (s : List Char) :
    (s.dropWhile p).length ≤ s.length := by
  induction s with
  | nil => simp
  | cons c cs ih =>
    by_cases hp : p c = true
    · rw [List.dropWhile_cons_of_pos hp]
      exact Nat.le_succ_of_le ih
    · rw [List.dropWhile_cons_of_neg hp]

theorem closingParen_length (s r : List Char) (h : closingParen s = some r) :
    r.length < s.length := by
  induction s with
  | nil => simp [closingParen] at h
  | cons c cs ih =>
    rw [closingParen] at h
    split_ifs at h with h1 h2
    · simp only [Option.some.injEq] at h
      subst h
      exact Nat.lt_succ_self _
    · exact Nat.lt_succ_of_lt (ih h)

/-- An annotation is not empty: the input behind it is shorter. -/
theorem annotationGroup_length (s r : List Char) (h : annotationGroup s = some r) :
    r.length < s.length := by
  unfold annotationGroup at h
  have hd := dropWhile_length_le isBlank s
  cases hs : s.dropWhile isBlank with
  | nil => simp [hs] at h
  | cons c inner =>
    rw [hs] at hd
    simp only [hs] at h
    split_ifs at h with hc
    cases hcl : closingParen inner with
    | none => simp [hcl] at h
    | some rest =>
      simp only [hcl, Option.map_some', Option.some.injEq] at h
      subst h
      have h1 := closingParen_length inner rest hcl
      have h2 := dropWhile_length_le isBlank rest
      simp only [List.length_cons] at hd
      omega

/-- The fuel `getTorboxStatus` gives to the replacement, the length of the status, is
enough: more fuel gives the same result. -/
theorem stripAnnotations_fuel :
    ∀ (fuel fuel' : Nat) (s : List Char), s.length ≤ fuel → s.length ≤ fuel' →
      stripAnnotations fuel s = stripAnnotations fuel' s := by
  intro fuel
  induction fuel with
  | zero =>
    intro fuel' s h _
    have : s = [] := List.length_eq_zero.mp (Nat.le_zero.mp h)
    subst this
    cases fuel' <;> rfl
  | succ fuel ih =>
    intro fuel' s h h'
    cases s with
    | nil => cases fuel' <;> rfl
    | cons c cs =>
      cases fuel' with
      | zero => simp at h'
      | succ fuel' =>
        rw [stripAnnotations, stripAnnotations]
        simp only [List.length_cons] at h h'
        cases hg : annotationGroup (c :: cs) with
        | none =>
          simp only []
          rw [ih fuel' cs (by omega) (by omega)]
        | some rest =>
          simp only []
          have := annotationGroup_length _ _ hg
          simp only [List.length_cons] at this
          exact ih fuel' rest (by omega) (by omega)

/-- The table `downloadedStatuses` of the code holds the aliases of `downloaded`. -/
theorem downloadedStatuses_eq : downloadedStatuses = ["completed", "cached", "downloaded"] := rfl

/-- The table `seedingStatuses` of the code holds the aliases of `seeding`. -/
theorem seedingStatuses_eq : seedingStatuses = ["seeding", "uploading"] := rfl

/-- The table `downloadingStatuses` of the code holds the aliases of `downloading`, each
once. -/
theorem downloadingStatuses_perm : downloadingStatuses.Perm downloadingAliases := by decide

theorem downloaded_not_downloading :
    ∀ a ∈ downloadedAliases, a ∉ downloadingAliases := by decide

theorem downloaded_not_seeding : ∀ a ∈ downloadedAliases, a ∉ seedingAliases := by decide

theorem downloading_not_seeding : ∀ a ∈ downloadingAliases, a ∉ seedingAliases := by decide

/-- C14: `getTorboxStatus` equals the reference normaliser on every raw status and flag:
`downloaded` under the finished flag; otherwise the status without its parenthetical
annotations (whitespace, a `(`, text up to the next `)` on the same line, whitespace) is
`downloaded` when it is one of `completed`, `cached`, `downloaded`, `downloading` when it is
one of the sixteen aliases of `downloading`, `seeding` when it is `seeding` or `uploading`,
and `error` in every other case. The three alias sets are pairwise disjoint and the result is
one of the four canonical values. -/
theorem getTorboxStatus_eq_normalizeStatus (status : String) (finished : Bool) :
    getTorboxStatus status finished = normalizeStatus status finished ∧
    ((∀ a ∈ downloadedAliases, a ∉ downloadingAliases) ∧
      (∀ a ∈ downloadedAliases, a ∉ seedingAliases) ∧
      (∀ a ∈ downloadingAliases, a ∉ seedingAliases)) ∧
    (getTorboxStatus status finished = "downloaded" ∨
      getTorboxStatus status finished = "downloading" ∨
      getTorboxStatus status finished = "seeding" ∨
      getTorboxStatus status finished = "error") := by
  have hG' : ∀ x, x ∈ downloadingStatuses ↔ x ∈ downloadingAliases :=
    fun x => downloadingStatuses_perm.mem_iff
  refine ⟨?_, ⟨downloaded_not_downloading, downloaded_not_seeding, downloading_not_seeding⟩, ?_⟩
  · unfold getTorboxStatus normalizeStatus
    cases finished with
    | true => rfl
    | false =>
      simp only [Bool.false_eq_true, if_false, replaceAllAnnotations_eq_stripAnnotations]
      generalize String.mk (stripAnnotations status.length status.toList) = x
      rw [downloadedStatuses_eq, seedingStatuses_eq]
      simp only [hG' x]
      by_cases hD : x ∈ downloadedAliases
      · have hG := downloaded_not_downloading x hD
        have hS := downloaded_not_seeding x hD
        unfold downloadedAliases at hD
        unfold seedingAliases at hS
        simp [hD, hG, hS, downloadedAliases, seedingAliases]
      · by_cases hG : x ∈ downloadingAliases
        · have hS := downloading_not_seeding x hG
          unfold downloadedAliases at hD
          unfold seedingAliases at hS
          simp [hD, hG, hS, downloadedAliases, seedingAliases]
        · unfold downloadedAliases at hD
          by_cases hS : x ∈ seedingAliases
          · have hS' := hS
            unfold seedingAliases at hS'
            simp [hD, hG, hS, hS', downloadedAliases, seedingAliases]
          · have hS' := hS
            unfold seedingAliases at hS'
            simp [hD, hG, hS, hS', downloadedAliases, seedingAliases]
  · unfold getTorboxStatus
    cases finished with
    | true => exact Or.inl rfl
    | false =>
      simp only [Bool.false_eq_true, if_false]
      generalize String.mk (replaceAllAnnotations status.length status.toList) = x
      by_cases hD : x ∈ downloadedStatuses
      · exact Or.inl (by rw [if_pos hD])
      · by_cases hG : x ∈ downloadingStatuses
        · exact Or.inr (Or.inl (by rw [if_neg hD, if_pos hG]))
        · by_cases hS : x ∈ seedingStatuses
          · exact Or.inr (Or.inr (Or.inl (by rw [if_neg hD, if_neg hG, if_pos hS])))
          · exact Or.inr (Or.inr (Or.inr (by rw [if_neg hD, if_neg hG, if_neg hS])))

theorem countActive_eq (ts : List DebridTorrent) :
    ∀ n : Int, countActive ts n =
      n + ((ts.filter fun t => decide (t.IsActive = some false)).length : Int) := by
  induction ts with
  | nil => intro n; simp [countActive]
  | cons t ts ih =>
    intro n
    rcases h : t.IsActive with _ | b
    · simp [countActive, h, ih]
    · cases b
      · simp [countActive, h, ih]
        omega
      · simp [countActive, h, ih]

theorem planSlots_planQuota (tier : String) :
    (match planSlots tier with
      | some slots => slots
      | none => 1) = planQuota tier := by
  unfold planSlots planQuota
  by_cases h1 : tier = "essential"
  · subst h1; decide
  · by_cases h2 : tier = "standard"
    · subst h2; decide
    · by_cases h3 : tier = "pro"
      · subst h3; decide
      · simp [h1, h2, h3]

/-- C17: when the profile and the torrent list are obtained, `GetAvailableSlots` returns
`max(q - n, 0)` with `q` the plan quota of the tier (essential 3, standard 5, pro 10, any other
tier 1) and `n` the number of listed torrents whose `IsActive` flag is present and false; the
count it returns is never negative. -/
theorem GetAvailableSlots_eq (profile : Profile) (torrents : List DebridTorrent) :
    GetAvailableSlots (Sum.inr profile) (Sum.inr torrents) =
      (some (max (planQuota profile.Tier -
        ((torrents.filter fun t => decide (t.IsActive = some false)).length : Int)) 0), none) ∧
    ∃ n, (GetAvailableSlots (Sum.inr profile) (Sum.inr torrents)).1 = some n ∧ 0 ≤ n := by
  have h : GetAvailableSlots (Sum.inr profile) (Sum.inr torrents) =
      (some (max (planQuota profile.Tier -
        ((torrents.filter fun t => decide (t.IsActive = some false)).length : Int)) 0),
        none) := by
    unfold GetAvailableSlots
    simp only [planSlots_planQuota, countActive_eq, zero_add]
  exact ⟨h, _, by rw [h], le_max_right _ _⟩

/-! ### The availability probe -/

theorem chunks_length_le {α : Type} (n : Nat) :
    ∀ (fuel : Nat) (l : List α), ∀ g ∈ chunks n fuel l, g.length ≤ n := by
  intro fuel
  induction fuel with
  | zero => intro l g hg; simp [chunks] at hg
  | succ fuel ih =>
    intro l g hg
    rw [chunks] at hg
    split_ifs at hg with hl
    · simp at hg
    · rcases List.mem_cons.mp hg with rfl | hg
      · exact List.length_take_le _ _
      · exact ih _ g hg

/-- The groups put together again give the list: no element is lost or repeated. -/
theorem chunks_join {α : Type} (n : Nat) (hn : 0 < n) :
    ∀ (fuel : Nat) (l : List α), l.length ≤ fuel → (chunks n fuel l).flatten = l := by
  intro fuel
  induction fuel with
  | zero =>
    intro l hl
    have : l = [] := List.length_eq_zero.mp (Nat.le_zero.mp hl)
    subst this
    rfl
  | succ fuel ih =>
    intro l hl
    rw [chunks]
    split_ifs with h0
    · have : l = [] := List.length_eq_zero.mp h0
      subst this
      rfl
    · rw [List.flatten_cons, ih (l.drop n) (by rw [List.length_drop]; omega)]
      exact List.take_append_drop n l

/-- One round of the grouping, on the part of the list the loop variable points at. -/
theorem hashGroups_succ (fuel i : Nat) (hashes : List String) (hi : i < hashes.length) :
    hashGroups (fuel + 1) (hashes.drop i) =
      if (((hashes.drop i).take 100).filter fun hash => hash ≠ "").length = 0 then
        hashGroups fuel (hashes.drop (i + 100))
      else
        (((hashes.drop i).take 100).filter fun hash => hash ≠ "") ::
          hashGroups fuel (hashes.drop (i + 100)) := by
  have hlen : (hashes.drop i).length ≠ 0 := by
    rw [List.length_drop]
    omega
  unfold hashGroups
  rw [chunks, if_neg hlen, List.drop_drop, List.map_cons]
  by_cases h0 : (((hashes.drop i).take 100).filter fun hash => hash ≠ "").length = 0
  · rw [if_pos h0, List.filter_cons_of_neg (by simp only [h0]; decide)]
  · rw [if_neg h0, List.filter_cons_of_pos (by simp only [ne_eq, h0, not_false_eq_true,
      decide_True])]

theorem hashGroups_of_le (fuel i : Nat) (hashes : List String) (hi : ¬ i < hashes.length) :
    hashGroups fuel (hashes.drop i) = [] := by
  have : hashes.drop i = [] := List.drop_eq_nil_of_le (Nat.le_of_not_lt hi)
  rw [this]
  cases fuel <;> simp [hashGroups, chunks]

/-- The requests of the loop are the hash groups of the rest of the list, in order, up to the
first request that fails or finds no data. -/
theorem GetTorrentAvailable.loop_requests
    (checkcached : Nat → List String → Fetched (List (String × BasicTorrentResponse)))
    (toUpper : String → String) (hashes : List String) :
    ∀ (fuel i : Nat) (result : List (String × Bool)) (requests : List (List String)),
      ∃ n, (GetTorrentAvailable.loop checkcached toUpper hashes fuel i result requests).requests =
        requests ++ (hashGroups fuel (hashes.drop i)).take n := by
  intro fuel
  induction fuel with
  | zero =>
    intro i result requests
    exact ⟨0, by simp [GetTorrentAvailable.loop]⟩
  | succ fuel ih =>
    intro i result requests
    rw [GetTorrentAvailable.loop]
    by_cases hi : i < hashes.length
    · rw [if_pos hi, hashGroups_succ fuel i hashes hi]
      simp only []
      by_cases h0 : (((hashes.drop i).take 100).filter fun hash => hash ≠ "").length = 0
      · rw [if_pos h0, if_pos h0]
        exact ih _ _ _
      · rw [if_neg h0, if_neg h0]
        rcases hc : checkcached requests.length
            (((hashes.drop i).take 100).filter fun hash => hash ≠ "") with e | e | res
        · exact ⟨1, by simp⟩
        · exact ⟨1, by simp⟩
        · cases hd : res.Data with
          | none =>
            refine ⟨1, ?_⟩
            simp only [hd]
            simp
          | some data =>
            obtain ⟨n, hn⟩ := ih (i + 100)
              (data.foldl
                (fun r hc =>
                  match hc.2.Size with
                  | some size => if size > 0 then setTrue r (toUpper hc.1) else r
                  | none => r) result)
              (requests ++ [((hashes.drop i).take 100).filter fun hash => hash ≠ ""])
            refine ⟨n + 1, ?_⟩
            simp only [hd]
            rw [hn]
            simp
    · rw [if_neg hi, hashGroups_of_le _ _ _ hi]
      exact ⟨0, by simp⟩

/-- When every request finds data, the loop sends every hash group of the rest of the list. -/
theorem GetTorrentAvailable.loop_requests_all
    (checkcached : Nat → List String → Fetched (List (String × BasicTorrentResponse)))
    (toUpper : String → String) (hashes : List String)
    (hall : ∀ n g, ∃ res data, checkcached n g = Fetched.decoded res ∧ res.Data = some data) :
    ∀ (fuel i : Nat) (result : List (String × Bool)) (requests : List (List String)),
      (GetTorrentAvailable.loop checkcached toUpper hashes fuel i result requests).requests =
        requests ++ hashGroups fuel (hashes.drop i) := by
  intro fuel
  induction fuel with
  | zero =>
    intro i result requests
    simp [GetTorrentAvailable.loop, hashGroups, chunks]
  | succ fuel ih =>
    intro i result requests
    rw [GetTorrentAvailable.loop]
    by_cases hi : i < hashes.length
    · rw [if_pos hi, hashGroups_succ fuel i hashes hi]
      simp only []
      by_cases h0 : (((hashes.drop i).take 100).filter fun hash => hash ≠ "").length = 0
      · rw [if_pos h0, if_pos h0]
        exact ih _ _ _
      · rw [if_neg h0, if_neg h0]
        obtain ⟨res, data, hc, hd⟩ := hall requests.length
          (((hashes.drop i).take 100).filter fun hash => hash ≠ "")
        rw [hc]
        simp only [hd]
        rw [ih]
        simp
    · rw [if_neg hi, hashGroups_of_le _ _ _ hi]
      simp

/-- When every request finds data, every group is sent. -/
theorem sentGroups_of_all_found
    (checkcached : Nat → List String → Fetched (List (String × BasicTorrentResponse)))
    (hall : ∀ n g, foundData (checkcached n g) = true) :
    ∀ (gs : List (List String)) (n : Nat), sentGroups checkcached n gs = gs := by
  intro gs
  induction gs with
  | nil => intro n; rfl
  | cons g gs ih => intro n; rw [sentGroups, if_pos (hall n g), ih]

/-- The requests of the loop are the hash groups of the rest of the list, in order, up to and
including the first one whose request fails or finds no data. -/
theorem GetTorrentAvailable.loop_requests_sent
    (checkcached : Nat → List String → Fetched (List (String × BasicTorrentResponse)))
    (toUpper : String → String) (hashes : List String) :
    ∀ (fuel i : Nat) (result : List (String × Bool)) (requests : List (List String)),
      (GetTorrentAvailable.loop checkcached toUpper hashes fuel i result requests).requests =
        requests ++ sentGroups checkcached requests.length (hashGroups fuel (hashes.drop i)) := by
  intro fuel
  induction fuel with
  | zero =>
    intro i result requests
    simp [GetTorrentAvailable.loop, hashGroups, chunks, sentGroups]
  | succ fuel ih =>
    intro i result requests
    rw [GetTorrentAvailable.loop]
    by_cases hi : i < hashes.length
    · rw [if_pos hi, hashGroups_succ fuel i hashes hi]
      simp only []
      by_cases h0 : (((hashes.drop i).take 100).filter fun hash => hash ≠ "").length = 0
      · rw [if_pos h0, if_pos h0]
        exact ih _ _ _
      · rw [if_neg h0, if_neg h0, sentGroups]
        rcases hc : checkcached requests.length
            (((hashes.drop i).take 100).filter fun hash => hash ≠ "") with e | e | res
        · simp [foundData]
        · simp [foundData]
        · cases hd : res.Data with
          | none => simp [foundData, hd]
          | some data =>
            simp only [hd, foundData, Option.isSome_some, if_true]
            rw [ih]
            simp
    · rw [if_neg hi, hashGroups_of_le _ _ _ hi]
      simp [sentGroups]

/-- C15, as the code has it: the input list is split into consecutive groups of 100 first, and
the empty strings are removed within each group. The hash groups `GetTorrentAvailable` sends
are those groups without their empty strings, the groups left empty skipped, in order, up to
and including the first one whose request fails or finds no data. -/
theorem GetTorrentAvailable_requests
    (checkcached : Nat → List String → Fetched (List (String × BasicTorrentResponse)))
    (toUpper : String → String) (hashes : List String) :
    (GetTorrentAvailable checkcached toUpper hashes).requests =
      sentGroups checkcached 0
        (((chunksOf 100 hashes).map fun g => g.filter fun hash => hash ≠ "").filter
          fun g => g.length ≠ 0) := by
  have h := GetTorrentAvailable.loop_requests_sent checkcached toUpper hashes
    hashes.length 0 [] []
  simpa [GetTorrentAvailable, hashGroups, chunksOf] using h

set_option maxRecDepth 100000 in
/-- The requests of `GetTorrentAvailable` at 250 hashes when the second request fails: the
groups of 100 and 100 are sent, the group of 50 is not. -/
theorem GetTorrentAvailable_requests_witness :
    (GetTorrentAvailable cachedOnce String.toUpper (List.replicate 250 "abc")).requests =
      sentGroups cachedOnce 0
        (((chunksOf 100 (List.replicate 250 "abc")).map
          fun g => g.filter fun hash => hash ≠ "").filter fun g => g.length ≠ 0) ∧
    (sentGroups cachedOnce 0
        (((chunksOf 100 (List.replicate 250 "abc")).map
          fun g => g.filter fun hash => hash ≠ "").filter fun g => g.length ≠ 0)).map
      List.length = [100, 100] :=
  ⟨GetTorrentAvailable_requests cachedOnce String.toUpper (List.replicate 250 "abc"),
    by decide⟩

/-- When every request finds data, `GetTorrentAvailable` sends every hash group. -/
theorem GetTorrentAvailable_requests_of_all_found
    (checkcached : Nat → List String → Fetched (List (String × BasicTorrentResponse)))
    (toUpper : String → String) (hashes : List String)
    (hall : ∀ n g, foundData (checkcached n g) = true) :
    (GetTorrentAvailable checkcached toUpper hashes).requests =
      ((chunksOf 100 hashes).map fun g => g.filter fun hash => hash ≠ "").filter
        fun g => g.length ≠ 0 := by
  have h := GetTorrentAvailable.loop_requests_sent checkcached toUpper hashes
    hashes.length 0 [] []
  rw [sentGroups_of_all_found checkcached hall] at h
  simpa [GetTorrentAvailable, hashGroups, chunksOf] using h

/-- C15 fails as stated: for one empty string followed by 100 hashes, with every request
finding data, two requests are sent, of 99 hashes and of 1 hash; the input without its empty
string, split into groups of 100, is a single group of 100 hashes. -/
theorem GetTorrentAvailable_filters_within_groups :
    (GetTorrentAvailable alwaysCached String.toUpper ("" :: List.replicate 100 "abc")).requests =
      [List.replicate 99 "abc", ["abc"]] ∧
    chunksOf 100 (("" :: List.replicate 100 "abc").filter fun hash => hash ≠ "") =
      [List.replicate 100 "abc"] ∧
    (GetTorrentAvailable alwaysCached String.toUpper ("" :: List.replicate 100 "abc")).requests ≠
      chunksOf 100 (("" :: List.replicate 100 "abc").filter fun hash => hash ≠ "") := by
  refine ⟨?_, ?_, ?_⟩ <;> decide

/-- C16: every request `GetTorrentAvailable` sends carries at least 1 and at most 100 hashes,
none of them the empty string, and is the non-empty rest of one of the consecutive groups of
100 of the input: a group of empty strings only gives no request. -/
theorem GetTorrentAvailable_request_bounds
    (checkcached : Nat → List String → Fetched (List (String × BasicTorrentResponse)))
    (toUpper : String → String) (hashes : List String) (r : List String)
    (hr : r ∈ (GetTorrentAvailable checkcached toUpper hashes).requests) :
    1 ≤ r.length ∧ r.length ≤ 100 ∧ "" ∉ r ∧
    ∃ g ∈ chunksOf 100 hashes, r = g.filter fun hash => hash ≠ "" := by
  obtain ⟨n, hn⟩ := GetTorrentAvailable.loop_requests checkcached toUpper hashes
    hashes.length 0 [] []
  have hmem : r ∈ hashGroups hashes.length hashes := by
    have : r ∈ (hashGroups hashes.length (hashes.drop 0)).take n := by
      have h' : (GetTorrentAvailable checkcached toUpper hashes).requests =
          [] ++ (hashGroups hashes.length (hashes.drop 0)).take n := hn
      rw [h', List.nil_append] at hr
      exact hr
    exact List.mem_of_mem_take this
  unfold hashGroups at hmem
  obtain ⟨hmap, hne⟩ := List.mem_filter.mp hmem
  obtain ⟨g, hg, rfl⟩ := List.mem_map.mp hmap
  have hlen : g.length ≤ 100 := chunks_length_le 100 hashes.length hashes g hg
  refine ⟨?_, ?_, ?_, g, hg, rfl⟩
  · have : (g.filter fun hash => hash ≠ "").length ≠ 0 := by simpa using hne
    omega
  · exact le_trans (List.length_filter_le _ _) hlen
  · intro h
    have := (List.mem_filter.mp h).2
    simp at this

/-- Witness of `GetTorrentAvailable_request_bounds`: the request of 99 hashes sent for one
empty string followed by 100 hashes. -/
theorem GetTorrentAvailable_request_bounds_witness :
    List.replicate 99 "abc" ∈
      (GetTorrentAvailable alwaysCached String.toUpper
        ("" :: List.replicate 100 "abc")).requests ∧
    1 ≤ (List.replicate 99 "abc").length ∧ (List.replicate 99 "abc").length ≤ 100 ∧
    "" ∉ List.replicate 99 "abc" :=
  have h := GetTorrentAvailable_request_bounds alwaysCached String.toUpper
    ("" :: List.replicate 100 "abc") (List.replicate 99 "abc") (by decide)
  ⟨by decide, h.1, h.2.1, h.2.2.1⟩

/-! ### The refresh -/

/-- An envelope without data makes `UpdateTorrent` dereference a nil pointer. -/
theorem UpdateTorrent_of_no_data (tb : TorboxClient) (res : BaseResponse TorboxTorrent)
    (t : DebridTorrent) (h : res.Data = none) :
    Torbox.UpdateTorrent tb (Fetched.decoded res) t = Call.panic := by
  simp [Torbox.UpdateTorrent, h]

/-- An envelope with data makes `UpdateTorrent` return without error, whatever its `success`
member says. -/
theorem UpdateTorrent_of_data (tb : TorboxClient) (res : BaseResponse TorboxTorrent)
    (t : DebridTorrent) (data : TorboxTorrent) (h : res.Data = some data) :
    ∃ t', Torbox.UpdateTorrent tb (Fetched.decoded res) t = Call.ret (t', none) := by
  simp [Torbox.UpdateTorrent, h]

/-- C13, evaluated on two rejections. An envelope with `success` false and no data: the call
panics on the nil data. An envelope with `success` false that carries data: the call installs
the data and returns no error. -/
theorem UpdateTorrent_rejection_not_reported :
    (rejection none).Success = false ∧
    Torbox.UpdateTorrent sampleTorboxClient (Fetched.decoded (rejection none)) sampleRemote =
      Call.panic ∧
    ∃ t', Torbox.UpdateTorrent sampleTorboxClient
        (Fetched.decoded (rejection (some sampleVendorTorrent))) sampleRemote =
      Call.ret (t', none) ∧ t'.Status = "downloading" ∧ t'.Bytes = 1000 :=
  ⟨rfl, rfl, _, rfl, by decide, rfl⟩

/-! ## The status check of the Torbox client -/

/-- The body of the loop of `CheckStatus` never asks for another pass. -/
theorem CheckStatus.pass_ne_again (tb : TorboxClient) (fetched : Fetched TorboxTorrent)
    (torrent s : Option DebridTorrent) :
    CheckStatus.pass tb fetched torrent ≠ Call.ret (Pass.again s) := by
  unfold CheckStatus.pass
  cases torrent with
  | none => simp
  | some t =>
    cases h : Torbox.UpdateTorrent tb fetched t with
    | panic => simp [h]
    | ret r =>
      obtain ⟨t', err⟩ := r
      simp only [h]
      split_ifs <;> simp

/-- With fuel for one pass, `CheckStatus` ends within its first pass and has called
`UpdateTorrent` once, whatever the torrent and the vendor answers are. -/
theorem CheckStatus_refreshes (tb : TorboxClient) (fetch : Nat → Fetched TorboxTorrent)
    (fuel : Nat) (torrent : Option DebridTorrent) :
    (Torbox.CheckStatus tb fetch (fuel + 1) torrent).refreshes = 1 ∧
      (Torbox.CheckStatus tb fetch (fuel + 1) torrent).exit ≠ Exit.outOfFuel := by
  unfold Torbox.CheckStatus
  rw [CheckStatus.loop]
  cases h : CheckStatus.pass tb (fetch 0) torrent with
  | panic => simp
  | ret p =>
    cases p with
    | again s => exact absurd h (CheckStatus.pass_ne_again tb (fetch 0) torrent s)
    | done r => simp

/-- A panic of the refresh is the end of `CheckStatus`: it panics in its first pass. -/
theorem CheckStatus_of_refresh_panic (tb : TorboxClient) (fetch : Nat → Fetched TorboxTorrent)
    (fuel : Nat) (t : DebridTorrent) (h : Torbox.UpdateTorrent tb (fetch 0) t = Call.panic) :
    Torbox.CheckStatus tb fetch (fuel + 1) (some t) =
      { torrent := some t, err := none, exit := Exit.panicked, refreshes := 1 } := by
  unfold Torbox.CheckStatus
  rw [CheckStatus.loop]
  simp [CheckStatus.pass, h]

/-- C21, evaluated on a vendor answer without data: with any fuel for one pass,
`CheckStatus` calls `UpdateTorrent` once and panics inside it; it does not return, neither
the torrent nor an error. -/
theorem CheckStatus_panics_on_rejection (fuel : Nat) :
    (rejection none).Success = false ∧ (rejection none).Data = none ∧
    Torbox.UpdateTorrent sampleTorboxClient (Fetched.decoded (rejection none)) sampleRemote =
      Call.panic ∧
    (Torbox.CheckStatus sampleTorboxClient (fun _ => Fetched.decoded (rejection none))
      (fuel + 1) (some sampleRemote)).exit = Exit.panicked ∧
    (Torbox.CheckStatus sampleTorboxClient (fun _ => Fetched.decoded (rejection none))
      (fuel + 1) (some sampleRemote)).refreshes = 1 := by
  have h := CheckStatus_of_refresh_panic sampleTorboxClient
    (fun _ => Fetched.decoded (rejection none)) fuel sampleRemote rfl
  exact ⟨rfl, rfl, rfl, by rw [h], by rw [h]⟩

/-- The status check on a refresh that returns. Whenever the refresh returns, `CheckStatus`
returns in the first pass of its loop
after exactly one call of `UpdateTorrent`, with the refreshed torrent. An error of the refresh
is returned as it is. Without one, no error is returned exactly when the refreshed status is
`downloaded`, or it is in the configured list `DownloadingStatus` and `DownloadUncached` is
set; the error is the "not cached" one when the status is in the list and the flag is not
set. -/
theorem CheckStatus_single_pass (tb : TorboxClient) (fetch : Nat → Fetched TorboxTorrent)
    (fuel : Nat) (t t' : DebridTorrent) (err : Option Err)
    (hrefresh : Torbox.UpdateTorrent tb (fetch 0) t = Call.ret (t', err)) :
    ∃ e, Torbox.CheckStatus tb fetch (fuel + 1) (some t) =
        { torrent := some t', err := e, exit := Exit.returned, refreshes := 1 } ∧
      (err ≠ none → e = err) ∧
      (err = none →
        (e = none ↔ t'.Status = "downloaded" ∨
          (t'.Status ∈ tb.DownloadingStatus ∧ t'.DownloadUncached = true)) ∧
        (t'.Status ≠ "downloaded" → t'.Status ∈ tb.DownloadingStatus →
          t'.DownloadUncached = false →
          e = some (Err.msg ("torrent: " ++ t'.Name ++ " not cached")))) := by
  unfold Torbox.CheckStatus
  rw [CheckStatus.loop]
  simp only [CheckStatus.pass, hrefresh]
  cases err with
  | some e0 => exact ⟨some e0, by simp, fun _ => rfl, fun h => by simp at h⟩
  | none =>
    by_cases hd : t'.Status = "downloaded"
    · exact ⟨none, by simp [hd], fun h => absurd rfl h, fun _ => ⟨by simp [hd], fun h => absurd hd h⟩⟩
    · by_cases hl : t'.Status ∈ tb.DownloadingStatus
      · cases hu : t'.DownloadUncached with
        | false =>
          exact ⟨some (Err.msg ("torrent: " ++ t'.Name ++ " not cached")), by simp [hd, hl, hu],
            fun h => absurd rfl h, fun _ => ⟨by simp [hd], fun _ _ _ => rfl⟩⟩
        | true =>
          exact ⟨none, by simp [hd, hl, hu], fun h => absurd rfl h,
            fun _ => ⟨by simp [hl], fun _ _ h => by simp at h⟩⟩
      · exact ⟨some (Err.msg ("torrent: " ++ t'.Name ++ " has error")), by simp [hd, hl],
          fun h => absurd rfl h, fun _ => ⟨by simp [hd, hl], fun _ h => absurd h hl⟩⟩

/-- The status check at the sample torrent: the vendor reports it as downloading, the client
lists that status, and the torrent does not allow uncached downloads. -/
theorem CheckStatus_single_pass_witness :
    ∃ t', Torbox.UpdateTorrent sampleTorboxClient (sampleFetch 0) sampleRemote =
        Call.ret (t', none) ∧
      ∃ e, Torbox.CheckStatus sampleTorboxClient sampleFetch 1 (some sampleRemote) =
          { torrent := some t', err := e, exit := Exit.returned, refreshes := 1 } ∧
        ((none : Option Err) ≠ none → e = none) ∧
        ((none : Option Err) = none →
          (e = none ↔ t'.Status = "downloaded" ∨
            (t'.Status ∈ sampleTorboxClient.DownloadingStatus ∧ t'.DownloadUncached = true)) ∧
          (t'.Status ≠ "downloaded" → t'.Status ∈ sampleTorboxClient.DownloadingStatus →
            t'.DownloadUncached = false →
            e = some (Err.msg ("torrent: " ++ t'.Name ++ " not cached")))) :=
  ⟨_, rfl, CheckStatus_single_pass sampleTorboxClient sampleFetch 0 sampleRemote _ none rfl⟩

/-! ## The two file enumerations of the Torbox client -/

/-- Assigning entries that agree up to `Path` to maps that agree up to `Path` gives maps that
agree up to `Path`. -/
theorem mapAssign_withoutPath (m1 m2 : List (String × File)) (name : String) (f1 f2 : File)
    (hm : m1.map File.withoutPath = m2.map File.withoutPath)
    (hf : File.withoutPath (name, f1) = File.withoutPath (name, f2)) :
    (mapAssign m1 name f1).map File.withoutPath = (mapAssign m2 name f2).map File.withoutPath := by
  have key : ∀ (m : List (String × File)) (f : File),
      (mapAssign m name f).map File.withoutPath =
        if (m.map File.withoutPath).any (fun e => e.1 = name) then
          (m.map File.withoutPath).map fun e => if e.1 = name then File.withoutPath (name, f) else e
        else m.map File.withoutPath ++ [File.withoutPath (name, f)] := by
    intro m f
    have hany : (m.map File.withoutPath).any (fun e => decide (e.1 = name)) =
        m.any (fun e => decide (e.1 = name)) := by
      rw [List.any_map]; rfl
    rw [hany]
    unfold mapAssign
    by_cases h : m.any (fun e => decide (e.1 = name)) = true
    · rw [if_pos h, if_pos h, List.map_map, List.map_map]
      apply List.map_congr_left
      intro e _
      by_cases he : e.1 = name
      · simp [he, File.withoutPath]
      · simp [he, File.withoutPath]
    · rw [if_neg h, if_neg h, List.map_append]; rfl
  rw [key, key, hm, hf]

/-- The file maps of `GetTorrent` and of `UpdateTorrent` agree on everything but `Path`,
from any two maps that do. -/
theorem files_withoutPath_from (tb : TorboxClient) (torrentId : String) (finished : Bool)
    (files : List TorboxFile) :
    ∀ m1 m2 : List (String × File), m1.map File.withoutPath = m2.map File.withoutPath →
      (files.foldl
        (fun m f =>
          let fileName := tb.filepathBase f.Name
          if !tb.addSamples && tb.IsSampleFile f.AbsolutePath then m
          else if !tb.IsAllowedFile fileName then m
          else if !tb.IsSizeAllowed f.Size then m
          else
            let file : File :=
              { TorrentId := torrentId, Id := toString f.Id, Name := fileName, Size := f.Size,
                Path := f.Name, Link := "", DownloadLink := none }
            let file : File :=
              if finished then
                { file with Link := "torbox://" ++ torrentId ++ "/" ++ toString f.Id }
              else file
            mapAssign m fileName file)
        m1).map File.withoutPath =
      (files.foldl
        (fun m f =>
          let fileName := tb.filepathBase f.Name
          if !tb.addSamples && tb.IsSampleFile f.AbsolutePath then m
          else if !tb.IsAllowedFile fileName then m
          else if !tb.IsSizeAllowed f.Size then m
          else
            let file : File :=
              { TorrentId := torrentId, Id := toString f.Id, Name := fileName, Size := f.Size,
                Path := fileName, Link := "", DownloadLink := none }
            let file : File :=
              if finished then
                { file with Link := "torbox://" ++ torrentId ++ "/" ++ toString f.Id }
              else file
            mapAssign m fileName file)
        m2).map File.withoutPath := by
  induction files with
  | nil => intro m1 m2 h; exact h
  | cons f rest ih =>
    intro m1 m2 h
    rw [List.foldl_cons, List.foldl_cons]
    apply ih
    simp only
    by_cases h1 : (!tb.addSamples && tb.IsSampleFile f.AbsolutePath) = true
    · rw [if_pos h1, if_pos h1]; exact h
    · rw [if_neg h1, if_neg h1]
      by_cases h2 : (!tb.IsAllowedFile (tb.filepathBase f.Name)) = true
      · rw [if_pos h2, if_pos h2]; exact h
      · rw [if_neg h2, if_neg h2]
        by_cases h3 : (!tb.IsSizeAllowed f.Size) = true
        · rw [if_pos h3, if_pos h3]; exact h
        · rw [if_neg h3, if_neg h3]
          apply mapAssign_withoutPath _ _ _ _ _ h
          cases finished <;> rfl

/-- The file maps of `GetTorrent` and of `UpdateTorrent` have the same keys in the same order
and, at each key, the same `TorrentId`, `Id`, `Name`, `Size`, `Link` and `DownloadLink`. -/
theorem files_withoutPath (tb : TorboxClient) (torrentId : String) (finished : Bool)
    (files : List TorboxFile) :
    (GetTorrent.files tb torrentId finished files).map File.withoutPath =
      (UpdateTorrent.files tb torrentId finished files).map File.withoutPath :=
  files_withoutPath_from tb torrentId finished files [] [] rfl

/-- When every vendor file name is its own base name, the two file maps are equal. -/
theorem files_eq_of_base_names (tb : TorboxClient) (torrentId : String) (finished : Bool)
    (files : List TorboxFile) (h : ∀ f ∈ files, tb.filepathBase f.Name = f.Name) :
    GetTorrent.files tb torrentId finished files =
      UpdateTorrent.files tb torrentId finished files := by
  unfold GetTorrent.files UpdateTorrent.files
  generalize ([] : List (String × File)) = m
  induction files generalizing m with
  | nil => rfl
  | cons f rest ih =>
    rw [List.foldl_cons, List.foldl_cons]
    have hf : tb.filepathBase f.Name = f.Name := h f (List.mem_cons_self _ _)
    simp only [hf]
    exact ih (fun g hg => h g (List.mem_cons_of_mem _ hg)) _

/-- What holds of the entries of a map and of a new entry holds of the entries after the
assignment. -/
theorem mapAssign_forall (P : String × File → Prop) (m : List (String × File)) (name : String)
    (file : File) (hm : ∀ e ∈ m, P e) (hf : P (name, file)) :
    ∀ e ∈ mapAssign m name file, P e := by
  intro e he
  unfold mapAssign at he
  by_cases h : m.any (fun e => decide (e.1 = name)) = true
  · rw [if_pos h] at he
    obtain ⟨a, ha, rfl⟩ := List.mem_map.mp he
    by_cases hk : a.1 = name
    · rw [if_pos hk]; exact hf
    · rw [if_neg hk]; exact hm a ha
  · rw [if_neg h] at he
    rcases List.mem_append.mp he with he | he
    · exact hm e he
    · rw [List.mem_singleton.mp he]; exact hf

/-- Every file that `UpdateTorrent` installs has its name as its `Path`. -/
theorem UpdateTorrent.files_Path (tb : TorboxClient) (torrentId : String) (finished : Bool)
    (files : List TorboxFile) :
    ∀ e ∈ UpdateTorrent.files tb torrentId finished files, e.2.Path = e.2.Name := by
  unfold UpdateTorrent.files
  have start : ∀ e ∈ ([] : List (String × File)), e.2.Path = e.2.Name := by
    intro e he; cases he
  revert start
  generalize ([] : List (String × File)) = m
  induction files generalizing m with
  | nil => intro hm; exact hm
  | cons f rest ih =>
    intro hm
    rw [List.foldl_cons]
    apply ih
    simp only
    by_cases h1 : (!tb.addSamples && tb.IsSampleFile f.AbsolutePath) = true
    · rw [if_pos h1]; exact hm
    · rw [if_neg h1]
      by_cases h2 : (!tb.IsAllowedFile (tb.filepathBase f.Name)) = true
      · rw [if_pos h2]; exact hm
      · rw [if_neg h2]
        by_cases h3 : (!tb.IsSizeAllowed f.Size) = true
        · rw [if_pos h3]; exact hm
        · rw [if_neg h3]
          apply mapAssign_forall _ _ _ _ hm
          cases finished <;> rfl

/-- Every entry of the file map of `GetTorrent` comes from a vendor file that passed the
filters: its key and `Name` are the base name, its `Path` is the vendor's file name, and its
`Link` is `torbox://`, the torrent id, a slash and the file id when the download is finished,
and empty otherwise. -/
theorem GetTorrent_files_entry (tb : TorboxClient) (torrentId : String) (finished : Bool)
    (all : List TorboxFile) :
    ∀ e ∈ GetTorrent.files tb torrentId finished all,
      ∃ f ∈ all, e = (tb.filepathBase f.Name,
        fileEntry tb torrentId finished f (f.Name)) := by
  have key : ∀ (files : List TorboxFile), (∀ f ∈ files, f ∈ all) →
      ∀ m : List (String × File),
        (∀ e ∈ m, ∃ f ∈ all, e = (tb.filepathBase f.Name,
          fileEntry tb torrentId finished f (f.Name))) →
        ∀ e ∈ files.foldl
          (fun m f =>
            let fileName := tb.filepathBase f.Name
            if !tb.addSamples && tb.IsSampleFile f.AbsolutePath then m
            else if !tb.IsAllowedFile fileName then m
            else if !tb.IsSizeAllowed f.Size then m
            else
              let file : File :=
                { TorrentId := torrentId, Id := toString f.Id, Name := fileName, Size := f.Size,
                  Path := f.Name, Link := "", DownloadLink := none }
              let file : File :=
                if finished then
                  { file with Link := "torbox://" ++ torrentId ++ "/" ++ toString f.Id }
                else file
              mapAssign m fileName file)
          m,
          ∃ f ∈ all, e = (tb.filepathBase f.Name,
            fileEntry tb torrentId finished f (f.Name)) := by
    intro files
    induction files with
    | nil => intro _ m hm; exact hm
    | cons f rest ih =>
      intro hsub m hm
      rw [List.foldl_cons]
      apply ih (fun g hg => hsub g (List.mem_cons_of_mem _ hg))
      simp only
      by_cases h1 : (!tb.addSamples && tb.IsSampleFile f.AbsolutePath) = true
      · rw [if_pos h1]; exact hm
      · rw [if_neg h1]
        by_cases h2 : (!tb.IsAllowedFile (tb.filepathBase f.Name)) = true
        · rw [if_pos h2]; exact hm
        · rw [if_neg h2]
          by_cases h3 : (!tb.IsSizeAllowed f.Size) = true
          · rw [if_pos h3]; exact hm
          · rw [if_neg h3]
            apply mapAssign_forall _ _ _ _ hm
            exact ⟨f, hsub f (List.mem_cons_self _ _), by cases finished <;> rfl⟩
  exact key all (fun _ h => h) [] (fun e he => by cases he)

/-- Every entry of the file map of `UpdateTorrent` comes from a vendor file that passed the
filters: it is the entry of `GetTorrent` for that file, but for its `Path`, which is the base
name. -/
theorem UpdateTorrent_files_entry (tb : TorboxClient) (torrentId : String) (finished : Bool)
    (all : List TorboxFile) :
    ∀ e ∈ UpdateTorrent.files tb torrentId finished all,
      ∃ f ∈ all, e = (tb.filepathBase f.Name,
        fileEntry tb torrentId finished f (tb.filepathBase f.Name)) := by
  have key : ∀ (files : List TorboxFile), (∀ f ∈ files, f ∈ all) →
      ∀ m : List (String × File),
        (∀ e ∈ m, ∃ f ∈ all, e = (tb.filepathBase f.Name,
          fileEntry tb torrentId finished f (tb.filepathBase f.Name))) →
        ∀ e ∈ files.foldl
          (fun m f =>
            let fileName := tb.filepathBase f.Name
            if !tb.addSamples && tb.IsSampleFile f.AbsolutePath then m
            else if !tb.IsAllowedFile fileName then m
            else if !tb.IsSizeAllowed f.Size then m
            else
              let file : File :=
                { TorrentId := torrentId, Id := toString f.Id, Name := fileName, Size := f.Size,
                  Path := fileName, Link := "", DownloadLink := none }
              let file : File :=
                if finished then
                  { file with Link := "torbox://" ++ torrentId ++ "/" ++ toString f.Id }
                else file
              mapAssign m fileName file)
          m,
          ∃ f ∈ all, e = (tb.filepathBase f.Name,
            fileEntry tb torrentId finished f (tb.filepathBase f.Name)) := by
    intro files
    induction files with
    | nil => intro _ m hm; exact hm
    | cons f rest ih =>
      intro hsub m hm
      rw [List.foldl_cons]
      apply ih (fun g hg => hsub g (List.mem_cons_of_mem _ hg))
      simp only
      by_cases h1 : (!tb.addSamples && tb.IsSampleFile f.AbsolutePath) = true
      · rw [if_pos h1]; exact hm
      · rw [if_neg h1]
        by_cases h2 : (!tb.IsAllowedFile (tb.filepathBase f.Name)) = true
        · rw [if_pos h2]; exact hm
        · rw [if_neg h2]
          by_cases h3 : (!tb.IsSizeAllowed f.Size) = true
          · rw [if_pos h3]; exact hm
          · rw [if_neg h3]
            apply mapAssign_forall _ _ _ _ hm
            exact ⟨f, hsub f (List.mem_cons_self _ _), by cases finished <;> rfl⟩
  exact key all (fun _ h => h) [] (fun e he => by cases he)

/-- The two file maps on a response with data. On a vendor info response that carries data,
with the same
client and the torrent id of the response, `GetTorrent` and `UpdateTorrent` both return
without error, and their file maps have the same keys in the same order and, at each key,
the same `TorrentId`, `Id`, `Name`, `Size` and `Link`. The `Path` that `UpdateTorrent` stores
is the name of the file, its base name; the two maps are equal when every vendor file name is
its own base name. -/
theorem GetTorrent_UpdateTorrent_files (tb : TorboxClient)
    (fetch : String → Fetched TorboxTorrent) (torrentId : String)
    (res : BaseResponse TorboxTorrent) (data : TorboxTorrent) (t : DebridTorrent)
    (hres : fetch torrentId = Fetched.decoded res) (hdata : res.Data = some data)
    (hid : t.Id = toString data.Id) :
    ∃ g u, Torbox.GetTorrent tb fetch torrentId = (some g, none) ∧
      Torbox.UpdateTorrent tb (fetch torrentId) t = Call.ret (u, none) ∧
      g.Files.map File.withoutPath = u.Files.map File.withoutPath ∧
      (∀ e ∈ u.Files, e.2.Path = e.2.Name) ∧
      ((∀ f ∈ data.Files, tb.filepathBase f.Name = f.Name) → g.Files = u.Files) := by
  simp only [Torbox.GetTorrent, Torbox.UpdateTorrent, hres, hdata]
  refine ⟨_, _, rfl, rfl, ?_, ?_, ?_⟩
  · simp only [hid]
    exact files_withoutPath tb _ _ _
  · exact UpdateTorrent.files_Path tb _ _ _
  · intro h
    simp only [hid]
    exact files_eq_of_base_names tb _ _ _ h

/-- The two file maps at a finished vendor torrent whose file lies in a folder. -/
theorem GetTorrent_UpdateTorrent_files_witness :
    ∃ g u, Torbox.GetTorrent baseNameClient (fun _ => nestedResponse) "42" = (some g, none) ∧
      Torbox.UpdateTorrent baseNameClient nestedResponse sampleRemote = Call.ret (u, none) ∧
      g.Files.map File.withoutPath = u.Files.map File.withoutPath ∧
      (∀ e ∈ u.Files, e.2.Path = e.2.Name) ∧
      ((∀ f ∈ nestedVendorTorrent.Files, baseNameClient.filepathBase f.Name = f.Name) →
        g.Files = u.Files) :=
  GetTorrent_UpdateTorrent_files baseNameClient (fun _ => nestedResponse) "42"
    { Success := true, Error := none, Detail := "", Data := some nestedVendorTorrent }
    nestedVendorTorrent sampleRemote rfl rfl (by decide)

/-- C22, evaluated on a finished vendor torrent whose file is `sintel/sintel.mkv`, with the
same client and torrent id 42: `GetTorrent` and `UpdateTorrent` both return without error and
store the file under the key `sintel.mkv`, with the same `TorrentId`, `Id`, `Name`, `Size` and
the link `torbox://42/1`; `GetTorrent` gives it the path `sintel/sintel.mkv`, the vendor's
file name, `UpdateTorrent` the path `sintel.mkv`, its base name, so the two maps differ. -/
theorem GetTorrent_UpdateTorrent_files_differ_in_Path :
    ∃ g u, Torbox.GetTorrent baseNameClient (fun _ => nestedResponse) "42" = (some g, none) ∧
      Torbox.UpdateTorrent baseNameClient nestedResponse sampleRemote = Call.ret (u, none) ∧
      g.Id = "42" ∧ u.Id = "42" ∧
      g.Files = [("sintel.mkv", nestedFileAt "sintel/sintel.mkv")] ∧
      u.Files = [("sintel.mkv", nestedFileAt "sintel.mkv")] ∧
      (nestedFileAt "sintel/sintel.mkv").Link = "torbox://42/1" ∧
      g.Files ≠ u.Files :=
  ⟨_, _, rfl, rfl, by decide, by decide, by decide, by decide, by decide, by decide⟩

/-! ## The decoder of the vendor torrent -/

/-- One step of the decoding. -/
theorem unmarshal.members_cons {σ : Type} (store : σ → String → Json → σ × Option Err)
    (key : String) (v : Json) (rest : JsonObject) (s : σ) (err : Option Err) :
    unmarshal.members store ((key, v) :: rest) s err =
      unmarshal.members store rest (store s key v).1
        (match err with | some e => some e | none => (store s key v).2) := rfl

/-- Once an error is kept, it is the one reported. -/
theorem unmarshal.members_of_error {σ : Type} (store : σ → String → Json → σ × Option Err)
    (d : JsonObject) (s : σ) (e : Err) : (unmarshal.members store d s (some e)).2 = some e := by
  induction d generalizing s with
  | nil => rfl
  | cons m rest ih => obtain ⟨key, v⟩ := m; rw [unmarshal.members_cons]; exact ih _

/-- A decoding without error started without error, and its first member was stored without
error. -/
theorem unmarshal.members_cons_ok {σ : Type} (store : σ → String → Json → σ × Option Err)
    (key : String) (v : Json) (rest : JsonObject) (s : σ) (err : Option Err)
    (h : (unmarshal.members store ((key, v) :: rest) s err).2 = none) :
    err = none ∧ (store s key v).2 = none ∧
      (unmarshal.members store rest (store s key v).1 none).2 = none := by
  rw [unmarshal.members_cons] at h
  cases err with
  | some e => rw [unmarshal.members_of_error] at h; cases h
  | none =>
    cases hr : (store s key v).2 with
    | some e => simp only [hr] at h; rw [unmarshal.members_of_error] at h; cases h
    | none => simp only [hr] at h; exact ⟨rfl, rfl, h⟩

/-- The state after the decoding does not depend on the error kept. -/
theorem unmarshal.members_state {σ : Type} (store : σ → String → Json → σ × Option Err)
    (d : JsonObject) (s : σ) (e e' : Option Err) :
    (unmarshal.members store d s e).1 = (unmarshal.members store d s e').1 := by
  induction d generalizing s e e' with
  | nil => rfl
  | cons m rest ih => obtain ⟨key, v⟩ := m; rw [unmarshal.members_cons, unmarshal.members_cons]; exact ih _ _ _

/-- A member found by `lookup` is a member. -/
theorem lookup_mem (d : JsonObject) (k : String) (v : Json) (h : d.lookup k = some v) :
    (k, v) ∈ d := by
  induction d with
  | nil => simp at h
  | cons m rest ih =>
    obtain ⟨key, w⟩ := m
    by_cases hk : k = key
    · subst hk
      simp only [List.lookup_cons, beq_self_eq_true, Option.some.injEq] at h
      subst h
      exact List.mem_cons_self _ _
    · have hb : (k == key) = false := by simpa using hk
      simp only [List.lookup_cons, hb] at h
      exact List.mem_cons_of_mem _ (ih h)

/-- An object has no value for a name that none of its members bears. -/
theorem lookup_of_not_mem (d : JsonObject) (k : String) (h : k ∉ d.map Prod.fst) :
    d.lookup k = none := by
  induction d with
  | nil => rfl
  | cons m rest ih =>
    obtain ⟨key, w⟩ := m
    simp only [List.map_cons, List.mem_cons, not_or] at h
    have hb : (k == key) = false := by simpa using h.1
    simp only [List.lookup_cons, hb]
    exact ih h.2

/-- A part of the state that only the member `k` writes is, after the decoding of an object
with distinct member names, what the value of `k` made of it. -/
theorem unmarshal.members_proj {σ α : Type} (store : σ → String → Json → σ × Option Err)
    (p : σ → α) (k : String) (g : Json → α → α)
    (hother : ∀ s key v, key ≠ k → p (store s key v).1 = p s)
    (hkey : ∀ s v, p (store s k v).1 = g v (p s)) :
    ∀ (d : JsonObject) (s : σ) (e : Option Err), (d.map Prod.fst).Nodup →
      p (unmarshal.members store d s e).1 =
        match d.lookup k with
        | some v => g v (p s)
        | none => p s := by
  intro d
  induction d with
  | nil => intro s e _; rfl
  | cons m rest ih =>
    intro s e hd
    obtain ⟨key, v⟩ := m
    simp only [List.map_cons, List.nodup_cons] at hd
    rw [unmarshal.members_cons, ih _ _ hd.2]
    by_cases hk : k = key
    · subst hk
      rw [lookup_of_not_mem rest k hd.1]
      simp only [List.lookup_cons, beq_self_eq_true]
      exact hkey s v
    · have hb : (k == key) = false := by simpa using hk
      simp only [List.lookup_cons, hb]
      rw [hother s key v (fun h => hk h.symm)]

/-- In a decoding without error no member was stored with an error. -/
theorem unmarshal.members_member_ok {σ : Type} (store : σ → String → Json → σ × Option Err)
    (k : String) (errOf : Json → Option Err) (hkey : ∀ s v, (store s k v).2 = errOf v) :
    ∀ (d : JsonObject) (s : σ) (e : Option Err), (unmarshal.members store d s e).2 = none →
      ∀ v, (k, v) ∈ d → errOf v = none := by
  intro d
  induction d with
  | nil => intro s e _ v hv; cases hv
  | cons m rest ih =>
    intro s e h v hv
    obtain ⟨key, w⟩ := m
    obtain ⟨_, h2, h3⟩ := unmarshal.members_cons_ok store key w rest s e h
    rcases List.mem_cons.mp hv with hv | hv
    · cases hv; rw [← hkey s v]; exact h2
    · exact ih _ _ h3 v hv

/-- Two decoders of which one follows the other member by member end in states of which one
follows the other, and the second reports no error when the first reports none. -/
theorem unmarshal.members_sim {σ τ : Type} (store1 : σ → String → Json → σ × Option Err)
    (store2 : τ → String → Json → τ × Option Err) (p : σ → τ)
    (h1 : ∀ s key v, p (store1 s key v).1 = (store2 (p s) key v).1)
    (h2 : ∀ s key v, (store1 s key v).2 = none → (store2 (p s) key v).2 = none) :
    ∀ (d : JsonObject) (s : σ) (e : Option Err),
      p (unmarshal.members store1 d s e).1 = (unmarshal.members store2 d (p s) e).1 ∧
      ((unmarshal.members store1 d s e).2 = none →
        (unmarshal.members store2 d (p s) e).2 = none) := by
  intro d
  induction d with
  | nil => intro s e; exact ⟨rfl, fun h => h⟩
  | cons m rest ih =>
    intro s e
    obtain ⟨key, v⟩ := m
    refine ⟨?_, fun h => ?_⟩
    · rw [unmarshal.members_cons, unmarshal.members_cons, ← h1]
      rw [unmarshal.members_state store2 rest _ _
        (match e with | some e => some e | none => (store1 s key v).2)]
      exact (ih _ _).1
    · obtain ⟨he, hs, hr⟩ := unmarshal.members_cons_ok store1 key v rest s e h
      subst he
      rw [unmarshal.members_cons]
      simp only [h2 s key v hs]
      rw [← h1]
      exact (ih _ _).2 hr

/-- Whether `storeInt` fails depends on the value only. -/
theorem storeInt_err (key : String) (v : Json) (old : Int) :
    (storeInt key v old).2 = (storeInt key v 0).2 := by
  cases v with
  | null => rfl
  | int n => simp only [storeInt]; split_ifs <;> rfl
  | other raw => rfl

/-- What `storeInt` stores when it does not fail: the integer of the value, or the old
content of the field for `null`. -/
theorem storeInt_ok (key : String) (v : Json) (old : Int) (h : (storeInt key v 0).2 = none) :
    (storeInt key v old).1 = v.asInt.getD old := by
  cases v with
  | null => rfl
  | int n =>
    simp only [storeInt] at h ⊢
    by_cases hr : -(2 : Int) ^ 63 ≤ n ∧ n < (2 : Int) ^ 63
    · rw [if_pos hr]; rfl
    · rw [if_neg hr] at h; cases h
  | other raw => cases h

/-- Whether `storeIntPtr` fails depends on the value only. -/
theorem storeIntPtr_err (key : String) (v : Json) (old : Option Int) :
    (storeIntPtr key v old).2 = (storeIntPtr key v none).2 := by
  cases v with
  | null => rfl
  | int n => simp only [storeIntPtr]; rw [storeInt_err]; rfl
  | other raw => rfl

/-- What `storeIntPtr` stores when it does not fail: the integer of the value, or nil for
`null`. -/
theorem storeIntPtr_ok (key : String) (v : Json) (old : Option Int)
    (h : (storeIntPtr key v none).2 = none) : (storeIntPtr key v old).1 = v.asInt := by
  cases v with
  | null => rfl
  | int n =>
    simp only [storeIntPtr] at h ⊢
    rw [storeInt_ok key (Json.int n) _ (by rw [storeInt_err] at h; exact h)]
    rfl
  | other raw => cases h

/-- Every tag of `Aux`, and so every tag of `Alias`, is its own folded name. -/
theorem Aux.tags_folded : ∀ tag ∈ Aux.tags, foldName tag = tag := by decide

/-- The tags of `Alias` are tags of `Aux`; `torrent_id` and `queued_id` are tags of `Aux`
and no tags of `Alias`: the two fields of `Aux` hide no field of the embedded `Alias`. -/
theorem Aux.tags_mem (name : String) :
    name ∈ Aux.tags ↔ name ∈ Alias.tags ∨ name = "torrent_id" ∨ name = "queued_id" := by
  unfold Aux.tags
  simp

theorem tags_without_optional_ids :
    "torrent_id" ∉ Alias.tags ∧ "queued_id" ∉ Alias.tags ∧ "id" ∈ Alias.tags ∧
      "torrent_id" ≠ "id" ∧ "queued_id" ≠ "id" := by
  decide

/-- Among tags that are their own folded names, the first tag that equals a name without
regard to case is the folded name, if that is a tag. -/
theorem find?_folded (key : String) :
    ∀ tags : List String, (∀ tag ∈ tags, foldName tag = tag) →
      tags.find? (fun tag => decide (foldName tag = foldName key)) =
        if foldName key ∈ tags then some (foldName key) else none := by
  intro tags
  induction tags with
  | nil => intro _; rfl
  | cons a tags ih =>
    intro h
    have ha : foldName a = a := h a (List.mem_cons_self _ _)
    have ih' := ih (fun tag ht => h tag (List.mem_cons_of_mem _ ht))
    by_cases hk : a = foldName key
    · rw [List.find?_cons_of_pos _ (by rw [ha]; exact decide_eq_true hk),
        if_pos (by rw [← hk]; exact List.mem_cons_self _ _)]
      rw [hk]
    · rw [List.find?_cons_of_neg _ (by rw [ha]; simpa using hk), ih']
      have hk' : ¬ foldName key = a := fun e => hk e.symm
      simp [hk']

/-- Among tags that are their own folded names, the field of a member is the one whose tag is
the folded name of the member. -/
theorem fieldOf_folded (tags : List String) (h : ∀ tag ∈ tags, foldName tag = tag)
    (key : String) :
    fieldOf tags key = if foldName key ∈ tags then some (foldName key) else none := by
  unfold fieldOf
  by_cases hk : key ∈ tags
  · rw [if_pos hk, h key hk, if_pos hk]
  · rw [if_neg hk, find?_folded key tags h]

/-- The decoder of `Aux` stores a member under its folded name. -/
theorem Aux_store_eq_storeFolded
    (field : String → Json → TorboxTorrent → TorboxTorrent × Option Err)
    (aux : Aux) (key : String) (v : Json) :
    Aux.store field aux key v = Aux.storeFolded field aux (foldName key) v := by
  unfold Aux.store Aux.storeFolded
  rw [fieldOf_folded Aux.tags Aux.tags_folded]
  by_cases h : foldName key ∈ Aux.tags
  · rw [if_pos h, if_pos h]
  · rw [if_neg h, if_neg h]

/-- The decoder of `Alias` stores a member under its folded name. -/
theorem Alias_store_eq_storeFolded
    (field : String → Json → TorboxTorrent → TorboxTorrent × Option Err)
    (t : TorboxTorrent) (key : String) (v : Json) :
    Alias.store field t key v = Alias.storeFolded field t (foldName key) v := by
  unfold Alias.store Alias.storeFolded
  rw [fieldOf_folded Alias.tags
    (fun tag ht => Aux.tags_folded tag ((Aux.tags_mem tag).mpr (Or.inl ht)))]
  by_cases h : foldName key ∈ Alias.tags
  · rw [if_pos h, if_pos h]
  · rw [if_neg h, if_neg h]

/-- A decoder that reads the names of the members through a function decodes an object as the
decoder by the resulting names decodes the object with those names. -/
theorem unmarshal.members_map_keys {σ : Type}
    (store store2 : σ → String → Json → σ × Option Err) (g : String → String)
    (h : ∀ s key v, store s key v = store2 s (g key) v) :
    ∀ (d : JsonObject) (s : σ) (e : Option Err),
      unmarshal.members store d s e =
        unmarshal.members store2 (d.map fun m => (g m.1, m.2)) s e := by
  intro d
  induction d with
  | nil => intro s e; rfl
  | cons m rest ih =>
    intro s e
    obtain ⟨key, v⟩ := m
    rw [List.map_cons, unmarshal.members_cons, unmarshal.members_cons, h, ih]

/-- The decoding into `Aux` is the decoding by folded names of the object with its names
folded. -/
theorem unmarshal_Aux_folded (field : String → Json → TorboxTorrent → TorboxTorrent × Option Err)
    (d : JsonObject) (aux : Aux) :
    unmarshal (Aux.store field) d aux =
      unmarshal.members (Aux.storeFolded field) (foldKeys d) aux none :=
  unmarshal.members_map_keys (Aux.store field) (Aux.storeFolded field) foldName
    (Aux_store_eq_storeFolded field) d aux none

/-- The decoder of `Aux` stores into the embedded `Alias` what the decoder of `Alias` stores,
and fails when that one fails. -/
theorem Aux.storeFolded_Alias
    (field : String → Json → TorboxTorrent → TorboxTorrent × Option Err)
    (aux : Aux) (name : String) (v : Json) :
    (Aux.storeFolded field aux name v).1.Alias = (Alias.storeFolded field aux.Alias name v).1 ∧
      ((Aux.storeFolded field aux name v).2 = none →
        (Alias.storeFolded field aux.Alias name v).2 = none) := by
  unfold Aux.storeFolded Alias.storeFolded
  by_cases h1 : name = "torrent_id"
  · subst h1
    rw [if_pos (by decide), if_neg tags_without_optional_ids.1]
    unfold Aux.set
    rw [if_pos rfl]
    exact ⟨rfl, fun _ => rfl⟩
  · by_cases h2 : name = "queued_id"
    · subst h2
      rw [if_pos (by decide), if_neg tags_without_optional_ids.2.1]
      unfold Aux.set
      rw [if_neg (by decide), if_pos rfl]
      exact ⟨rfl, fun _ => rfl⟩
    · by_cases h3 : name ∈ Alias.tags
      · rw [if_pos ((Aux.tags_mem name).mpr (Or.inl h3)), if_pos h3]
        unfold Aux.set
        rw [if_neg h1, if_neg h2]
        exact ⟨rfl, fun h => h⟩
      · have h4 : name ∉ Aux.tags := fun h => by
          rcases (Aux.tags_mem name).mp h with h | h | h
          · exact h3 h
          · exact h1 h
          · exact h2 h
        rw [if_neg h4, if_neg h3]
        exact ⟨rfl, fun _ => rfl⟩

/-- Only the member `id` writes the field `Id`. -/
theorem Aux.storeFolded_Id_of_ne
    (field : String → Json → TorboxTorrent → TorboxTorrent × Option Err)
    (aux : Aux) (name : String) (v : Json) (h : name ≠ "id") :
    (Aux.storeFolded field aux name v).1.Alias.Id = aux.Alias.Id := by
  rw [(Aux.storeFolded_Alias field aux name v).1]
  unfold Alias.storeFolded
  by_cases ht : name ∈ Alias.tags
  · rw [if_pos ht]
    unfold Alias.set
    rw [if_neg h]
  · rw [if_neg ht]

/-- The member `id` is stored into the field `Id` as an `int`. -/
theorem Aux.storeFolded_id
    (field : String → Json → TorboxTorrent → TorboxTorrent × Option Err)
    (aux : Aux) (v : Json) :
    (Aux.storeFolded field aux "id" v).1.Alias.Id = (storeInt "id" v aux.Alias.Id).1 ∧
      (Aux.storeFolded field aux "id" v).2 = (storeInt "id" v 0).2 := by
  unfold Aux.storeFolded
  rw [if_pos (by decide)]
  unfold Aux.set
  rw [if_neg (by decide), if_neg (by decide)]
  unfold Alias.set
  rw [if_pos rfl]
  exact ⟨rfl, storeInt_err _ _ _⟩

/-- Only the member `torrent_id` writes the pointer `TorrentID`, as a `*int`. -/
theorem Aux.storeFolded_TorrentID
    (field : String → Json → TorboxTorrent → TorboxTorrent × Option Err)
    (aux : Aux) (name : String) (v : Json) :
    (name ≠ "torrent_id" → (Aux.storeFolded field aux name v).1.TorrentID = aux.TorrentID) ∧
    (Aux.storeFolded field aux "torrent_id" v).1.TorrentID =
      (storeIntPtr "torrent_id" v aux.TorrentID).1 ∧
    (Aux.storeFolded field aux "torrent_id" v).2 = (storeIntPtr "torrent_id" v none).2 := by
  refine ⟨fun h => ?_, ?_, ?_⟩
  · unfold Aux.storeFolded
    by_cases ht : name ∈ Aux.tags
    · rw [if_pos ht]
      unfold Aux.set
      rw [if_neg h]
      by_cases h2 : name = "queued_id"
      · rw [if_pos h2]
      · rw [if_neg h2]
    · rw [if_neg ht]
  · unfold Aux.storeFolded
    rw [if_pos (by decide)]
    unfold Aux.set
    rw [if_pos rfl]
  · unfold Aux.storeFolded
    rw [if_pos (by decide)]
    unfold Aux.set
    rw [if_pos rfl]
    exact storeIntPtr_err _ _ _

/-- Only the member `queued_id` writes the pointer `QueuedID`, as a `*int`. -/
theorem Aux.storeFolded_QueuedID
    (field : String → Json → TorboxTorrent → TorboxTorrent × Option Err)
    (aux : Aux) (name : String) (v : Json) :
    (name ≠ "queued_id" → (Aux.storeFolded field aux name v).1.QueuedID = aux.QueuedID) ∧
    (Aux.storeFolded field aux "queued_id" v).1.QueuedID =
      (storeIntPtr "queued_id" v aux.QueuedID).1 ∧
    (Aux.storeFolded field aux "queued_id" v).2 = (storeIntPtr "queued_id" v none).2 := by
  refine ⟨fun h => ?_, ?_, ?_⟩
  · unfold Aux.storeFolded
    by_cases ht : name ∈ Aux.tags
    · rw [if_pos ht]
      unfold Aux.set
      by_cases h1 : name = "torrent_id"
      · rw [if_pos h1]
      · rw [if_neg h1, if_neg h]
    · rw [if_neg ht]
  · unfold Aux.storeFolded
    rw [if_pos (by decide)]
    unfold Aux.set
    rw [if_neg (by decide), if_pos rfl]
  · unfold Aux.storeFolded
    rw [if_pos (by decide)]
    unfold Aux.set
    rw [if_neg (by decide), if_pos rfl]
    exact storeIntPtr_err _ _ _

/-- After a decoding without error of an object with distinct member names, `Id` holds the
integer of the member `id`, or what it held before. -/
theorem unmarshal_Aux_Id (field : String → Json → TorboxTorrent → TorboxTorrent × Option Err)
    (d : JsonObject) (aux : Aux) (hnames : ((foldKeys d).map Prod.fst).Nodup)
    (hok : (unmarshal (Aux.store field) d aux).2 = none) :
    (unmarshal (Aux.store field) d aux).1.Alias.Id = (intMember d "id").getD aux.Alias.Id := by
  rw [unmarshal_Aux_folded] at hok ⊢
  rw [unmarshal.members_proj (Aux.storeFolded field) (fun a => a.Alias.Id) "id"
    (fun v old => (storeInt "id" v old).1)
    (fun s key v h => Aux.storeFolded_Id_of_ne field s key v h)
    (fun s v => (Aux.storeFolded_id field s v).1) (foldKeys d) aux none hnames]
  unfold intMember
  cases hl : (foldKeys d).lookup "id" with
  | none => rfl
  | some v =>
    have hv := unmarshal.members_member_ok (Aux.storeFolded field) "id"
      (fun v => (storeInt "id" v 0).2) (fun s v => (Aux.storeFolded_id field s v).2)
      (foldKeys d) aux none hok v (lookup_mem (foldKeys d) "id" v hl)
    exact storeInt_ok "id" v _ hv

/-- After a decoding without error of an object with distinct member names, `TorrentID`
points to the integer of the member `torrent_id`, or is nil as before. -/
theorem unmarshal_Aux_TorrentID
    (field : String → Json → TorboxTorrent → TorboxTorrent × Option Err)
    (d : JsonObject) (aux : Aux) (hnil : aux.TorrentID = none)
    (hnames : ((foldKeys d).map Prod.fst).Nodup)
    (hok : (unmarshal (Aux.store field) d aux).2 = none) :
    (unmarshal (Aux.store field) d aux).1.TorrentID = intMember d "torrent_id" := by
  rw [unmarshal_Aux_folded] at hok ⊢
  rw [unmarshal.members_proj (Aux.storeFolded field) (fun a => a.TorrentID) "torrent_id"
    (fun v old => (storeIntPtr "torrent_id" v old).1)
    (fun s key v h => (Aux.storeFolded_TorrentID field s key v).1 h)
    (fun s v => (Aux.storeFolded_TorrentID field s "" v).2.1) (foldKeys d) aux none hnames]
  unfold intMember
  cases hl : (foldKeys d).lookup "torrent_id" with
  | none => exact hnil
  | some v =>
    have hv := unmarshal.members_member_ok (Aux.storeFolded field) "torrent_id"
      (fun v => (storeIntPtr "torrent_id" v none).2)
      (fun s v => (Aux.storeFolded_TorrentID field s "" v).2.2) (foldKeys d) aux none hok v
      (lookup_mem (foldKeys d) "torrent_id" v hl)
    exact storeIntPtr_ok "torrent_id" v _ hv

/-- After a decoding without error of an object with distinct member names, `QueuedID`
points to the integer of the member `queued_id`, or is nil as before. -/
theorem unmarshal_Aux_QueuedID
    (field : String → Json → TorboxTorrent → TorboxTorrent × Option Err)
    (d : JsonObject) (aux : Aux) (hnil : aux.QueuedID = none)
    (hnames : ((foldKeys d).map Prod.fst).Nodup)
    (hok : (unmarshal (Aux.store field) d aux).2 = none) :
    (unmarshal (Aux.store field) d aux).1.QueuedID = intMember d "queued_id" := by
  rw [unmarshal_Aux_folded] at hok ⊢
  rw [unmarshal.members_proj (Aux.storeFolded field) (fun a => a.QueuedID) "queued_id"
    (fun v old => (storeIntPtr "queued_id" v old).1)
    (fun s key v h => (Aux.storeFolded_QueuedID field s key v).1 h)
    (fun s v => (Aux.storeFolded_QueuedID field s "" v).2.1) (foldKeys d) aux none hnames]
  unfold intMember
  cases hl : (foldKeys d).lookup "queued_id" with
  | none => exact hnil
  | some v =>
    have hv := unmarshal.members_member_ok (Aux.storeFolded field) "queued_id"
      (fun v => (storeIntPtr "queued_id" v none).2)
      (fun s v => (Aux.storeFolded_QueuedID field s "" v).2.2) (foldKeys d) aux none hok v
      (lookup_mem (foldKeys d) "queued_id" v hl)
    exact storeIntPtr_ok "queued_id" v _ hv

/-- The decoding into `Aux` leaves in the receiver what the decoding into `Alias` leaves,
and the latter reports no error when the former reports none. -/
theorem unmarshal_Aux_Alias (field : String → Json → TorboxTorrent → TorboxTorrent × Option Err)
    (d : JsonObject) (aux : Aux) :
    (unmarshal (Aux.store field) d aux).1.Alias = (unmarshal (Alias.store field) d aux.Alias).1 ∧
      ((unmarshal (Aux.store field) d aux).2 = none →
        (unmarshal (Alias.store field) d aux.Alias).2 = none) :=
  unmarshal.members_sim (Aux.store field) (Alias.store field) (fun a => a.Alias)
    (fun s key v => by
      rw [Aux_store_eq_storeFolded, Alias_store_eq_storeFolded]
      exact (Aux.storeFolded_Alias field s (foldName key) v).1)
    (fun s key v => by
      rw [Aux_store_eq_storeFolded, Alias_store_eq_storeFolded]
      exact (Aux.storeFolded_Alias field s (foldName key) v).2) d aux none

/-- What `UnmarshalJSON` returns when the decoding into `Aux` reports no error. -/
theorem UnmarshalJSON_of_ok (field : String → Json → TorboxTorrent → TorboxTorrent × Option Err)
    (d : JsonObject) (t : TorboxTorrent)
    (hok : (unmarshal (Aux.store field) d { Alias := t, TorrentID := none, QueuedID := none }).2
      = none) :
    TorboxTorrent.UnmarshalJSON field d t =
      let aux := (unmarshal (Aux.store field) d
        { Alias := t, TorrentID := none, QueuedID := none }).1
      ({ aux.Alias with
          Id := if aux.Alias.Id = 0 then
              match aux.QueuedID with
              | some q => q
              | none =>
                match aux.TorrentID with
                | some i => i
                | none => aux.Alias.Id
            else aux.Alias.Id }, none) := by
  unfold TorboxTorrent.UnmarshalJSON
  simp only [hok]
  split_ifs with h0
  · cases hq : (unmarshal (Aux.store field) d
        { Alias := t, TorrentID := none, QueuedID := none }).1.QueuedID <;>
    cases ht : (unmarshal (Aux.store field) d
        { Alias := t, TorrentID := none, QueuedID := none }).1.TorrentID <;> rfl
  · rfl

/-- The decoding into `Aux` reports no error when `UnmarshalJSON` returns none. -/
theorem unmarshal_ok_of_UnmarshalJSON
    (field : String → Json → TorboxTorrent → TorboxTorrent × Option Err)
    (d : JsonObject) (t : TorboxTorrent) (hok : (TorboxTorrent.UnmarshalJSON field d t).2 = none) :
    (unmarshal (Aux.store field) d { Alias := t, TorrentID := none, QueuedID := none }).2
      = none := by
  unfold TorboxTorrent.UnmarshalJSON at hok
  cases h : (unmarshal (Aux.store field) d
      { Alias := t, TorrentID := none, QueuedID := none }).2 with
  | none => rfl
  | some e => simp only [h] at hok; cases hok

/-- A decoding in which every member is stored without error reports no error. -/
theorem unmarshal.members_ok_of_all {σ : Type} (store : σ → String → Json → σ × Option Err)
    (d : JsonObject) (h : ∀ m ∈ d, ∀ s, (store s m.1 m.2).2 = none) :
    ∀ s, (unmarshal.members store d s none).2 = none := by
  induction d with
  | nil => intro s; rfl
  | cons m rest ih =>
    intro s
    obtain ⟨key, v⟩ := m
    rw [unmarshal.members_cons]
    simp only [h (key, v) (List.mem_cons_self _ _) s]
    exact ih (fun m hm => h m (List.mem_cons_of_mem _ hm)) _

/-- The method `UnmarshalJSON` returns no error on an object of which every member is stored
without error. -/
theorem UnmarshalJSON_returns
    (field : String → Json → TorboxTorrent → TorboxTorrent × Option Err)
    (d : JsonObject) (t : TorboxTorrent)
    (h : ∀ m ∈ d, ∀ a, (Aux.store field a m.1 m.2).2 = none) :
    (TorboxTorrent.UnmarshalJSON field d t).2 = none := by
  have hau := unmarshal.members_ok_of_all (Aux.store field) d h
    { Alias := t, TorrentID := none, QueuedID := none }
  rw [UnmarshalJSON_of_ok field d t hau]

/-- A member `queued_id` that is `null` leaves the pointer nil: the identifier is then the
value of `torrent_id`. -/
theorem UnmarshalJSON_null_queued_id :
    (TorboxTorrent.UnmarshalJSON sampleField
      [("queued_id", Json.null), ("torrent_id", Json.int 7)] TorboxTorrent.zero).1.Id = 7 := by
  decide

/-- On an object whose member names are written as the tags are, in small letters, the
identifier read by exact names is the identifier read without regard to case. -/
theorem claimedId_eq_decodedId (d : JsonObject) (h : ∀ m ∈ d, foldName m.1 = m.1) :
    claimedId d = decodedId d := by
  have hd : foldKeys d = d := by
    unfold foldKeys
    conv_rhs => rw [← List.map_id d]
    apply List.map_congr_left
    intro m hm
    rw [h m hm]
    rfl
  unfold claimedId decodedId exactIntMember intMember
  rw [hd]

/-- C23, as the code has it. For every vendor object whose member names are distinct without
regard to case and that `UnmarshalJSON` decodes without error into a receiver whose `Id` is
zero, the names of the members being read without regard to case, as `encoding/json` reads
them: the decoded `Id` is the value of `id` when that is an integer other than zero;
otherwise the value of `queued_id` when that member has an integer value, otherwise the value
of `torrent_id` when that member has one, otherwise 0; the decoder of the type without the
method decodes the object without error too, and the decoded torrent is what that decoder
yields, but for `Id`. -/
theorem UnmarshalJSON_decodedId
    (field : String → Json → TorboxTorrent → TorboxTorrent × Option Err)
    (d : JsonObject) (t : TorboxTorrent) (hfresh : t.Id = 0)
    (hnames : ((foldKeys d).map Prod.fst).Nodup)
    (hok : (TorboxTorrent.UnmarshalJSON field d t).2 = none) :
    (TorboxTorrent.UnmarshalJSON field d t).1.Id = decodedId d ∧
      (unmarshal (Alias.store field) d t).2 = none ∧
      (TorboxTorrent.UnmarshalJSON field d t).1 =
        { (unmarshal (Alias.store field) d t).1 with Id := decodedId d } := by
  have hau := unmarshal_ok_of_UnmarshalJSON field d t hok
  have hId := unmarshal_Aux_Id field d _ hnames hau
  have hT := unmarshal_Aux_TorrentID field d _ rfl hnames hau
  have hQ := unmarshal_Aux_QueuedID field d _ rfl hnames hau
  have hA := unmarshal_Aux_Alias field d { Alias := t, TorrentID := none, QueuedID := none }
  simp only [hfresh] at hId
  have key : (if (intMember d "id").getD 0 = 0 then
        match intMember d "queued_id" with
        | some q => q
        | none =>
          match intMember d "torrent_id" with
          | some i => i
          | none => (intMember d "id").getD 0
      else (intMember d "id").getD 0) = decodedId d := by
    unfold decodedId
    cases hi : intMember d "id" with
    | none => simp
    | some n =>
      by_cases hn : n = 0
      · simp [hn]
      · simp [hn]
  have hId2 : (unmarshal (Alias.store field) d t).1.Id = (intMember d "id").getD 0 := by
    rw [← hId]; exact congrArg (fun a => a.Id) hA.1.symm
  rw [UnmarshalJSON_of_ok field d t hau]
  simp only [hT, hQ, hA.1, hId2, key]
  exact ⟨trivial, hA.2 hau, trivial⟩

/-- C23 at a queued vendor torrent that bears both optional identifiers, its names written
with capitals in part. -/
theorem UnmarshalJSON_decodedId_witness :
    TorboxTorrent.zero.Id = 0 ∧ ((foldKeys mixedObject).map Prod.fst).Nodup ∧
      (TorboxTorrent.UnmarshalJSON sampleField mixedObject TorboxTorrent.zero).2 = none ∧
      ((TorboxTorrent.UnmarshalJSON sampleField mixedObject TorboxTorrent.zero).1.Id =
          decodedId mixedObject ∧
        (unmarshal (Alias.store sampleField) mixedObject TorboxTorrent.zero).2 = none ∧
        (TorboxTorrent.UnmarshalJSON sampleField mixedObject TorboxTorrent.zero).1 =
          { (unmarshal (Alias.store sampleField) mixedObject TorboxTorrent.zero).1 with
            Id := decodedId mixedObject }) ∧
      decodedId mixedObject = 9 ∧
      (TorboxTorrent.UnmarshalJSON sampleField mixedObject TorboxTorrent.zero).1.Name =
        "sintel" :=
  ⟨rfl, by decide, rfl,
    UnmarshalJSON_decodedId sampleField mixedObject TorboxTorrent.zero rfl (by decide) rfl,
    by decide, by decide⟩

/-- C23 fails as stated: in the object `{"Id": 0, "Queued_ID": 9}` no member is named `id`,
`queued_id` or `torrent_id`, so the identifier is 0 in the words of the claim; `UnmarshalJSON`
decodes the object without error and the decoded `Id` is 9, the value of `Queued_ID`. -/
theorem UnmarshalJSON_folds_member_names :
    capitalObject.lookup "id" = none ∧ capitalObject.lookup "queued_id" = none ∧
    capitalObject.lookup "torrent_id" = none ∧ claimedId capitalObject = 0 ∧
    (TorboxTorrent.UnmarshalJSON sampleField capitalObject TorboxTorrent.zero).2 = none ∧
    (TorboxTorrent.UnmarshalJSON sampleField capitalObject TorboxTorrent.zero).1.Id = 9 ∧
    (TorboxTorrent.UnmarshalJSON sampleField capitalObject TorboxTorrent.zero).1.Id ≠
      claimedId capitalObject := by
  refine ⟨by decide, by decide, by decide, by decide, rfl, by decide, by decide⟩

end Decypharr
